import Mathlib

/-!
# SugarCane-Frontend: field boundary and vegetation-index grid

A shallow embedding of the algorithmic parts of `src/pages/Dashboard.jsx`
and `src/pages/Fields.jsx`.

Numbers.  A JavaScript number is a double; a finite double is modelled as the
rational it stands for, and every arithmetic operation of the geometry as the
exact operation followed by `fl`, the rounding to the nearest double.  The one
place where the code can divide by zero (the crossing test of
`pointInPolygon`) follows IEEE-754 explicitly: `a / 0` is `+Infinity` for
`a > 0`, `-Infinity` for `a < 0` and `NaN` for `a = 0`, and a comparison with
`NaN` is false.  Outside the geometry numbers are only compared.
-/

namespace SugarCane

/-! ## Doubles

The arithmetic of IEEE-754 binary64 with rounding to nearest, ties to even. -/

/-- The power `2^k` for an integer `k`. -/
def pow2 (k : ℤ) : ℚ :=
  if 0 ≤ k then ((2 ^ k.toNat : ℕ) : ℚ) else 1 / ((2 ^ (-k).toNat : ℕ) : ℚ)

/-- The number of halvings that bring `n` below 2, with `fuel` steps at most. -/
def log2Fuel : Nat → Nat → Nat
  | 0, _ => 0
  | fuel + 1, n => if n < 2 then 0 else log2Fuel fuel (n / 2) + 1

/-- The exponent `e` with `2^e ≤ n < 2^(e+1)`, for a natural number `n ≥ 1`. -/
def natLog2 (n : Nat) : Nat := log2Fuel n n

/-- The exponent `e` with `2^e ≤ |x| < 2^(e+1)`, for a rational `x ≠ 0`. -/
def floorLog2 (x : ℚ) : ℤ :=
  let k : ℤ := (natLog2 x.num.natAbs : ℤ) - (natLog2 x.den : ℤ)
  if pow2 k ≤ |x| then k else k - 1

/-- The integer nearest to `m`, the even one of the two when `m` is half-way. -/
def roundHalfEven (m : ℚ) : ℤ :=
  let f := ⌊m⌋
  if m - f < 1 / 2 then f
  else if 1 / 2 < m - f then f + 1
  else if f % 2 = 0 then f else f + 1

/-- The double nearest to `x`: a multiple of `2^q` with `q = max(e, -1022) - 52`,
where `2^e ≤ |x| < 2^(e+1)`; that is 53 significant bits, and the subnormal
spacing `2^-1074` below `2^-1022`.  A result of magnitude `2^1024` or more, where
a double is `Infinity`, is outside the model. -/
def fl (x : ℚ) : ℚ :=
  if x = 0 then 0
  else
    let q : ℤ := max (floorLog2 x) (-1022) - 52
    (roundHalfEven (x / pow2 q) : ℚ) * pow2 q

/-! ## Geometry (`Dashboard.jsx`, lines 302-326) -/

/-- A point as the dashboard stores it after the swap: `[lat, lng]`. -/
abbrev Point := ℚ × ℚ

/-- The literal `1e-12` of the crossing test: the double nearest to `10^-12`. -/
def eps : ℚ := 4951760157141521 / 4951760157141521099596496896

/-- The comparison `x < a / d + xi` on doubles: for `d = 0` the quotient is
`+Infinity` (`a > 0`), `-Infinity` (`a < 0`) or `NaN` (`a = 0`), so the
comparison is true exactly when `a > 0`. -/
def ltQuotPlus (x a d xi : ℚ) : Bool :=
  if d = 0 then decide (0 < a) else decide (x < fl (fl (a / d) + xi))

/-- The body of the loop of `pointInPolygon`:
`((yi > y) !== (yj > y)) && (x < (xj - xi) * (y - yi) / (yj - yi + 1e-12) + xi)`
for `point = [y, x]`, `vs[i] = [yi, xi]` and `vs[j] = [yj, xj]`. -/
def intersect (point vi vj : Point) : Bool :=
  let x := point.2
  let y := point.1
  let xi := vi.2
  let yi := vi.1
  let xj := vj.2
  let yj := vj.1
  (decide (yi > y) != decide (yj > y)) &&
    ltQuotPlus x (fl (fl (xj - xi) * fl (y - yi))) (fl (fl (yj - yi) + eps)) xi

/-- One iteration of `for (var i = 0, j = vs.length - 1; i < vs.length; j = i++)`:
the state is `(j, inside)`. -/
def pipStep (point : Point) (vs : List Point) (st : Nat × Bool) (i : Nat) : Nat × Bool :=
  (i, if intersect point (vs.getD i (0, 0)) (vs.getD st.1 (0, 0)) then !st.2 else st.2)

/-- The function `pointInPolygon(point, vs)`: ray casting over the ring `vs`. -/
def pointInPolygon (point : Point) (vs : List Point) : Bool :=
  ((List.range vs.length).foldl (pipStep point vs) (vs.length - 1, false)).2

/-! ## The NDVI grid (`Dashboard.jsx`, lines 302-353) -/

/-- The swap `([lng, lat]) => [lat, lng]` applied to every GeoJSON position. -/
def swapLngLat (pos : ℚ × ℚ) : Point := (pos.2, pos.1)

/-- The call `Math.min(...xs)` on a non-empty array.  On the empty array
JavaScript gives `+Infinity`, which no rational stands for: the value `0` is
returned there, and it is never observed, since `pointInPolygon` is false on
the empty ring and no rectangle is built. -/
def jsMin : List ℚ → ℚ
  | [] => 0
  | x :: xs => xs.foldl min x

/-- The call `Math.max(...xs)`, see `jsMin`. -/
def jsMax : List ℚ → ℚ
  | [] => 0
  | x :: xs => xs.foldl max x

/-- The helper `getColor`:
`ndvi < 0.3 ? 'red' : ndvi < 0.4 ? 'orange' : ndvi < 0.7 ? 'yellow' : 'green'`. -/
def getColor (ndvi : ℚ) : String :=
  if ndvi < 3 / 10 then "red"
  else if ndvi < 4 / 10 then "orange"
  else if ndvi < 7 / 10 then "yellow"
  else "green"

/-- The NDVI colour legend below the map (lines 369-375), in markup order:
the colour of each swatch (`bg-red-500`, `bg-orange-400`, `bg-yellow-400`,
`bg-green-500`) and its label. -/
def legend : List (String × String) :=
  [("red", "Poor"), ("orange", "Low"), ("yellow", "Fair"), ("green", "Excellent")]

/-- The label the legend shows next to the swatch of a colour. -/
def legendLabel (color : String) : Option String :=
  legend.lookup color

/-- The position of a colour in the legend, from `Poor` (0) to `Excellent` (3). -/
def bandRank (color : String) : Nat :=
  (legend.map Prod.fst).indexOf color

/-- A `<Rectangle>` element pushed to `rects`: its key `rect-${i}-${j}`, its
`bounds`, the two colours of `pathOptions`, and the local `ndvi` they were
computed from. -/
structure Rectangle where
  i : Nat
  j : Nat
  bounds : Point × Point
  ndvi : ℚ
  color : String
  fillColor : String
deriving DecidableEq

/-- The constants computed before the loops: the swapped ring, its bounding
box, the grid size and the two steps. -/
structure Grid where
  coords : List Point
  minLat : ℚ
  maxLat : ℚ
  minLng : ℚ
  maxLng : ℚ
  rows : Nat
  cols : Nat
  latStep : ℚ
  lngStep : ℚ

/-- The bounding box and the steps, lines 303-310 (`rows` and `cols` are 15 in
the source). -/
def mkGrid (coords : List Point) (rows cols : Nat) : Grid :=
  let lats := coords.map (fun c => c.1)
  let lngs := coords.map (fun c => c.2)
  let minLat := jsMin lats
  let maxLat := jsMax lats
  let minLng := jsMin lngs
  let maxLng := jsMax lngs
  { coords := coords, minLat := minLat, maxLat := maxLat, minLng := minLng, maxLng := maxLng,
    rows := rows, cols := cols,
    latStep := fl (fl (maxLat - minLat) / rows), lngStep := fl (fl (maxLng - minLng) / cols) }

/-- The value of `min + k * step` of lines 332-335, for a loop counter or its
successor `k` (an integer, exact as a double). -/
def gridLine (min step : ℚ) (k : Nat) : ℚ := fl (min + fl (k * step))

/-- The `center` of cell `(i, j)`: `[(lat1 + lat2) / 2, (lng1 + lng2) / 2]`. -/
def cellCenter (g : Grid) (i j : Nat) : Point :=
  let lat1 := gridLine g.minLat g.latStep i
  let lat2 := gridLine g.minLat g.latStep (i + 1)
  let lng1 := gridLine g.minLng g.lngStep j
  let lng2 := gridLine g.minLng g.lngStep (j + 1)
  (fl (fl (lat1 + lat2) / 2), fl (fl (lng1 + lng2) / 2))

/-- The `bounds` of cell `(i, j)`: `[[lat1, lng1], [lat2, lng2]]`. -/
def cellBounds (g : Grid) (i j : Nat) : Point × Point :=
  ((gridLine g.minLat g.latStep i, gridLine g.minLng g.lngStep j),
   (gridLine g.minLat g.latStep (i + 1), gridLine g.minLng g.lngStep (j + 1)))

/-- The state of the two loops: the array `rects` in push order, and how many
times `Math.random()` has been called. -/
structure GridState where
  rects : List Rectangle
  calls : Nat

/-- The body of the inner loop (lines 331-350).  `random k` is what the
`k`-th call of `Math.random()` returns in this run. -/
def cellStep (g : Grid) (ndviSeries : List ℚ) (random : Nat → ℚ) (i : Nat)
    (st : GridState) (j : Nat) : GridState :=
  if pointInPolygon (cellCenter g i j) g.coords then
    let ndviIdx := (i * g.cols + j) % ndviSeries.length
    let ndvi := if ndviSeries.length > 0 then ndviSeries.getD ndviIdx 0 else random st.calls
    let calls := if ndviSeries.length > 0 then st.calls else st.calls + 1
    { rects := st.rects ++
        [{ i := i, j := j, bounds := cellBounds g i j, ndvi := ndvi,
           color := getColor ndvi, fillColor := getColor ndvi }],
      calls := calls }
  else st

/-- The two nested loops `for (let i = 0; i < rows; i++) for (let j = 0; j < cols; j++)`. -/
def gridLoop (g : Grid) (ndviSeries : List ℚ) (random : Nat → ℚ) : GridState :=
  (List.range g.rows).foldl
    (fun st i => (List.range g.cols).foldl (cellStep g ndviSeries random i) st)
    { rects := [], calls := 0 }

/-- The grid of rectangles built for the swapped ring `coords`, the series
`latestPred?.result?.ndvi_series || []` and a grid of `rows` by `cols` cells. -/
def rasterize (coords : List Point) (ndviSeries : List ℚ) (random : Nat → ℚ)
    (rows cols : Nat) : List Rectangle :=
  (gridLoop (mkGrid coords rows cols) ndviSeries random).rects

/-- The rectangles of the dashboard for a stored boundary ring
`boundary.coordinates[0]` of `[lng, lat]` positions: `rows = 15, cols = 15`. -/
def ndviRects (ring : List (ℚ × ℚ)) (ndviSeries : List ℚ) (random : Nat → ℚ) :
    List Rectangle :=
  rasterize (ring.map swapLngLat) ndviSeries random 15 15

/-! ## Dates (`Date`, and `addDays` and `format` of date-fns)

The page `Fields.jsx` uses the JavaScript `Date` and two functions of the
date-fns library.  They are modelled after the ECMAScript definitions: a
`Date` holds a time value in milliseconds since the epoch (UTC), and local
fields are read through the zone offset `tz`, in minutes east of UTC, taken
constant. -/

/-- A calendar date of the proleptic Gregorian calendar; `month` runs from 1
to 12 (ECMAScript counts it from 0). -/
structure Civil where
  year : Int
  month : Int
  day : Int
deriving DecidableEq

/-- The calendar date of day number `z` (days since 1970-01-01): the
`YearFromTime`, `MonthFromTime` and `DateFromTime` of ECMAScript, computed by
eras of 400 years. -/
def civilFromDays (z : Int) : Civil :=
  let z := z + 719468
  let era := z / 146097
  let doe := z - era * 146097
  let yoe := (doe - doe / 1460 + doe / 36524 - doe / 146096) / 365
  let doy := doe - (365 * yoe + yoe / 4 - yoe / 100)
  let mp := (5 * doy + 2) / 153
  let d := doy - (153 * mp + 2) / 5 + 1
  let m := if mp < 10 then mp + 3 else mp - 9
  { year := if m ≤ 2 then yoe + era * 400 + 1 else yoe + era * 400, month := m, day := d }

/-- The day number of the calendar date `y-m-d`; `d` may lie outside the
month, as in `MakeDay(year, month, date)` of ECMAScript, which adds `date - 1`
to the day number of the first of the month. -/
def daysFromCivil (y m d : Int) : Int :=
  let y := if m ≤ 2 then y - 1 else y
  let era := y / 400
  let yoe := y - era * 400
  let doy := (153 * (if m > 2 then m - 3 else m + 9) + 2) / 5 + d - 1
  let doe := yoe * 365 + yoe / 4 - yoe / 100 + doy
  era * 146097 + doe - 719468

/-- The constant `msPerDay`. -/
def msPerDay : Int := 86400000

/-- A JavaScript `Date`: its time value. -/
structure JSDate where
  time : Int
deriving DecidableEq

/-- The abstract operation `LocalTime(t)`. -/
def localTime (tz : Int) (d : JSDate) : Int := d.time + tz * 60000

/-- The local day number `Day(LocalTime(t))`. -/
def localDay (tz : Int) (d : JSDate) : Int := localTime tz d / msPerDay

/-- The local calendar date of a `Date`. -/
def localCivil (tz : Int) (d : JSDate) : Civil := civilFromDays (localDay tz d)

/-- The method `getDate()`: the local day of the month. -/
def getDate (tz : Int) (d : JSDate) : Int := (localCivil tz d).day

/-- The method `setDate(dt)`:
`UTC(MakeDate(MakeDay(YearFromTime(t), MonthFromTime(t), dt), TimeWithinDay(t)))`
for `t = LocalTime(time)`. -/
def setDate (tz : Int) (d : JSDate) (dt : Int) : JSDate :=
  let t := localTime tz d
  let c := civilFromDays (t / msPerDay)
  let newDate := daysFromCivil c.year c.month dt * msPerDay + t % msPerDay
  { time := newDate - tz * 60000 }

/-- The function `addDays(date, amount)` of date-fns:
`if (!amount) return _date; _date.setDate(_date.getDate() + amount); return _date`. -/
def addDays (tz : Int) (date : JSDate) (amount : Int) : JSDate :=
  if amount = 0 then date else setDate tz date (getDate tz date + amount)

/-- The value of a date input or of `format(date, 'yyyy-MM-dd')`: the empty
string, or the `yyyy-MM-dd` text of a calendar date. -/
inductive DateString where
  | empty
  | ymd (c : Civil)
deriving DecidableEq

/-- The call `format(date, 'yyyy-MM-dd')` of date-fns: the local calendar date. -/
def formatYMD (tz : Int) (date : JSDate) : DateString := .ymd (localCivil tz date)

/-- The call `new Date(s)` on a date-only string `yyyy-MM-dd`: ECMAScript reads
the date-only form as UTC midnight of that date. -/
def newDateOfYMD (c : Civil) : JSDate :=
  { time := daysFromCivil c.year c.month c.day * msPerDay }

/-- The local midnight of a calendar date: the `Date` a day of the calendar
widget stands for. -/
def localMidnight (tz : Int) (c : Civil) : JSDate :=
  { time := daysFromCivil c.year c.month c.day * msPerDay - tz * 60000 }

/-! ## The field form (`Fields.jsx`) -/

/-- A GeoJSON geometry as the map hands it over: `type` and `coordinates`. -/
structure Geometry where
  type : String
  coordinates : List (List (ℚ × ℚ))
deriving DecidableEq

/-- The state `form`. -/
structure Form where
  name : String
  boundary : Option Geometry
  crop : String
deriving DecidableEq

/-- The state `dateRange`; `none` is `null`. -/
structure DateRange where
  «from» : Option JSDate
  «to» : Option JSDate
deriving DecidableEq

/-- A field record as the backend returns it. -/
structure Field where
  _id : String
  name : String
  crop : String
  boundary : Option Geometry
  «from» : Option JSDate
  «to» : Option JSDate
deriving DecidableEq

/-- The argument of `fieldsAPI.createSlot`. -/
structure SlotData where
  name : String
  boundary : Geometry
  crop : String
  «from» : JSDate
  «to» : JSDate
deriving DecidableEq

/-- The state of the page that the slot handlers read or write, and the list
of `createSlot` requests sent so far. -/
structure FieldsState where
  fields : List Field
  form : Form
  error : String
  success : String
  showAddForm : Bool
  dateRange : DateRange
  slotConfirmed : Bool
  hoveredDate : Option JSDate
  sent : List SlotData

/-- The initial state of the hooks (lines 26-38). -/
def FieldsState.init : FieldsState :=
  { fields := [], form := { name := "", boundary := none, crop := "" }, error := "",
    success := "", showAddForm := false, dateRange := { «from» := none, «to» := none },
    slotConfirmed := false, hoveredDate := none, sent := [] }

/-- The argument `range` of `handleDateRangeSelect`: the calendar calls it with
`{ from: date }`, where `date` is undefined when the day is deselected. -/
structure Range where
  «from» : Option JSDate

/-- The handler `handleDateRangeSelect(range)`, lines 139-149. -/
def handleDateRangeSelect (tz : Int) (s : FieldsState) (range : Option Range) : FieldsState :=
  match range.bind (fun r => r.«from») with
  | some f =>
    let t := addDays tz f 13
    { s with dateRange := { «from» := some f, «to» := some t }, slotConfirmed := false }
  | none =>
    { s with dateRange := { «from» := none, «to» := none }, slotConfirmed := false }

/-- What the backend does during one run of `handleConfirmSlot`: whether
`createSlot` resolves, whether a token is present, and what `getAllFields`
returns (`none` when it rejects). -/
structure Backend where
  createSlotOk : Bool
  token : Bool
  allFields : Option (List Field)

/-- The handler `handleConfirmSlot`, lines 152-202. -/
def handleConfirmSlot (b : Backend) (s : FieldsState) : FieldsState :=
  let s := { s with error := "", success := "" }
  match s.form.boundary with
  | none => { s with error := "Please select a boundary on the map." }
  | some boundary =>
    if s.form.name = "" then { s with error := "Please enter a field name." }
    else if s.form.crop = "" then { s with error := "Please select a crop category." }
    else
      match s.dateRange.«from», s.dateRange.«to» with
      | some f, some t =>
        let slotData : SlotData :=
          { name := s.form.name, boundary := boundary, crop := s.form.crop, «from» := f, «to» := t }
        let s := { s with sent := s.sent ++ [slotData] }
        if b.createSlotOk then
          let s := { s with
            success := "14-day slot and field data sent to backend!"
            slotConfirmed := true
            form := { name := "", boundary := none, crop := "" }
            dateRange := { «from» := none, «to» := none }
            hoveredDate := none
            showAddForm := false }
          if b.token then
            match b.allFields with
            | some data => { s with fields := data }
            | none => s
          else s
        else { s with error := "Failed to send slot and field data to backend" }
      | _, _ => { s with error := "Please select a 14-day slot." }

/-- The handler `handleChange` of the name input. -/
def handleChange (s : FieldsState) (value : String) : FieldsState :=
  { s with form := { s.form with name := value } }

/-- The handler `handleCropChange`. -/
def handleCropChange (s : FieldsState) (value : String) : FieldsState :=
  { s with form := { s.form with crop := value } }

/-- The handler `handleBoundaryChange`. -/
def handleBoundaryChange (s : FieldsState) (geojson : Option Geometry) : FieldsState :=
  { s with form := { s.form with boundary := geojson } }

/-- An event of the field-creation form. -/
inductive FormEvent where
  | selectDate (range : Option Range)
  | confirmSlot (b : Backend)
  | changeName (value : String)
  | changeCrop (value : String)
  | changeBoundary (geojson : Option Geometry)

/-- The state after one event. -/
def FieldsState.step (tz : Int) (s : FieldsState) : FormEvent → FieldsState
  | .selectDate range => handleDateRangeSelect tz s range
  | .confirmSlot b => handleConfirmSlot b s
  | .changeName v => handleChange s v
  | .changeCrop v => handleCropChange s v
  | .changeBoundary g => handleBoundaryChange s g

/-- The state after a sequence of events, from the initial state. -/
def FieldsState.run (tz : Int) (events : List FormEvent) : FieldsState :=
  events.foldl (FieldsState.step tz) FieldsState.init

/-- The state `editForm` of the edit panel. -/
structure EditForm where
  name : String
  crop : String
  «from» : DateString
  «to» : DateString
  saving : Bool
deriving DecidableEq

/-- The `onChange` handler of the date input of the edit panel, lines 618-622:
`to = from ? format(addDays(new Date(from), 13), 'yyyy-MM-dd') : ''`. -/
def editFromChange (tz : Int) (editForm : EditForm) (value : DateString) : EditForm :=
  let f := value
  let t := match f with
    | .empty => DateString.empty
    | .ymd c => formatYMD tz (addDays tz (newDateOfYMD c) 13)
  { editForm with «from» := f, «to» := t }

/-! ## Crossing counts, as the specification words them -/

/-- The index of the vertex before `vs[i]` in a ring of `n` vertices, taken
cyclically: the last vertex comes before the first. -/
def prevIndex (n i : Nat) : Nat := (i + n - 1) % n

/-- An edge from `vj` to `vi` straddles the latitude of `p`: one and only one
of its endpoints has latitude strictly greater than that of `p`. -/
def straddles (p vi vj : Point) : Bool :=
  (decide (vi.1 > p.1) && !decide (vj.1 > p.1)) || (!decide (vi.1 > p.1) && decide (vj.1 > p.1))

/-- The crossing test of the specification: the edge straddles the latitude of
`p` and the exact longitude at which it meets that latitude is strictly
greater than the longitude of `p`. -/
def crossesExact (p vi vj : Point) : Bool :=
  straddles p vi vj && decide (p.2 < vi.2 + (vj.2 - vi.2) * (p.1 - vi.1) / (vj.1 - vi.1))

/-- The crossing test as the code computes it, in doubles: the edge straddles
the latitude of `p` and `x < a / d + xi` for `a = (xj - xi) * (y - yi)` and
`d = yj - yi + 1e-12`, every operation rounded; for `d = 0` the quotient is an
infinity or `NaN` and the comparison is true exactly when `a > 0`. -/
def crossesEps (p vi vj : Point) : Bool :=
  straddles p vi vj &&
    (if fl (fl (vj.1 - vi.1) + eps) = 0 then
      decide (0 < fl (fl (vj.2 - vi.2) * fl (p.1 - vi.1)))
    else
      decide (p.2 <
        fl (fl (fl (fl (vj.2 - vi.2) * fl (p.1 - vi.1)) / fl (fl (vj.1 - vi.1) + eps)) + vi.2)))

/-- The number of ring edges `(vs[i], vs[i-1])`, taken cyclically, that cross
the ray of `p` according to the test `crosses`. -/
def crossingCount (crosses : Point → Point → Point → Bool) (p : Point) (vs : List Point) : Nat :=
  (List.range vs.length).countP
    (fun i => crosses p (vs.getD i (0, 0)) (vs.getD (prevIndex vs.length i) (0, 0)))

/-! ## The grid, cell by cell -/

/-- The cells `(i, j)` in the order in which the two loops visit them. -/
def gridCells (rows cols : Nat) : List (Nat × Nat) :=
  (List.range rows).flatMap (fun i => (List.range cols).map (fun j => (i, j)))

/-- The test of line 338 for the cell `c = (i, j)`. -/
def centerInside (g : Grid) (c : Nat × Nat) : Bool :=
  pointInPolygon (cellCenter g c.1 c.2) g.coords

/-- The position of a rectangle: its key and its bounds. -/
def Rectangle.position (r : Rectangle) : Nat × Nat × Point × Point := (r.i, r.j, r.bounds)

/-- The rectangle of cell `c = (i, j)` when its value is read from the series. -/
def seriesRect (g : Grid) (ndviSeries : List ℚ) (c : Nat × Nat) : Rectangle :=
  let ndvi := ndviSeries.getD ((c.1 * g.cols + c.2) % ndviSeries.length) 0
  { i := c.1, j := c.2, bounds := cellBounds g c.1 c.2, ndvi := ndvi,
    color := getColor ndvi, fillColor := getColor ndvi }

/-- The invariant of the slot, as the specification words it: `from` and `to`
are both null, or both set with `to` on the calendar date 13 days after
`from`. -/
def SlotOk (tz : Int) (dr : DateRange) : Prop :=
  (dr.«from» = none ∧ dr.«to» = none) ∨
    ∃ f t, dr.«from» = some f ∧ dr.«to» = some t ∧ localDay tz t = localDay tz f + 13

/-! ## Concrete inputs -/

/-- An edit form as the Edit button fills it for a stored field. -/
def storedEdit : EditForm :=
  { name := "North field", crop := "sugarcane", «from» := .ymd ⟨2024, 6, 1⟩,
    «to» := .ymd ⟨2024, 6, 14⟩, saving := false }


/-- A rectangle ring whose two latitudes differ by `1e-12`. -/
def thinRect : List Point := [(0, 0), (0, 1), (eps, 1), (eps, 0)]


/-- A triangle with one slanted edge, from `(0, 0)` to `(1, 100)`. -/
def triangle : List Point := [(0, 0), (1, 100), (1, 0)]

/-- A point of the triangle, `2.5e-11` degrees of longitude away from the
slanted edge: `[0.5, 49.999999999975]`. -/
def nearEdge : Point := (1 / 2, fl (50 - 1 / 40000000000))


/-- The square ring of the specification. -/
def square : List Point := [(0, 0), (0, 2), (2, 2), (2, 0)]

/-- A ring with a step at longitude `0.875`: the positions
`[[0,0],[5.25,0],[5.25,1],[0.875,1],[0.875,15],[0,15]]` of `[lng, lat]`, swapped. -/
def stepRing : List Point :=
  [(0, 0), (0, 21 / 4), (1, 21 / 4), (1, 7 / 8), (15, 7 / 8), (15, 0)]

/-- The square ring `[[0,0],[7.75,0],[7.75,7.75],[0,7.75]]` of `[lng, lat]`
positions, swapped. -/
def sevenSquare : List Point := [(0, 0), (0, 31 / 4), (31 / 4, 31 / 4), (31 / 4, 0)]

/-- A thin L-shaped ring along two sides of its bounding box `[0, 15] x [0, 15]`. -/
def lshape : List Point :=
  [(0, 0), (0, 15), (fl (1 / 10), 15), (fl (1 / 10), fl (1 / 10)), (15, fl (1 / 10)), (15, 0)]


/-! ## The edit panel (`Fields.jsx`, lines 503-512 and 584-660) -/

/-- The argument `slotData` of `fieldsAPI.updateSlot(id, slotData)`. -/
structure SlotUpdate where
  name : String
  crop : String
  «from» : DateString
  «to» : DateString
deriving DecidableEq

/-- The state the edit panel reads or writes: the list `fields`, the hooks
`editField` and `editForm`, and the `updateSlot` requests sent so far, each
with the id it was sent for. -/
structure EditState where
  fields : List Field
  editField : Option String
  editForm : Option EditForm
  updates : List (String × SlotUpdate)

/-- The edit panel before any click: `editField` and `editForm` are null. -/
def EditState.init (fields : List Field) : EditState :=
  { fields := fields, editField := none, editForm := none, updates := [] }

/-- The text the Edit button puts in a date input:
`field.from ? format(new Date(field.from), 'yyyy-MM-dd') : ''`. -/
def dateOfStored (tz : Int) : Option JSDate → DateString
  | some d => formatYMD tz d
  | none => DateString.empty

/-- The `onClick` of the Edit button of a field card, lines 503-512. -/
def clickEdit (tz : Int) (s : EditState) (field : Field) : EditState :=
  { s with
    editField := some field._id
    editForm := some
      { name := field.name, crop := field.crop, «from» := dateOfStored tz field.«from»,
        «to» := dateOfStored tz field.«to», saving := false } }

/-- The `disabled` attribute of the Save Changes button, line 654:
`!editForm.name || !editForm.crop || !editForm.from || !editForm.to || editForm.saving`. -/
def saveDisabled (editForm : EditForm) : Bool :=
  decide (editForm.name = "") || decide (editForm.crop = "") ||
    decide (editForm.«from» = DateString.empty) || decide (editForm.«to» = DateString.empty) ||
    editForm.saving

/-- A click on Save Changes, lines 631-640, up to the `await`: a disabled button
does nothing; otherwise the form is marked as saving and
`updateSlot(field._id, ...)` is called for the field of the panel, with the
form of the render in which the button was clicked. -/
def clickSave (s : EditState) : EditState :=
  match s.editField, s.editForm with
  | some id, some editForm =>
    if saveDisabled editForm then s
    else
      let slotData : SlotUpdate :=
        { name := editForm.name, crop := editForm.crop, «from» := editForm.«from»,
          «to» := editForm.«to» }
      { s with editForm := some { editForm with saving := true },
               updates := s.updates ++ [(id, slotData)] }
  | _, _ => s

/-- The value `{ ...editForm, saving: false }` of line 651, for the `editForm`
of the render in which the request `u` was sent: the button was enabled, so
that form had the four values of the request. -/
def staleForm (u : SlotUpdate) : EditForm :=
  { name := u.name, crop := u.crop, «from» := u.«from», «to» := u.«to», saving := false }

/-- The `catch` block of the handler that sent the `k`-th request, lines 649-652:
it runs when `updateSlot` or `getAllFields` rejects, whatever the panel shows by
then, and puts back the form of its own render. -/
def saveFailed (s : EditState) (k : Nat) : EditState :=
  match s.updates[k]? with
  | some (_, u) => { s with editForm := some (staleForm u) }
  | none => s

/-- An event of the edit panel: a click or an input of the user, or the
continuation of a Save Changes handler after its `await`: the `catch` block of
the `k`-th request, the callback of the `setTimeout` of line 643, or
`setFields(res.data)`.  The continuations may come at any time after the click,
between other events. -/
inductive EditEvent where
  | clickEdit (field : Field)
  | changeName (value : String)
  | changeCrop (value : String)
  | changeFrom (value : DateString)
  | clickSave
  | clickClose
  | saveFailed (k : Nat)
  | closeTimer
  | fieldsLoaded (data : List Field)

/-- The state of the edit panel after one event. -/
def EditState.step (tz : Int) (s : EditState) : EditEvent → EditState
  | .clickEdit field => clickEdit tz s field
  | .changeName v => { s with editForm := s.editForm.map (fun f => { f with name := v }) }
  | .changeCrop v => { s with editForm := s.editForm.map (fun f => { f with crop := v }) }
  | .changeFrom v => { s with editForm := s.editForm.map (fun f => editFromChange tz f v) }
  | .clickSave => clickSave s
  | .clickClose => { s with editField := none, editForm := none }
  | .saveFailed k => saveFailed s k
  | .closeTimer => { s with editField := none, editForm := none }
  | .fieldsLoaded data => { s with fields := data }

/-- The state of the edit panel after a sequence of events. -/
def EditState.run (tz : Int) (fields : List Field) (events : List EditEvent) : EditState :=
  events.foldl (EditState.step tz) (EditState.init fields)

/-- The calendar date of `t` is 13 days after that of `f`, for two texts of
date inputs. -/
def ThirteenDaysAfter (f t : DateString) : Prop :=
  ∃ c, f = DateString.ymd c ∧
    t = DateString.ymd (civilFromDays (daysFromCivil c.year c.month c.day + 13))

/-- Where a pair of dates of the edit panel comes from: it is the pair of a
stored field on which Edit was clicked, as the button formatted it, or `t` is
13 days after `f`. -/
def DatesFrom (tz : Int) (events : List EditEvent) (f t : DateString) : Prop :=
  (∃ field, EditEvent.clickEdit field ∈ events ∧
      f = dateOfStored tz field.«from» ∧ t = dateOfStored tz field.«to») ∨
    ThirteenDaysAfter f t

/-- The invariant of the edit panel after the events `events`: every update
sent has a name, a crop and two dates, whose origin `DatesFrom` tells, and the
dates of the form, when there is one, are both empty or have such an origin. -/
def EditInv (tz : Int) (events : List EditEvent) (s : EditState) : Prop :=
  (∀ id u, (id, u) ∈ s.updates →
    u.name ≠ "" ∧ u.crop ≠ "" ∧ u.«from» ≠ DateString.empty ∧ u.«to» ≠ DateString.empty ∧
      DatesFrom tz events u.«from» u.«to») ∧
  (∀ form, s.editForm = some form →
    (form.«from» = DateString.empty ∧ form.«to» = DateString.empty) ∨
      DatesFrom tz events form.«from» form.«to»)

/-! ## Health status (`Dashboard.jsx`, lines 99-104 and 759-770) -/

/-- The object `getHealthStatus` returns. -/
structure HealthStatus where
  status : String
  color : String
deriving DecidableEq

/-- The helper `getHealthStatus(ndvi)`; `none` is `undefined`. -/
def getHealthStatus (ndvi : Option ℚ) : HealthStatus :=
  match ndvi with
  | none => { status := "No Data", color := "secondary" }
  | some ndvi =>
    if ndvi < 4 / 10 then { status := "Poor", color := "destructive" }
    else if ndvi < 7 / 10 then { status := "Fair", color := "default" }
    else { status := "Excellent", color := "default" }

/-- The `background` of the health-status bar, lines 762-769, for a numeric
`currentNDVI`. -/
def healthBarBackground (currentNDVI : ℚ) : String :=
  if currentNDVI < 3 / 10 then "red"
  else if currentNDVI < 4 / 10 then "orange"
  else if currentNDVI < 7 / 10 then "yellow"
  else "green"

/-! ## Drawing on the map (`FieldMap.jsx`, lines 96-115) -/

/-- The loop of lines 100-103 over the points of a drawn path:
`distance += latlngs[i - 1].distanceTo(latlngs[i])` for `i` from 1 while
`i < latlngs.length`.  The method `distanceTo` belongs to Leaflet and is a
parameter. -/
def measure {α : Type} [Zero α] [Add α] (distanceTo : α × α → α × α → α)
    (latlngs : List (α × α)) : α :=
  (List.range' 1 (latlngs.length - 1)).foldl
    (fun distance i =>
      distance + distanceTo (latlngs.getD (i - 1) (0, 0)) (latlngs.getD i (0, 0)))
    0

/-- A layer handed over by the draw plugin: what `getLatLngs()` returns and the
geometry of `toGeoJSON()`. -/
structure Layer where
  latlngs : List Point
  geometry : Geometry
deriving DecidableEq

/-- The event of `L.Draw.Event.CREATED`. -/
structure DrawEvent where
  layerType : String
  layer : Layer
deriving DecidableEq

/-- The page with its map: the state of `Fields`, the layers of the feature
group `drawnItems`, and the distances reported by `toast`, in metres. -/
structure PageState where
  page : FieldsState
  drawnItems : List Layer
  distances : List ℚ

/-- The page around a state of `Fields`, with nothing drawn yet. -/
def PageState.init (page : FieldsState) : PageState :=
  { page := page, drawnItems := [], distances := [] }

/-- The handler `onCreated` of `DrawControl`, lines 96-115, with
`onBoundaryChange` the `handleBoundaryChange` that `Fields` passes. -/
def onCreated (distanceTo : Point → Point → ℚ) (measureMode : Bool) (s : PageState)
    (event : DrawEvent) : PageState :=
  if measureMode && decide (event.layerType = "polyline") then
    let latlngs := event.layer.latlngs
    let distance := measure distanceTo latlngs
    { s with distances := s.distances ++ [distance], drawnItems := [event.layer] }
  else if !measureMode && decide (event.layerType = "polygon") then
    let geojson := event.layer.geometry
    { s with drawnItems := [event.layer],
             page := handleBoundaryChange s.page (some geojson) }
  else s

/-- The page after a sequence of draw events, each with the measure mode in
force when it arrives. -/
def drawRun (distanceTo : Point → Point → ℚ) (s : PageState)
    (events : List (Bool × DrawEvent)) : PageState :=
  events.foldl (fun s e => onCreated distanceTo e.1 s e.2) s

/-- The event is handled by one of the two branches of `onCreated`. -/
def isHandled (e : Bool × DrawEvent) : Bool :=
  (e.1 && decide (e.2.layerType = "polyline")) || (!e.1 && decide (e.2.layerType = "polygon"))

/-- The event is a polygon drawn in boundary mode. -/
def isBoundaryDraw (e : Bool × DrawEvent) : Bool :=
  !e.1 && decide (e.2.layerType = "polygon")

/-- Modelled from the spec: `haversineDistance(p1, p2)`, the great-circle
distance in metres by the haversine formula on a sphere of radius 6,371,000 m,
for points in degrees.  The repository has no distance function of its own: it
calls `distanceTo` of Leaflet. -/
noncomputable def haversineDistance (p1 p2 : ℝ × ℝ) : ℝ :=
  let rad := Real.pi / 180
  let dLat := (p2.1 - p1.1) * rad
  let dLng := (p2.2 - p1.2) * rad
  let a := Real.sin (dLat / 2) ^ 2 +
    Real.cos (p1.1 * rad) * Real.cos (p2.1 * rad) * Real.sin (dLng / 2) ^ 2
  2 * 6371000 * Real.arcsin (Real.sqrt a)

/-! ## More concrete inputs -/

/-- A stored field whose `to` is 9 days after its `from`. -/
def nineDayField : Field :=
  { _id := "f1", name := "North field", crop := "sugarcane", boundary := none,
    «from» := some (localMidnight 0 ⟨2025, 1, 1⟩), «to» := some (localMidnight 0 ⟨2025, 1, 10⟩) }

/-- Another stored field, with a slot of 14 days. -/
def southField : Field :=
  { _id := "f2", name := "South field", crop := "wheat", boundary := none,
    «from» := some (localMidnight 0 ⟨2025, 3, 1⟩), «to» := some (localMidnight 0 ⟨2025, 3, 14⟩) }

/-- A ring of two points whose latitudes differ by `2e-12`. -/
def twoPoints : List Point := [(0, 0), (2 * eps, 1)]

/-- A geometry whose ring has two positions only. -/
def shortGeometry : Geometry := { type := "Polygon", coordinates := [[(0, 0), (1, 1)]] }

/-- A geometry whose ring repeats a position. -/
def repeatedGeometry : Geometry :=
  { type := "Polygon", coordinates := [[(0, 0), (0, 0), (1, 1), (1, 0), (0, 0)]] }

/-- A session of the page: a polygon with geometry `g` is drawn in boundary
mode, then the name, the crop and the slot are entered and Save Field is
clicked, the backend accepting the request. -/
def drawThenSave (g : Geometry) : FieldsState :=
  let s := onCreated (fun _ _ => 0) false (PageState.init FieldsState.init)
    { layerType := "polygon", layer := { latlngs := [], geometry := g } }
  let page := handleChange s.page "North field"
  let page := handleCropChange page "sugarcane"
  let page := handleDateRangeSelect 0 page (some { «from» := some (localMidnight 0 ⟨2025, 1, 1⟩) })
  handleConfirmSlot { createSlotOk := true, token := true, allFields := none } page

/-! ## Predictions (`Dashboard.jsx`, lines 84-97 and 786-807) -/

/-- The property `field` of a prediction: an object with an `_id`, a string, or
anything else (`missing`).  Ids are kept as the strings `String(...)` gives. -/
inductive PredField where
  | missing
  | object (_id : String)
  | string (id : String)
deriving DecidableEq

/-- The property `yield` of a result as JavaScript sees it in a comparison:
`undefined`, `null` or a number. -/
inductive YieldValue where
  | undefined
  | null
  | number (v : ℚ)
deriving DecidableEq

/-- The property `result` of a prediction. -/
structure PredResult where
  yield : YieldValue
deriving DecidableEq

/-- A prediction record; `createdAt` is the time value of `new Date(p.createdAt)`. -/
structure Prediction where
  field : PredField
  createdAt : Int
  result : Option PredResult
deriving DecidableEq

/-- The test of the `filter` of `getPredictionsForField`:
`(p.field && typeof p.field === 'object' && String(p.field._id) === String(fieldId)) ||
(typeof p.field === 'string' && String(p.field) === String(fieldId))`. -/
def belongsTo (fieldId : String) (p : Prediction) : Bool :=
  match p.field with
  | .object _id => decide (_id = fieldId)
  | .string id => decide (id = fieldId)
  | .missing => false

/-- The helper `getPredictionsForField(fieldId)`: the `filter`, then the `sort`
by `new Date(a.createdAt) - new Date(b.createdAt)`.  The sort of JavaScript is
stable; insertion sort stands for it. -/
def getPredictionsForField (predictions : List Prediction) (fieldId : String) :
    List Prediction :=
  (predictions.filter (belongsTo fieldId)).insertionSort (fun a b => a.createdAt ≤ b.createdAt)

/-- The helper `getLatestPrediction(fieldId)`; `none` is `null`. -/
def getLatestPrediction (predictions : List Prediction) (fieldId : String) :
    Option Prediction :=
  let preds := getPredictionsForField predictions fieldId
  if preds.length = 0 then none else preds.getLast?

/-- The value of `latestPred?.result?.yield`. -/
def latestYield (latestPred : Option Prediction) : YieldValue :=
  match latestPred with
  | none => YieldValue.undefined
  | some p =>
    match p.result with
    | none => YieldValue.undefined
    | some r => r.yield

/-- The comparison `y < c` of JavaScript for a numeric literal `c`: `undefined`
becomes `NaN` and compares false, `null` becomes 0. -/
def yieldLt (y : YieldValue) (c : ℚ) : Bool :=
  match y with
  | .undefined => false
  | .null => decide (0 < c)
  | .number v => decide (v < c)

/-- The label of the Final Prediction card, line 806:
`yield < 2 ? 'Low Yield' : yield < 4 ? 'Medium Yield' : 'High Yield'`. -/
def yieldBand (latestPred : Option Prediction) : String :=
  if yieldLt (latestYield latestPred) 2 then "Low Yield"
  else if yieldLt (latestYield latestPred) 4 then "Medium Yield"
  else "High Yield"

/-- The figure of the Final Prediction card, lines 789-791: the yield when
`latestPred && latestPred.result && typeof latestPred.result.yield === 'number'`,
and `none` for the text `N/A`. -/
def yieldShown (latestPred : Option Prediction) : Option ℚ :=
  match latestPred with
  | none => none
  | some p =>
    match p.result with
    | none => none
    | some r =>
      match r.yield with
      | .number v => some v
      | _ => none

/-! ## The feedback form (`Feedback.jsx`, lines 14-61)

A JavaScript string is modelled as the list of its characters (code points);
its `length` is the number of its UTF-16 code units, `jsLength`.  Strings with
an unpaired surrogate are outside the model. -/

/-- The characters the class `\s` of a regular expression and `trim()` take as
white space. -/
def isJsSpace (c : Char) : Bool :=
  let n := c.toNat
  n = 9 || n = 10 || n = 11 || n = 12 || n = 13 || n = 32 || n = 160 || n = 5760 ||
    (8192 ≤ n && n ≤ 8202) || n = 8232 || n = 8233 || n = 8239 || n = 8287 || n = 12288 ||
    n = 65279

/-- The class `[^\s@]`. -/
def notSpaceOrAt (c : Char) : Bool := !isJsSpace c && !decide (c = '@')

/-- An item of a regular expression: a class repeated one or more times, or a
literal character. -/
inductive RxItem where
  | plus (cls : Char → Bool)
  | lit (c : Char)

/-- The inputs left after `[cls]+` has consumed one or more characters, one for
every number of characters it can consume. -/
def plusRemainders (cls : Char → Bool) : List Char → List (List Char)
  | [] => []
  | c :: t => if cls c then t :: plusRemainders cls t else []

/-- The inputs left after an item has matched at the start of `s`. -/
def RxItem.remainders : RxItem → List Char → List (List Char)
  | .plus cls, s => plusRemainders cls s
  | .lit a, c :: t => if c = a then [t] else []
  | .lit _, [] => []

/-- The method `test` for a pattern `^ items $`: some way of matching the items
in turn consumes the whole input. -/
def rxTest : List RxItem → List Char → Bool
  | [], s => s.isEmpty
  | item :: rest, s => (item.remainders s).any (rxTest rest)

/-- The function `validateEmail`: `/^[^\s@]+@[^\s@]+\.[^\s@]+$/.test(email)`. -/
def validateEmail (email : List Char) : Bool :=
  rxTest [.plus notSpaceOrAt, .lit '@', .plus notSpaceOrAt, .lit '.', .plus notSpaceOrAt] email

/-- The method `trim()`. -/
def jsTrim (s : List Char) : List Char :=
  ((s.dropWhile isJsSpace).reverse.dropWhile isJsSpace).reverse

/-- The state `form` of the feedback page, and the argument of
`feedbackAPI.submitFeedback`. -/
structure FeedbackForm where
  username : List Char
  email : List Char
  subject : List Char
  message : List Char
deriving DecidableEq

/-- The number of UTF-16 code units of a character: two outside the Basic
Multilingual Plane. -/
def codeUnits (c : Char) : Nat := if c.toNat < 65536 then 1 else 2

/-- The property `length` of a string: the number of its UTF-16 code units. -/
def jsLength (s : List Char) : Nat := (s.map codeUnits).sum

/-- The function `validateForm`, lines 31-39. -/
def validateForm (f : FeedbackForm) : String :=
  if (jsTrim f.username).isEmpty then "Username is required."
  else if (jsTrim f.email).isEmpty then "Email is required."
  else if !validateEmail (jsTrim f.email) then "Please enter a valid email address."
  else if (jsTrim f.message).isEmpty then "Feedback cannot be empty."
  else if jsLength (jsTrim f.message) < 10 then "Feedback must be at least 10 characters."
  else if jsLength f.message > 1000 then "Feedback cannot exceed 1000 characters."
  else ""

/-- The state of the feedback page, and the requests sent so far. -/
structure FeedbackState where
  form : FeedbackForm
  success : String
  error : String
  loading : Bool
  submitted : List FeedbackForm

/-- How `submitFeedback` ends: it resolves, or rejects with a response of
status 401, with another response (and its message, if any), without a
response, or before the request was made. -/
inductive SubmitOutcome where
  | ok
  | unauthorized
  | rejected (message : Option String)
  | noResponse
  | notSent

/-- The handler `handleSubmit`, lines 45-79; `username` and `email` are those of
the logged-in user, or empty. -/
def handleSubmit (username email : List Char) (outcome : SubmitOutcome) (s : FeedbackState) :
    FeedbackState :=
  let s := { s with success := "", error := "" }
  let validationError := validateForm s.form
  if validationError ≠ "" then { s with error := validationError }
  else
    let data : FeedbackForm :=
      { username := jsTrim s.form.username, email := jsTrim s.form.email,
        subject := jsTrim s.form.subject, message := jsTrim s.form.message }
    let s := { s with loading := true, submitted := s.submitted ++ [data] }
    match outcome with
    | .ok =>
      { s with success := "Thank you for your feedback!",
               form := { username := username, email := email, subject := [], message := [] },
               loading := false }
    | .unauthorized =>
      { s with error := "You must be logged in to submit feedback.", loading := false }
    | .rejected message =>
      { s with error := message.getD "Failed to submit feedback.", loading := false }
    | .noResponse =>
      { s with error := "Network error. Please check your connection.", loading := false }
    | .notSent => { s with error := "An unexpected error occurred.", loading := false }

/-! ## Margins around the edges of a ring -/

/-- The exact longitude at which the line through `vi` and `vj` meets the
latitude `y`. -/
def crossingLng (y : ℚ) (vi vj : Point) : ℚ :=
  vi.2 + (vj.2 - vi.2) * (y - vi.1) / (vj.1 - vi.1)

/-- The point `p` keeps clear of the edge between `vi` and `vj`: when the edge
straddles its latitude, the latitudes of the endpoints differ by at least
`2e-12` and the longitude of `p` is further from the exact crossing than
`|xj - xi| * 1e-12 / (|yj - yi| - 1e-12) + 2^-36`, the shift that the added
`1e-12` causes and a bound on the rounding of the five operations. -/
def ClearOfEdge (p vi vj : Point) : Prop :=
  straddles p vi vj = true →
    2 * eps ≤ |vj.1 - vi.1| ∧
      |vj.2 - vi.2| * eps / (|vj.1 - vi.1| - eps) + 1 / 2 ^ 36 <
        |p.2 - crossingLng p.1 vi vj|

/-- The coordinates of the ring are at most 512 in absolute value, as degrees
are, and the point `p` keeps clear of every edge `(vs[i], vs[i-1])`. -/
def ClearOfRing (p : Point) (vs : List Point) : Prop :=
  (∀ v ∈ vs, |v.1| ≤ 512 ∧ |v.2| ≤ 512) ∧
    ∀ i, i < vs.length →
      ClearOfEdge p (vs.getD i (0, 0)) (vs.getD (prevIndex vs.length i) (0, 0))

/-- The number of steps `(l[k+1], l[k])` along the path `l` that satisfy `r`. -/
def pathCount (r : Point → Point → Bool) : List Point → Nat
  | [] => 0
  | [_] => 0
  | a :: b :: t => (if r b a then 1 else 0) + pathCount r (b :: t)

instance clearOfEdgeDecidable (p vi vj : Point) : Decidable (ClearOfEdge p vi vj) :=
  inferInstanceAs (Decidable (straddles p vi vj = true →
    2 * eps ≤ |vj.1 - vi.1| ∧
      |vj.2 - vi.2| * eps / (|vj.1 - vi.1| - eps) + 1 / 2 ^ 36 <
        |p.2 - crossingLng p.1 vi vj|))

instance clearOfRingDecidable (p : Point) (vs : List Point) : Decidable (ClearOfRing p vs) :=
  inferInstanceAs (Decidable ((∀ v ∈ vs, |v.1| ≤ 512 ∧ |v.2| ≤ 512) ∧
    ∀ i, i < vs.length →
      ClearOfEdge p (vs.getD i (0, 0)) (vs.getD (prevIndex vs.length i) (0, 0))))

/-! ## Concrete inputs for the later checks -/

/-- A triangle whose latitudes span `2e-12`. -/
def tinyTriangle : List Point := [(0, 0), (2 * eps, 1), (2 * eps, 0)]

/-- A triangle with bounding box `[0, 1] x [0, 1]`. -/
def unitTriangle : List Point := [(0, 1), (1, 0), (1, 1)]

/-- A point `5e-13` degrees east of the bounding box of `unitTriangle`:
`[0, 1.0000000000005]`. -/
def eastOfBox : Point := (0, fl (1 + eps / 2))

/-! ## Ray casting -/

theorem parity_fold (c : Nat → Nat → Bool) (j0 k : Nat) :
    (List.range k).foldl (fun (st : Nat × Bool) i => (i, if c i st.1 then !st.2 else st.2))
        (j0, false) =
      (if k = 0 then j0 else k - 1,
       decide (Odd ((List.range k).countP (fun i => c i (if i = 0 then j0 else i - 1))))) := by
  induction k with
  | zero => simp
  | succ k ih =>
    rw [List.range_succ, List.foldl_append, ih, List.countP_append]
    by_cases hk : k = 0
    · subst hk
      cases hc : c 0 j0 <;> simp [hc, List.countP_cons]
    · cases hc : c k (k - 1) <;>
        simp [hc, hk, List.countP_cons, Nat.odd_add_one, ← Nat.not_odd_iff_even]

theorem pipStep_fold (p : Point) (vs : List Point) (k : Nat) :
    (List.range k).foldl (pipStep p vs) (vs.length - 1, false) =
      (if k = 0 then vs.length - 1 else k - 1,
       decide (Odd ((List.range k).countP (fun i =>
         intersect p (vs.getD i (0, 0))
           (vs.getD (if i = 0 then vs.length - 1 else i - 1) (0, 0)))))) :=
  parity_fold (fun i j => intersect p (vs.getD i (0, 0)) (vs.getD j (0, 0))) (vs.length - 1) k

theorem prevIndex_eq (n i : Nat) (h : i < n) :
    prevIndex n i = if i = 0 then n - 1 else i - 1 := by
  unfold prevIndex
  split_ifs with h0
  · subst h0
    rw [Nat.zero_add]
    exact Nat.mod_eq_of_lt (by omega)
  · have : i + n - 1 = (i - 1) + n := by omega
    rw [this, Nat.add_mod_right]
    exact Nat.mod_eq_of_lt (by omega)

theorem pointInPolygon_eq_odd (p : Point) (vs : List Point) :
    pointInPolygon p vs = decide (Odd (crossingCount intersect p vs)) := by
  unfold pointInPolygon crossingCount
  rw [pipStep_fold]
  simp only
  congr 2
  apply List.countP_congr
  intro i hi
  rw [prevIndex_eq _ _ (List.mem_range.1 hi)]

theorem bne_eq_straddles (p vi vj : Point) :
    (decide (vi.1 > p.1) != decide (vj.1 > p.1)) = straddles p vi vj := by
  unfold straddles
  generalize decide (vi.1 > p.1) = a
  generalize decide (vj.1 > p.1) = b
  cases a <;> cases b <;> rfl

theorem intersect_eq_crossesEps (p vi vj : Point) :
    intersect p vi vj = crossesEps p vi vj := by
  unfold intersect crossesEps ltQuotPlus
  simp only [bne_eq_straddles]

/-- C1, as the code has it: `pointInPolygon(p, vs)` is true exactly when an
odd number of ring edges `(vs[i], vs[i-1])`, taken cyclically, cross the ray of
`p`, where an edge crosses when one and only one of its endpoints has latitude
strictly greater than that of `p` and the longitude that the code computes in
doubles, `(xj - xi) * (y - yi) / (yj - yi + 1e-12) + xi` with every operation
rounded, is strictly greater than the longitude of `p`. -/
theorem pointInPolygon_iff_odd_crossings (p : Point) (vs : List Point) :
    pointInPolygon p vs = true ↔ Odd (crossingCount crossesEps p vs) := by
  rw [pointInPolygon_eq_odd, decide_eq_true_iff]
  have : crossingCount intersect p vs = crossingCount crossesEps p vs := by
    unfold crossingCount
    apply List.countP_congr
    intro i _
    rw [intersect_eq_crossesEps]
  rw [this]

set_option maxRecDepth 100000 in
/-- C1, as stated, fails: the point `nearEdge` lies in the triangle and exactly
one edge crosses its ray, at the exact longitude 50, yet `pointInPolygon`
returns false, the longitude computed with the divisor `yj - yi + 1e-12`
being smaller than that of the point. -/
theorem pointInPolygon_exact_crossings_fails :
    ¬ (pointInPolygon nearEdge triangle = true ↔
        Odd (crossingCount crossesExact nearEdge triangle)) := by
  with_unfolding_all decide

set_option maxRecDepth 100000 in
/-- C2 at the failing input: the ring `thinRect` is a rectangle with
`a = 0 < b = 1e-12` and `c = 0 < d = 1`, the point `(5e-13, 0.5)` lies strictly
inside it, and `pointInPolygon` returns false: on the edge from `(0, 1)` to
`(1e-12, 1)` the divisor `yj - yi + 1e-12` is zero and the comparison with
`0 / 0` is false.  The point is the centre of cell `(7, 7)` of the grid of the
ring. -/
theorem pointInPolygon_thinRect :
    thinRect = [(0, 0), (0, 1), (eps, 1), (eps, 0)] ∧ (0 : ℚ) < eps ∧
      (0 : ℚ) < eps / 2 ∧ eps / 2 < eps ∧ (0 : ℚ) < 1 / 2 ∧ (1 / 2 : ℚ) < 1 ∧
      pointInPolygon (eps / 2, 1 / 2) thinRect = false ∧
      cellCenter (mkGrid thinRect 15 15) 7 7 = (eps / 2, 1 / 2) := by
  refine ⟨rfl, ?_, ?_, ?_, ?_, ?_, ?_, ?_⟩
  · with_unfolding_all decide
  · with_unfolding_all decide
  · with_unfolding_all decide
  · with_unfolding_all decide
  · with_unfolding_all decide
  · with_unfolding_all decide
  · with_unfolding_all rfl

set_option maxRecDepth 100000 in
/-- The example of the specification: on the square ring the point `(1, 1)` is
inside and the point `(3, 3)` is outside. -/
theorem pointInPolygon_square_points :
    pointInPolygon (1, 1) square = true ∧ pointInPolygon (3, 3) square = false := by
  refine ⟨?_, ?_⟩ <;> decide!

/-! ## The grid loops -/

theorem foldl_rows (f : Nat → GridState → Nat → GridState) (cols : Nat) (l : List Nat)
    (st : GridState) :
    l.foldl (fun st i => (List.range cols).foldl (f i) st) st =
      (l.flatMap (fun i => (List.range cols).map (fun j => (i, j)))).foldl
        (fun st c => f c.1 st c.2) st := by
  induction l generalizing st with
  | nil => rfl
  | cons i l ih =>
    rw [List.foldl_cons, ih, List.flatMap_cons, List.foldl_append, List.foldl_map]

theorem gridLoop_eq_foldl (g : Grid) (ndviSeries : List ℚ) (random : Nat → ℚ) :
    gridLoop g ndviSeries random =
      (gridCells g.rows g.cols).foldl (fun st c => cellStep g ndviSeries random c.1 st c.2)
        { rects := [], calls := 0 } :=
  foldl_rows (cellStep g ndviSeries random) g.cols (List.range g.rows) _

theorem foldl_cells_position (g : Grid) (ndviSeries : List ℚ) (random : Nat → ℚ)
    (l : List (Nat × Nat)) (st : GridState) :
    (l.foldl (fun st c => cellStep g ndviSeries random c.1 st c.2) st).rects.map
        Rectangle.position =
      st.rects.map Rectangle.position ++
        (l.filter (centerInside g)).map (fun c => (c.1, c.2, cellBounds g c.1 c.2)) := by
  induction l generalizing st with
  | nil => simp
  | cons c l ih =>
    rw [List.foldl_cons, ih]
    by_cases hc : centerInside g c = true
    · have hc2 : pointInPolygon (cellCenter g c.1 c.2) g.coords = true := hc
      simp [cellStep, hc2, hc, List.filter_cons, Rectangle.position]
    · have hc2 : ¬ pointInPolygon (cellCenter g c.1 c.2) g.coords = true := hc
      simp [cellStep, hc2, hc, List.filter_cons]

theorem foldl_cells_series (g : Grid) (ndviSeries : List ℚ) (random : Nat → ℚ)
    (hs : ndviSeries ≠ []) (l : List (Nat × Nat)) (st : GridState) :
    (l.foldl (fun st c => cellStep g ndviSeries random c.1 st c.2) st).rects =
      st.rects ++ (l.filter (centerInside g)).map (seriesRect g ndviSeries) := by
  have hpos : ndviSeries.length > 0 := List.length_pos.2 hs
  induction l generalizing st with
  | nil => simp
  | cons c l ih =>
    rw [List.foldl_cons, ih]
    by_cases hc : centerInside g c = true
    · have hc2 : pointInPolygon (cellCenter g c.1 c.2) g.coords = true := hc
      simp [cellStep, hc2, hc, List.filter_cons, seriesRect, hpos]
    · have hc2 : ¬ pointInPolygon (cellCenter g c.1 c.2) g.coords = true := hc
      simp [cellStep, hc2, hc, List.filter_cons]

theorem rasterize_position (coords : List Point) (ndviSeries : List ℚ) (random : Nat → ℚ)
    (rows cols : Nat) :
    (rasterize coords ndviSeries random rows cols).map Rectangle.position =
      ((gridCells rows cols).filter (centerInside (mkGrid coords rows cols))).map
        (fun c => (c.1, c.2, cellBounds (mkGrid coords rows cols) c.1 c.2)) := by
  unfold rasterize
  rw [gridLoop_eq_foldl, foldl_cells_position]
  rfl

theorem rasterize_series (coords : List Point) (ndviSeries : List ℚ) (random : Nat → ℚ)
    (rows cols : Nat) (hs : ndviSeries ≠ []) :
    rasterize coords ndviSeries random rows cols =
      ((gridCells rows cols).filter (centerInside (mkGrid coords rows cols))).map
        (seriesRect (mkGrid coords rows cols) ndviSeries) := by
  unfold rasterize
  rw [gridLoop_eq_foldl, foldl_cells_series _ _ _ hs]
  rfl

theorem mem_gridCells (rows cols i j : Nat) :
    (i, j) ∈ gridCells rows cols ↔ i < rows ∧ j < cols := by
  simp [gridCells, List.mem_flatMap]

theorem mem_rasterize_iff (coords : List Point) (ndviSeries : List ℚ) (random : Nat → ℚ)
    (rows cols i j : Nat) :
    (∃ r ∈ rasterize coords ndviSeries random rows cols, r.i = i ∧ r.j = j) ↔
      i < rows ∧ j < cols ∧ centerInside (mkGrid coords rows cols) (i, j) = true := by
  have hpos := rasterize_position coords ndviSeries random rows cols
  constructor
  · rintro ⟨r, hr, rfl, rfl⟩
    have hm : r.position ∈ (rasterize coords ndviSeries random rows cols).map
        Rectangle.position := List.mem_map_of_mem _ hr
    rw [hpos, List.mem_map] at hm
    obtain ⟨c, hc, hcr⟩ := hm
    rw [List.mem_filter] at hc
    have h1 : c.1 = r.i := congrArg (fun t => t.1) hcr
    have h2 : c.2 = r.j := congrArg (fun t => t.2.1) hcr
    have hc' : c = (r.i, r.j) := Prod.ext h1 h2
    rw [hc'] at hc
    exact ⟨((mem_gridCells _ _ _ _).1 hc.1).1, ((mem_gridCells _ _ _ _).1 hc.1).2, hc.2⟩
  · rintro ⟨hi, hj, hin⟩
    have hm : (i, j, cellBounds (mkGrid coords rows cols) i j) ∈
        (rasterize coords ndviSeries random rows cols).map Rectangle.position := by
      rw [hpos, List.mem_map]
      exact ⟨(i, j), List.mem_filter.2 ⟨(mem_gridCells _ _ _ _).2 ⟨hi, hj⟩, hin⟩, rfl⟩
    rw [List.mem_map] at hm
    obtain ⟨r, hr, hrp⟩ := hm
    exact ⟨r, hr, congrArg (fun t => t.1) hrp, congrArg (fun t => t.2.1) hrp⟩

/-- C3, as the code has it: the rasterizer emits a rectangle for the cell
`(i, j)` exactly when `i < rows`, `j < cols` and `pointInPolygon` holds of the
centre that the code computes in doubles, `[(lat1 + lat2) / 2, (lng1 + lng2) / 2]`
with `lat1 = minLat + i * latStep`, `lat2 = minLat + (i + 1) * latStep` and
every operation rounded, for every ring, series and run of `Math.random()`. -/
theorem rasterize_cell_iff (coords : List Point) (ndviSeries : List ℚ) (random : Nat → ℚ)
    (rows cols i j : Nat) :
    ((∃ r ∈ rasterize coords ndviSeries random rows cols, r.i = i ∧ r.j = j) ↔
      i < rows ∧ j < cols ∧
        pointInPolygon (cellCenter (mkGrid coords rows cols) i j) coords = true) ∧
    cellCenter (mkGrid coords rows cols) i j =
      (fl (fl (fl (jsMin (coords.map (fun c => c.1)) +
                fl (i * (mkGrid coords rows cols).latStep)) +
              fl (jsMin (coords.map (fun c => c.1)) +
                fl ((i + 1 : Nat) * (mkGrid coords rows cols).latStep))) / 2),
       fl (fl (fl (jsMin (coords.map (fun c => c.2)) +
                fl (j * (mkGrid coords rows cols).lngStep)) +
              fl (jsMin (coords.map (fun c => c.2)) +
                fl ((j + 1 : Nat) * (mkGrid coords rows cols).lngStep))) / 2)) ∧
    (mkGrid coords rows cols).latStep =
      fl (fl (jsMax (coords.map (fun c => c.1)) - jsMin (coords.map (fun c => c.1))) / rows) ∧
    (mkGrid coords rows cols).lngStep =
      fl (fl (jsMax (coords.map (fun c => c.2)) - jsMin (coords.map (fun c => c.2))) / cols) := by
  refine ⟨?_, rfl, rfl, rfl⟩
  rw [mem_rasterize_iff]
  rfl

set_option maxRecDepth 100000 in
/-- C3, as stated, fails: the ring `stepRing` has the bounding box
`[0, 15] x [0, 5.25]`, so that the centre of cell `(5, 2)` by the formula is
`(5.5, 0.875)`, on the edge at longitude `0.875` and not inside; the code
computes the longitude `0.8749999999999999`, finds the centre inside and
emits the rectangle. -/
theorem rasterize_center_formula_fails :
    (∃ r ∈ rasterize stepRing [1 / 2] (fun _ => 0) 15 15, r.i = 5 ∧ r.j = 2) ∧
    (mkGrid stepRing 15 15).minLat + (5 + 1 / 2) *
        (((mkGrid stepRing 15 15).maxLat - (mkGrid stepRing 15 15).minLat) / 15) = 11 / 2 ∧
    (mkGrid stepRing 15 15).minLng + (2 + 1 / 2) *
        (((mkGrid stepRing 15 15).maxLng - (mkGrid stepRing 15 15).minLng) / 15) = 7 / 8 ∧
    fl ((mkGrid stepRing 15 15).minLng + fl ((2 + 1 / 2) * (mkGrid stepRing 15 15).lngStep))
      = 7 / 8 ∧
    pointInPolygon (11 / 2, 7 / 8) stepRing = false ∧
    (cellCenter (mkGrid stepRing 15 15) 5 2).2 < 7 / 8 := by
  refine ⟨(mem_rasterize_iff stepRing [1 / 2] (fun _ => 0) 15 15 5 2).2
    ⟨by decide, by decide, ?_⟩, ?_, ?_, ?_, ?_, ?_⟩ <;> decide!

/-- C4: with a non-empty series, the value of every emitted rectangle is
`series[(i * cols + j) % series.length]`, an index within the bounds of the
series that depends on the position `(i, j)` of the cell in the full grid
only. -/
theorem rasterize_value (coords : List Point) (ndviSeries : List ℚ) (random : Nat → ℚ)
    (rows cols : Nat) (r : Rectangle) (hs : ndviSeries ≠ [])
    (hr : r ∈ rasterize coords ndviSeries random rows cols) :
    (r.i * cols + r.j) % ndviSeries.length < ndviSeries.length ∧
      ndviSeries[(r.i * cols + r.j) % ndviSeries.length]? = some r.ndvi := by
  have hlt : (r.i * cols + r.j) % ndviSeries.length < ndviSeries.length :=
    Nat.mod_lt _ (List.length_pos.2 hs)
  refine ⟨hlt, ?_⟩
  rw [rasterize_series _ _ _ _ _ hs, List.mem_map] at hr
  obtain ⟨c, -, rfl⟩ := hr
  simp only [seriesRect, mkGrid] at hlt ⊢
  rw [List.getD_eq_getElem _ _ hlt, List.getElem?_eq_getElem hlt]

theorem mem_rasterize_series (coords : List Point) (ndviSeries : List ℚ) (random : Nat → ℚ)
    (rows cols i j : Nat) (hs : ndviSeries ≠ []) (hi : i < rows) (hj : j < cols)
    (hin : centerInside (mkGrid coords rows cols) (i, j) = true) :
    seriesRect (mkGrid coords rows cols) ndviSeries (i, j) ∈
      rasterize coords ndviSeries random rows cols := by
  rw [rasterize_series _ _ _ _ _ hs]
  exact List.mem_map_of_mem _ (List.mem_filter.2 ⟨(mem_gridCells _ _ _ _).2 ⟨hi, hj⟩, hin⟩)

set_option maxRecDepth 100000 in
theorem square_cell_0_1 :
    seriesRect (mkGrid square 15 15) [1 / 10, 1 / 2, 9 / 10] (0, 1) =
      { i := 0, j := 1, bounds := ((0, fl (2 / 15)), (fl (2 / 15), 2 * fl (2 / 15))),
        ndvi := 1 / 2, color := "yellow", fillColor := "yellow" } ∧
    centerInside (mkGrid square 15 15) (0, 1) = true := by
  refine ⟨?_, ?_⟩ <;> decide!

theorem rasterize_value_witness :
    ([1 / 10, 1 / 2, 9 / 10] : List ℚ) ≠ [] ∧
    ({ i := 0, j := 1, bounds := ((0, fl (2 / 15)), (fl (2 / 15), 2 * fl (2 / 15))),
       ndvi := 1 / 2, color := "yellow", fillColor := "yellow" } : Rectangle) ∈
      rasterize square [1 / 10, 1 / 2, 9 / 10] (fun _ => 0) 15 15 ∧
    ((0 * 15 + 1) % ([1 / 10, 1 / 2, 9 / 10] : List ℚ).length <
        ([1 / 10, 1 / 2, 9 / 10] : List ℚ).length ∧
      ([1 / 10, 1 / 2, 9 / 10] : List ℚ)[(0 * 15 + 1) %
        ([1 / 10, 1 / 2, 9 / 10] : List ℚ).length]? = some (1 / 2)) :=
  have hmem :
    ({ i := 0, j := 1, bounds := ((0, fl (2 / 15)), (fl (2 / 15), 2 * fl (2 / 15))),
       ndvi := 1 / 2, color := "yellow", fillColor := "yellow" } : Rectangle) ∈
      rasterize square [1 / 10, 1 / 2, 9 / 10] (fun _ => 0) 15 15 :=
    square_cell_0_1.1 ▸ mem_rasterize_series square [1 / 10, 1 / 2, 9 / 10] (fun _ => 0) 15 15 0 1
      (by decide) (by decide) (by decide) square_cell_0_1.2
  ⟨by decide, hmem,
   rasterize_value square [1 / 10, 1 / 2, 9 / 10] (fun _ => 0) 15 15
     { i := 0, j := 1, bounds := ((0, fl (2 / 15)), (fl (2 / 15), 2 * fl (2 / 15))),
       ndvi := 1 / 2, color := "yellow", fillColor := "yellow" } (by decide) hmem⟩

/-! ## Bands -/

theorem getColor_cases (v : ℚ) :
    (v < 3 / 10 ∧ getColor v = "red") ∨ (3 / 10 ≤ v ∧ v < 4 / 10 ∧ getColor v = "orange") ∨
      (4 / 10 ≤ v ∧ v < 7 / 10 ∧ getColor v = "yellow") ∨ (7 / 10 ≤ v ∧ getColor v = "green") := by
  unfold getColor
  by_cases h1 : v < 3 / 10
  · exact Or.inl ⟨h1, by rw [if_pos h1]⟩
  · by_cases h2 : v < 4 / 10
    · exact Or.inr (Or.inl ⟨not_lt.1 h1, h2, by rw [if_neg h1, if_pos h2]⟩)
    · by_cases h3 : v < 7 / 10
      · exact Or.inr (Or.inr (Or.inl ⟨not_lt.1 h2, h3, by rw [if_neg h1, if_neg h2, if_pos h3]⟩))
      · exact Or.inr (Or.inr (Or.inr ⟨not_lt.1 h3, by rw [if_neg h1, if_neg h2, if_neg h3]⟩))

/-- C5: `getColor` returns red (legend `Poor`) exactly for `v < 0.3`, orange
(`Low`) exactly for `0.3 <= v < 0.4`, yellow (`Fair`) exactly for
`0.4 <= v < 0.7` and green (`Excellent`) exactly for `v >= 0.7`; the four
conditions partition the line, and the band never goes down when `v` goes up. -/
theorem getColor_bands :
    (∀ v : ℚ, (getColor v = "red" ↔ v < 3 / 10) ∧
      (getColor v = "orange" ↔ 3 / 10 ≤ v ∧ v < 4 / 10) ∧
      (getColor v = "yellow" ↔ 4 / 10 ≤ v ∧ v < 7 / 10) ∧
      (getColor v = "green" ↔ 7 / 10 ≤ v)) ∧
    (legendLabel "red" = some "Poor" ∧ legendLabel "orange" = some "Low" ∧
      legendLabel "yellow" = some "Fair" ∧ legendLabel "green" = some "Excellent") ∧
    (∀ v w : ℚ, v ≤ w → bandRank (getColor v) ≤ bandRank (getColor w)) := by
  have hr : bandRank "red" = 0 := by decide
  have ho : bandRank "orange" = 1 := by decide
  have hy : bandRank "yellow" = 2 := by decide
  have hg : bandRank "green" = 3 := by decide
  refine ⟨fun v => ?_, by decide, fun v w hvw => ?_⟩
  · rcases getColor_cases v with ⟨h, hc⟩ | ⟨h, h', hc⟩ | ⟨h, h', hc⟩ | ⟨h, hc⟩ <;> rw [hc] <;>
      refine ⟨?_, ?_, ?_, ?_⟩ <;> constructor <;> intro hx <;>
      first
        | exact absurd hx (by decide)
        | rfl
        | assumption
        | exact ⟨h, h'⟩
        | (exfalso; linarith)
  · rcases getColor_cases v with ⟨h, hc⟩ | ⟨h, h', hc⟩ | ⟨h, h', hc⟩ | ⟨h, hc⟩ <;>
      rcases getColor_cases w with ⟨k, kc⟩ | ⟨k, k', kc⟩ | ⟨k, k', kc⟩ | ⟨k, kc⟩ <;>
      rw [hc, kc] <;> simp only [hr, ho, hy, hg] <;>
      first
        | omega
        | (exfalso; linarith)

/-! ## Determinism and emptiness of the grid -/

/-- C6, as the code has it: with a non-empty series two runs of the rasterizer
on the same inputs return the same rectangles, whatever `Math.random()` gives
in each run; with any series, the empty one included, they return the same
number of rectangles with the same keys `(i, j)` and the same bounds. -/
theorem rasterize_deterministic (coords : List Point) (ndviSeries : List ℚ)
    (random1 random2 : Nat → ℚ) (rows cols : Nat) (hs : ndviSeries ≠ []) :
    rasterize coords ndviSeries random1 rows cols =
        rasterize coords ndviSeries random2 rows cols ∧
      ∀ series : List ℚ,
        (rasterize coords series random1 rows cols).map Rectangle.position =
          (rasterize coords series random2 rows cols).map Rectangle.position := by
  refine ⟨?_, fun series => ?_⟩
  · rw [rasterize_series _ _ random1 _ _ hs, rasterize_series _ _ random2 _ _ hs]
  · rw [rasterize_position, rasterize_position]

set_option maxRecDepth 100000 in
theorem rasterize_deterministic_witness :
    ([1 / 2] : List ℚ) ≠ [] ∧
    (rasterize square [1 / 2] (fun _ => 0) 15 15 =
        rasterize square [1 / 2] (fun _ => 1 / 2) 15 15 ∧
      ∀ series : List ℚ,
        (rasterize square series (fun _ => 0) 15 15).map Rectangle.position =
          (rasterize square series (fun _ => 1 / 2) 15 15).map Rectangle.position) :=
  ⟨by decide, rasterize_deterministic square [1 / 2] (fun _ => 0) (fun _ => 1 / 2) 15 15
    (by decide)⟩

theorem foldl_cells_random (g : Grid) (c : ℚ) (l : List (Nat × Nat)) (st : GridState) :
    (l.foldl (fun st cell => cellStep g [] (fun _ => c) cell.1 st cell.2) st).rects =
      st.rects ++ (l.filter (centerInside g)).map
        (fun cell => { i := cell.1, j := cell.2, bounds := cellBounds g cell.1 cell.2,
                       ndvi := c, color := getColor c, fillColor := getColor c }) := by
  induction l generalizing st with
  | nil => simp
  | cons cell l ih =>
    rw [List.foldl_cons, ih]
    by_cases hc : centerInside g cell = true
    · have hc2 : pointInPolygon (cellCenter g cell.1 cell.2) g.coords = true := hc
      simp [cellStep, hc2, hc, List.filter_cons]
    · have hc2 : ¬ pointInPolygon (cellCenter g cell.1 cell.2) g.coords = true := hc
      simp [cellStep, hc2, hc, List.filter_cons]

theorem rasterize_random (coords : List Point) (c : ℚ) (rows cols : Nat) :
    rasterize coords [] (fun _ => c) rows cols =
      ((gridCells rows cols).filter (centerInside (mkGrid coords rows cols))).map
        (fun cell => { i := cell.1, j := cell.2,
                       bounds := cellBounds (mkGrid coords rows cols) cell.1 cell.2,
                       ndvi := c, color := getColor c, fillColor := getColor c }) := by
  unfold rasterize
  rw [gridLoop_eq_foldl, foldl_cells_random]
  rfl

set_option maxRecDepth 100000 in
theorem square_cell_0_0 : centerInside (mkGrid square 15 15) (0, 0) = true := by
  decide!

/-- C6, as stated, fails on the empty series: two runs on the square ring in
which `Math.random()` returns 0 and 0.5 give rectangles of different values
and colours. -/
theorem rasterize_empty_series_differs :
    rasterize square [] (fun _ => 0) 15 15 ≠ rasterize square [] (fun _ => 1 / 2) 15 15 := by
  intro h
  have hcell : ((0, 0) : Nat × Nat) ∈
      (gridCells 15 15).filter (centerInside (mkGrid square 15 15)) :=
    List.mem_filter.2 ⟨(mem_gridCells _ _ _ _).2 ⟨by decide, by decide⟩, square_cell_0_0⟩
  have h0 := List.mem_map_of_mem
    (fun cell : Nat × Nat =>
      ({ i := cell.1, j := cell.2, bounds := cellBounds (mkGrid square 15 15) cell.1 cell.2,
         ndvi := 0, color := getColor 0, fillColor := getColor 0 } : Rectangle)) hcell
  rw [← rasterize_random, h, rasterize_random, List.mem_map] at h0
  obtain ⟨cell, -, hr⟩ := h0
  have hn := congrArg Rectangle.ndvi hr
  simp at hn

theorem rasterize_eq_nil_iff (coords : List Point) (ndviSeries : List ℚ) (random : Nat → ℚ)
    (rows cols : Nat) :
    rasterize coords ndviSeries random rows cols = [] ↔
      ∀ i j, i < rows → j < cols → centerInside (mkGrid coords rows cols) (i, j) = false := by
  constructor
  · intro h i j hi hj
    by_contra hin
    have hin' : centerInside (mkGrid coords rows cols) (i, j) = true := by
      simpa using hin
    obtain ⟨r, hr, -⟩ := (mem_rasterize_iff coords ndviSeries random rows cols i j).2
      ⟨hi, hj, hin'⟩
    rw [h] at hr
    exact List.not_mem_nil _ hr
  · intro h
    apply List.eq_nil_iff_forall_not_mem.2
    intro r hr
    obtain ⟨hi, hj, hin⟩ := (mem_rasterize_iff coords ndviSeries random rows cols r.i r.j).1
      ⟨r, hr, rfl, rfl⟩
    rw [h r.i r.j hi hj] at hin
    exact Bool.noConfusion hin

/-- C7, as the code has it: the rasterizer returns at least one rectangle
exactly when the centre of at least one of the `rows x cols` cells, as the
code computes it, is inside the polygon. -/
theorem rasterize_ne_nil_iff (coords : List Point) (ndviSeries : List ℚ) (random : Nat → ℚ)
    (rows cols : Nat) :
    rasterize coords ndviSeries random rows cols ≠ [] ↔
      ∃ i j, i < rows ∧ j < cols ∧
        pointInPolygon (cellCenter (mkGrid coords rows cols) i j) coords = true := by
  rw [Ne, rasterize_eq_nil_iff]
  constructor
  · intro h
    by_contra hn
    apply h
    intro i j hi hj
    by_contra hin
    apply hn
    refine ⟨i, j, hi, hj, ?_⟩
    have hin' : centerInside (mkGrid coords rows cols) (i, j) = true := by
      simpa using hin
    exact hin'
  · rintro ⟨i, j, hi, hj, hin⟩ h
    have := h i j hi hj
    unfold centerInside at this
    have hin' : pointInPolygon (cellCenter (mkGrid coords rows cols) i j)
        (mkGrid coords rows cols).coords = true := hin
    rw [this] at hin'
    exact Bool.noConfusion hin'

set_option maxRecDepth 100000 in
/-- C7, as stated, fails: the L-shaped ring `lshape` has the bounding box
`[0, 15] x [0, 15]`, of non-zero area, and with `rows = cols = 15` no cell
centre lies inside it, so the rasterizer returns no rectangle. -/
theorem rasterize_lshape_empty :
    jsMin (lshape.map (fun c => c.1)) < jsMax (lshape.map (fun c => c.1)) ∧
      jsMin (lshape.map (fun c => c.2)) < jsMax (lshape.map (fun c => c.2)) ∧
      rasterize lshape [1 / 2] (fun _ => 0) 15 15 = [] := by
  refine ⟨?_, ?_, ?_⟩ <;> decide!

/-! ## Calendar arithmetic -/

theorem yearOfEra_bounds (doe : Int) (h0 : 0 ≤ doe) (h1 : doe < 146097) :
    0 ≤ (doe - doe / 1460 + doe / 36524 - doe / 146096) / 365 ∧
      (doe - doe / 1460 + doe / 36524 - doe / 146096) / 365 ≤ 399 ∧
      0 ≤ doe - (365 * ((doe - doe / 1460 + doe / 36524 - doe / 146096) / 365) +
        (doe - doe / 1460 + doe / 36524 - doe / 146096) / 365 / 4 -
        (doe - doe / 1460 + doe / 36524 - doe / 146096) / 365 / 100) ∧
      doe - (365 * ((doe - doe / 1460 + doe / 36524 - doe / 146096) / 365) +
        (doe - doe / 1460 + doe / 36524 - doe / 146096) / 365 / 4 -
        (doe - doe / 1460 + doe / 36524 - doe / 146096) / 365 / 100) ≤ 365 := by
  have hc : doe / 36524 = 0 ∨ doe / 36524 = 1 ∨ doe / 36524 = 2 ∨ doe / 36524 = 3 ∨
      doe / 36524 = 4 := by omega
  have hy : (doe - doe / 1460 + doe / 36524 - doe / 146096) / 365 / 100 = 0 ∨
      (doe - doe / 1460 + doe / 36524 - doe / 146096) / 365 / 100 = 1 ∨
      (doe - doe / 1460 + doe / 36524 - doe / 146096) / 365 / 100 = 2 ∨
      (doe - doe / 1460 + doe / 36524 - doe / 146096) / 365 / 100 = 3 := by omega
  rcases hc with hc | hc | hc | hc | hc <;> rcases hy with hy | hy | hy | hy <;> omega

/-- The day number of the date `n` days after the calendar date of day `z`,
computed the way `setDate` does, is `z + n`. -/
theorem daysFromCivil_civilFromDays (z n : Int) :
    daysFromCivil (civilFromDays z).year (civilFromDays z).month ((civilFromDays z).day + n) =
      z + n := by
  have hb := yearOfEra_bounds (z + 719468 - (z + 719468) / 146097 * 146097) (by omega) (by omega)
  obtain ⟨hb1, hb2, hb3, hb4⟩ := hb
  simp only [civilFromDays, daysFromCivil]
  generalize (z + 719468 - (z + 719468) / 146097 * 146097 -
    (z + 719468 - (z + 719468) / 146097 * 146097) / 1460 +
    (z + 719468 - (z + 719468) / 146097 * 146097) / 36524 -
    (z + 719468 - (z + 719468) / 146097 * 146097) / 146096) / 365 = yoe at hb1 hb2 hb3 hb4 ⊢
  have hera : (yoe + (z + 719468) / 146097 * 400) / 400 = (z + 719468) / 146097 := by omega
  split_ifs <;> simp only [hera, add_sub_cancel_right, sub_add_cancel] <;> omega

theorem localDay_setDate (tz : Int) (d : JSDate) (n : Int) :
    localDay tz (setDate tz d (getDate tz d + n)) = localDay tz d + n := by
  unfold localDay localTime setDate getDate localCivil localDay localTime
  simp only
  rw [daysFromCivil_civilFromDays]
  unfold msPerDay
  omega

/-- The local day number of `addDays(date, amount)` is that of `date` plus
`amount`. -/
theorem localDay_addDays (tz : Int) (d : JSDate) (n : Int) :
    localDay tz (addDays tz d n) = localDay tz d + n := by
  unfold addDays
  split_ifs with h
  · rw [h, add_zero]
  · exact localDay_setDate tz d n

theorem localDay_localMidnight (tz : Int) (c : Civil) :
    localDay tz (localMidnight tz c) = daysFromCivil c.year c.month c.day := by
  unfold localDay localTime localMidnight msPerDay
  simp only
  omega

theorem localTime_setDate_mod (tz : Int) (d : JSDate) (dt : Int) :
    localTime tz (setDate tz d dt) % msPerDay = localTime tz d % msPerDay := by
  unfold localTime setDate localTime msPerDay
  simp only
  omega

theorem localTime_addDays_mod (tz : Int) (d : JSDate) (n : Int) :
    localTime tz (addDays tz d n) % msPerDay = localTime tz d % msPerDay := by
  unfold addDays
  split_ifs with h
  · rfl
  · exact localTime_setDate_mod tz d _

/-! ## The 14-day slot -/

/-- C8: for every anchor date `from` the calendar hands over,
`handleDateRangeSelect` sets the slot to `{from, to}` with `from` unchanged and
`to` on the calendar date 13 days after `from`, at the same time of day; for
`from` = 2025-01-01 the date of `to` is 2025-01-14. -/
theorem handleDateRangeSelect_slot (tz : Int) (s : FieldsState) (f : JSDate) :
    (∃ t, (handleDateRangeSelect tz s (some { «from» := some f })).dateRange =
        { «from» := some f, «to» := some t } ∧
      localDay tz t = localDay tz f + 13 ∧
      localCivil tz t = civilFromDays (localDay tz f + 13) ∧
      localTime tz t % msPerDay = localTime tz f % msPerDay) ∧
    ((handleDateRangeSelect tz s
        (some { «from» := some (localMidnight tz ⟨2025, 1, 1⟩) })).dateRange.«to».map
      (localCivil tz) = some ⟨2025, 1, 14⟩) := by
  refine ⟨⟨addDays tz f 13, rfl, localDay_addDays tz f 13, ?_, localTime_addDays_mod tz f 13⟩, ?_⟩
  · unfold localCivil
    rw [localDay_addDays]
  · show some (localCivil tz (addDays tz (localMidnight tz ⟨2025, 1, 1⟩) 13)) = _
    unfold localCivil
    rw [localDay_addDays, localDay_localMidnight]
    decide

theorem handleConfirmSlot_dateRange (b : Backend) (s : FieldsState) :
    (handleConfirmSlot b s).dateRange = s.dateRange ∨
      (handleConfirmSlot b s).dateRange = { «from» := none, «to» := none } := by
  rcases s with ⟨fields, ⟨name, boundary, crop⟩, err, succ, saf, ⟨f, t⟩, sc, hd, sent⟩
  rcases b with ⟨ok, token, all⟩
  by_cases hn : name = "" <;> by_cases hc : crop = "" <;>
    cases boundary <;> cases f <;> cases t <;> cases ok <;> cases token <;> cases all <;>
    simp [handleConfirmSlot, hn, hc]

theorem handleDateRangeSelect_slotOk (tz : Int) (s : FieldsState) (range : Option Range) :
    SlotOk tz (handleDateRangeSelect tz s range).dateRange := by
  unfold handleDateRangeSelect
  split
  · next f _ => exact Or.inr ⟨f, addDays tz f 13, rfl, rfl, localDay_addDays tz f 13⟩
  · exact Or.inl ⟨rfl, rfl⟩

theorem step_slotOk (tz : Int) (s : FieldsState) (e : FormEvent)
    (h : SlotOk tz s.dateRange) : SlotOk tz (s.step tz e).dateRange := by
  cases e with
  | selectDate range => exact handleDateRangeSelect_slotOk tz s range
  | confirmSlot b =>
    rcases handleConfirmSlot_dateRange b s with h' | h'
    · show SlotOk tz (handleConfirmSlot b s).dateRange
      rw [h']
      exact h
    · show SlotOk tz (handleConfirmSlot b s).dateRange
      rw [h']
      exact Or.inl ⟨rfl, rfl⟩
  | changeName v => exact h
  | changeCrop v => exact h
  | changeBoundary g => exact h

theorem foldl_slotOk (tz : Int) (events : List FormEvent) (s : FieldsState)
    (h : SlotOk tz s.dateRange) :
    SlotOk tz (events.foldl (FieldsState.step tz) s).dateRange := by
  induction events generalizing s with
  | nil => exact h
  | cons e es ih => exact ih _ (step_slotOk tz s e h)

/-- C9: in every state reached from the initial state by any sequence of
`handleDateRangeSelect` calls, `handleConfirmSlot` runs and edits of the name,
crop and boundary, the slot dates are both null or both set, and when both are
set `to` is on the calendar date 13 days after `from`. -/
theorem slot_invariant (tz : Int) (events : List FormEvent) :
    ((FieldsState.run tz events).dateRange.«from» = none ∧
        (FieldsState.run tz events).dateRange.«to» = none) ∨
      ∃ f t, (FieldsState.run tz events).dateRange.«from» = some f ∧
        (FieldsState.run tz events).dateRange.«to» = some t ∧
        localDay tz t = localDay tz f + 13 :=
  foldl_slotOk tz events FieldsState.init (Or.inl ⟨rfl, rfl⟩)

/-! ## The edit form -/

theorem localDay_newDateOfYMD (tz : Int) (c : Civil) :
    localDay tz (newDateOfYMD c) =
      daysFromCivil c.year c.month c.day + tz * 60000 / msPerDay := by
  unfold localDay localTime newDateOfYMD msPerDay
  simp only
  omega

/-- The date the edit form computes for `to`: the day number of `from`, moved
by the whole days of the zone offset (rounded down), plus 13. -/
theorem editFromChange_to (tz : Int) (e : EditForm) (c : Civil) :
    (editFromChange tz e (.ymd c)).«to» =
      .ymd (civilFromDays (daysFromCivil c.year c.month c.day + tz * 60000 / msPerDay + 13)) := by
  show formatYMD tz (addDays tz (newDateOfYMD c) 13) = _
  unfold formatYMD localCivil
  rw [localDay_addDays, localDay_newDateOfYMD]

theorem editFromChange_east (tz : Int) (e : EditForm) (c : Civil) (h0 : 0 ≤ tz)
    (h1 : tz < 1440) :
    (editFromChange tz e (.ymd c)).«to» =
      .ymd (civilFromDays (daysFromCivil c.year c.month c.day + 13)) := by
  rw [editFromChange_to]
  have : tz * 60000 / msPerDay = 0 := by
    unfold msPerDay
    omega
  rw [this, add_zero]

theorem editFromChange_west (tz : Int) (e : EditForm) (c : Civil) (h0 : -1440 ≤ tz)
    (h1 : tz < 0) :
    (editFromChange tz e (.ymd c)).«to» =
      .ymd (civilFromDays (daysFromCivil c.year c.month c.day + 12)) := by
  rw [editFromChange_to]
  have : tz * 60000 / msPerDay = -1 := by
    unfold msPerDay
    omega
  rw [this]
  congr 2
  omega

theorem editFromChange_rest (tz : Int) (e : EditForm) (v : DateString) :
    (editFromChange tz e v).name = e.name ∧ (editFromChange tz e v).crop = e.crop ∧
      (editFromChange tz e v).«from» = v ∧
      (editFromChange tz e DateString.empty).«to» = DateString.empty :=
  ⟨rfl, rfl, rfl, rfl⟩

/-- C10 at the failing input: in a zone five hours west of UTC the edit form
turns `from` = 2025-01-01 into `to` = 2025-01-13, the date 12 days after
`from`, where 13 days after is 2025-01-14. -/
theorem editFromChange_utc_minus_5 :
    (editFromChange (-300) storedEdit (.ymd ⟨2025, 1, 1⟩)).«to» = .ymd ⟨2025, 1, 13⟩ ∧
      civilFromDays (daysFromCivil 2025 1 1 + 13) = ⟨2025, 1, 14⟩ := by
  decide

/-! ## Guards of `handleConfirmSlot` -/

/-- C12: `handleConfirmSlot` sends a `createSlot` request exactly when the
boundary, the name, the crop and both slot dates are present, and the request
carries them; otherwise it sets the message of the first missing item, in the
order boundary, name, crop, slot, sends nothing and leaves the form, the slot
dates and the list of fields as they were. -/
theorem handleConfirmSlot_guard (b : Backend) (s : FieldsState) :
    ((∃ d, (handleConfirmSlot b s).sent = s.sent ++ [d]) ↔
      (s.form.boundary ≠ none ∧ s.form.name ≠ "" ∧ s.form.crop ≠ "" ∧
        s.dateRange.«from» ≠ none ∧ s.dateRange.«to» ≠ none)) ∧
    (∀ g f t, s.form.boundary = some g → s.form.name ≠ "" → s.form.crop ≠ "" →
      s.dateRange.«from» = some f → s.dateRange.«to» = some t →
      (handleConfirmSlot b s).sent = s.sent ++
        [{ name := s.form.name, boundary := g, crop := s.form.crop, «from» := f, «to» := t }]) ∧
    (¬ (s.form.boundary ≠ none ∧ s.form.name ≠ "" ∧ s.form.crop ≠ "" ∧
        s.dateRange.«from» ≠ none ∧ s.dateRange.«to» ≠ none) →
      (handleConfirmSlot b s).sent = s.sent ∧ (handleConfirmSlot b s).form = s.form ∧
      (handleConfirmSlot b s).dateRange = s.dateRange ∧
      (handleConfirmSlot b s).fields = s.fields ∧
      (handleConfirmSlot b s).error =
        if s.form.boundary = none then "Please select a boundary on the map."
        else if s.form.name = "" then "Please enter a field name."
        else if s.form.crop = "" then "Please select a crop category."
        else "Please select a 14-day slot.") := by
  rcases s with ⟨fields, ⟨name, boundary, crop⟩, err, succ, saf, ⟨f, t⟩, sc, hd, sent⟩
  rcases b with ⟨ok, token, all⟩
  by_cases hn : name = "" <;> by_cases hc : crop = "" <;>
    cases boundary <;> cases f <;> cases t <;> cases ok <;> cases token <;> cases all <;>
    simp [handleConfirmSlot, hn, hc]

/-! ## The coordinate swap -/

/-- C15: the swap `ring.map(([lng, lat]) => [lat, lng])` keeps the length of
the ring and the order of its vertices, each position having its two elements
exchanged, and applying it twice gives back the original ring. -/
theorem swapLngLat_roundtrip (ring : List (ℚ × ℚ)) :
    (ring.map swapLngLat).length = ring.length ∧
      (∀ i : Nat, (ring.map swapLngLat)[i]? =
        (ring[i]?).map (fun pos : ℚ × ℚ => (pos.2, pos.1))) ∧
      (ring.map swapLngLat).map swapLngLat = ring := by
  refine ⟨List.length_map _ _, fun i => ?_, ?_⟩
  · rw [List.getElem?_map]
    rfl
  · rw [List.map_map]
    have : swapLngLat ∘ swapLngLat = id := by
      funext pos
      rfl
    rw [this, List.map_id]

/-! ## Health status and bands -/

/-- C18, as the code has it: the health-status bar takes the colour `getColor`
assigns, for every value; `getHealthStatus` has three bands, `Poor` below 0.4,
`Fair` from 0.4 to 0.7 and `Excellent` from 0.7, so its status is the legend
label of the colour of `getColor` for every value outside `[0.3, 0.4)`, and is
`Poor` where the legend says `Low`. -/
theorem getHealthStatus_bands (v : ℚ) :
    healthBarBackground v = getColor v ∧
      (getHealthStatus (some v)).status =
        (if v < 4 / 10 then "Poor" else if v < 7 / 10 then "Fair" else "Excellent") ∧
      (v < 3 / 10 ∨ 4 / 10 ≤ v →
        some (getHealthStatus (some v)).status = legendLabel (getColor v)) ∧
      (3 / 10 ≤ v → v < 4 / 10 →
        (getHealthStatus (some v)).status = "Poor" ∧ legendLabel (getColor v) = some "Low") := by
  have hs : (getHealthStatus (some v)).status =
      (if v < 4 / 10 then "Poor" else if v < 7 / 10 then "Fair" else "Excellent") := by
    unfold getHealthStatus
    simp only
    split_ifs <;> rfl
  have hred : legendLabel "red" = some "Poor" := by decide
  have horange : legendLabel "orange" = some "Low" := by decide
  have hyellow : legendLabel "yellow" = some "Fair" := by decide
  have hgreen : legendLabel "green" = some "Excellent" := by decide
  refine ⟨rfl, hs, ?_, ?_⟩
  · intro h
    rw [hs]
    rcases getColor_cases v with ⟨h1, hc⟩ | ⟨h1, h2, hc⟩ | ⟨h1, h2, hc⟩ | ⟨h1, hc⟩
    · rw [hc, hred, if_pos (by linarith)]
    · exfalso
      rcases h with h | h <;> linarith
    · rw [hc, hyellow, if_neg (by linarith), if_pos h2]
    · rw [hc, hgreen, if_neg (by linarith), if_neg (by linarith)]
  · intro h1 h2
    rw [hs, if_pos h2]
    refine ⟨rfl, ?_⟩
    rcases getColor_cases v with ⟨k1, hc⟩ | ⟨k1, k2, hc⟩ | ⟨k1, k2, hc⟩ | ⟨k1, hc⟩
    · exfalso; linarith
    · rw [hc, horange]
    · exfalso; linarith
    · exfalso; linarith

/-- C18, as stated, fails at 0.35: `getColor` assigns orange, which the legend
labels `Low`, and `getHealthStatus` returns `Poor`. -/
theorem getHealthStatus_low_band_differs :
    (3 / 10 : ℚ) ≤ 35 / 100 ∧ (35 / 100 : ℚ) < 4 / 10 ∧
      legendLabel (getColor (35 / 100)) = some "Low" ∧
      (getHealthStatus (some (35 / 100))).status = "Poor" ∧
      some (getHealthStatus (some (35 / 100))).status ≠ legendLabel (getColor (35 / 100)) := by
  refine ⟨?_, ?_, ?_, ?_, ?_⟩ <;> with_unfolding_all decide

/-! ## The divisor of the crossing test -/

theorem straddles_ne (p vi vj : Point) (h : straddles p vi vj = true) : vj.1 - vi.1 ≠ 0 := by
  intro h0
  have he : vj.1 = vi.1 := by linarith
  unfold straddles at h
  rw [he] at h
  by_cases h1 : vi.1 > p.1 <;> simp [h1] at h

/-- C19 at the failing input: for the point `(5e-13, 0.5)` and the ring
`thinRect`, the edge from `vs[1] = (0, 1)` to `vs[2] = (1e-12, 1)` has its
endpoints on opposite sides of the latitude of the point, so the division is
evaluated, and its divisor `yj - yi + 1e-12` is zero. -/
theorem pointInPolygon_divisor_zero :
    thinRect.getD 2 (0, 0) = (eps, 1) ∧ thinRect.getD (prevIndex thinRect.length 2) (0, 0) = (0, 1) ∧
      (decide ((thinRect.getD 2 (0, 0)).1 > eps / 2) !=
        decide ((thinRect.getD (prevIndex thinRect.length 2) (0, 0)).1 > eps / 2)) = true ∧
      (thinRect.getD (prevIndex thinRect.length 2) (0, 0)).1 - (thinRect.getD 2 (0, 0)).1 + eps
        = 0 := by
  refine ⟨rfl, rfl, ?_, ?_⟩
  · with_unfolding_all decide
  · with_unfolding_all rfl

/-! ## Measuring a path -/

theorem foldl_range'_eq_sum {α : Type} [AddCommMonoid α] (f : Nat → α) (m : Nat) :
    (List.range' 1 m).foldl (fun acc i => acc + f i) 0 = ∑ i in Finset.Ico 1 (1 + m), f i := by
  induction m with
  | zero => simp
  | succ m ih =>
    rw [List.range'_concat, List.foldl_append, ih, ← Nat.add_assoc,
      Finset.sum_Ico_succ_top (Nat.le_add_right 1 m)]
    simp

theorem measure_eq_sum {α : Type} [AddCommMonoid α] (distanceTo : α × α → α × α → α)
    (latlngs : List (α × α)) :
    measure distanceTo latlngs =
      ∑ i in Finset.Ico 1 latlngs.length,
        distanceTo (latlngs.getD (i - 1) (0, 0)) (latlngs.getD i (0, 0)) := by
  unfold measure
  rw [foldl_range'_eq_sum (fun i => distanceTo (latlngs.getD (i - 1) (0, 0))
    (latlngs.getD i (0, 0)))]
  cases h : latlngs.length with
  | zero => simp
  | succ n =>
    have : 1 + (n + 1 - 1) = n + 1 := by omega
    rw [this]

/-- C13: the measured total of a path is the sum over `i = 1 .. n-1` of
`distanceTo(points[i-1], points[i])`; it is 0 for fewer than 2 points; and when
no distance is negative, appending a point never decreases it. -/
theorem measure_total {α : Type} [OrderedAddCommMonoid α] (distanceTo : α × α → α × α → α)
    (latlngs : List (α × α)) :
    measure distanceTo latlngs =
        ∑ i in Finset.Ico 1 latlngs.length,
          distanceTo (latlngs.getD (i - 1) (0, 0)) (latlngs.getD i (0, 0)) ∧
      (latlngs.length < 2 → measure distanceTo latlngs = 0) ∧
      ((∀ a b, 0 ≤ distanceTo a b) →
        ∀ p, measure distanceTo latlngs ≤ measure distanceTo (latlngs ++ [p])) := by
  refine ⟨measure_eq_sum distanceTo latlngs, fun h => ?_, fun hnn p => ?_⟩
  · rw [measure_eq_sum]
    apply Finset.sum_eq_zero
    intro i hi
    rw [Finset.mem_Ico] at hi
    omega
  · rw [measure_eq_sum, measure_eq_sum, List.length_append, List.length_singleton]
    have hsame : ∀ i ∈ Finset.Ico 1 latlngs.length,
        distanceTo (latlngs.getD (i - 1) (0, 0)) (latlngs.getD i (0, 0)) =
          distanceTo ((latlngs ++ [p]).getD (i - 1) (0, 0)) ((latlngs ++ [p]).getD i (0, 0)) := by
      intro i hi
      rw [Finset.mem_Ico] at hi
      rw [List.getD_append _ _ _ _ (by omega), List.getD_append _ _ _ _ hi.2]
    rw [Finset.sum_congr rfl hsame]
    apply Finset.sum_le_sum_of_subset_of_nonneg
    · intro i hi
      rw [Finset.mem_Ico] at hi ⊢
      omega
    · intro i _ _
      exact hnn _ _

theorem haversineDistance_equator_degree :
    haversineDistance (0, 0) (0, 1) = 6371000 * Real.pi / 180 := by
  have hpos : 0 < Real.pi := Real.pi_pos
  have hx0 : 0 ≤ Real.pi / 180 / 2 := by positivity
  have hx1 : Real.pi / 180 / 2 ≤ Real.pi := by linarith
  have hx2 : -(Real.pi / 2) ≤ Real.pi / 180 / 2 := by linarith
  have hx3 : Real.pi / 180 / 2 ≤ Real.pi / 2 := by linarith
  unfold haversineDistance
  simp only [sub_self, zero_mul, zero_div, Real.sin_zero, Real.cos_zero, sub_zero, one_mul,
    ne_eq, OfNat.ofNat_ne_zero, not_false_eq_true, zero_pow, zero_add]
  rw [Real.sqrt_sq (Real.sin_nonneg_of_nonneg_of_le_pi hx0 hx1), Real.arcsin_sin hx2 hx3]
  ring

/-- C14: with the haversine distance on a sphere of radius 6,371,000 m, the
measured total of the path `[(0, 0), (0, 1)]` is `6371000 * pi / 180`, which is
within 1 m of 111,195 m. -/
theorem measure_haversine_degree :
    measure haversineDistance [(0, 0), (0, 1)] = 6371000 * Real.pi / 180 ∧
      |measure haversineDistance [(0, 0), (0, 1)] - 111195| < 1 := by
  have hm : measure haversineDistance [(0, 0), (0, 1)] = 6371000 * Real.pi / 180 := by
    have : measure haversineDistance [(0, 0), (0, 1)] = 0 + haversineDistance (0, 0) (0, 1) := rfl
    rw [this, zero_add, haversineDistance_equator_degree]
  refine ⟨hm, ?_⟩
  rw [hm, abs_lt]
  have h1 := Real.pi_gt_d6
  have h2 := Real.pi_lt_d6
  constructor <;> linarith

/-! ## Boundary capture -/

theorem drawRun_concat (distanceTo : Point → Point → ℚ) (s : PageState)
    (events : List (Bool × DrawEvent)) (e : Bool × DrawEvent) :
    drawRun distanceTo s (events ++ [e]) = onCreated distanceTo e.1 (drawRun distanceTo s events) e.2 := by
  simp [drawRun, List.foldl_append]

/-- C17: after any sequence of draw events the feature group `drawnItems` holds
at most one layer, that of the last event handled, the boundary of the form is
the geometry of the last polygon drawn in boundary mode (the boundary it had
when there is none), and the name and the crop of the form are as they were. -/
theorem drawRun_last (distanceTo : Point → Point → ℚ) (page : FieldsState)
    (events : List (Bool × DrawEvent)) :
    (drawRun distanceTo (PageState.init page) events).drawnItems.length ≤ 1 ∧
      (drawRun distanceTo (PageState.init page) events).drawnItems =
        (((events.filter isHandled).getLast?).map (fun e => e.2.layer)).toList ∧
      (drawRun distanceTo (PageState.init page) events).page.form.boundary =
        (match (events.filter isBoundaryDraw).getLast? with
          | some e => some e.2.layer.geometry
          | none => page.form.boundary) ∧
      (drawRun distanceTo (PageState.init page) events).page.form.name = page.form.name ∧
      (drawRun distanceTo (PageState.init page) events).page.form.crop = page.form.crop := by
  induction events using List.reverseRecOn with
  | nil => simp [drawRun, PageState.init]
  | append_singleton es e ih =>
    obtain ⟨h1, h2, h3, h4, h5⟩ := ih
    rw [drawRun_concat]
    obtain ⟨mm, ev⟩ := e
    by_cases hline : ev.layerType = "polyline" <;> by_cases hgon : ev.layerType = "polygon" <;>
      cases mm <;>
      simp_all [onCreated, isHandled, isBoundaryDraw, List.filter_append, handleBoundaryChange,
        List.getLast?_append]

/-- C16, as the code has it: boundary capture validates nothing.  Every polygon
drawn in boundary mode becomes the boundary of the form with its geometry
unchanged, whatever its ring; `handleConfirmSlot` sends a field carrying the
boundary of the form once the name, the crop and the slot are present, and
refuses a boundary only when there is none. -/
theorem boundary_capture_unvalidated (distanceTo : Point → Point → ℚ) (s : PageState)
    (layer : Layer) (b : Backend) (fs : FieldsState) (f t : JSDate) :
    (onCreated distanceTo false s { layerType := "polygon", layer := layer }).page.form.boundary =
        some layer.geometry ∧
      (fs.form.boundary = some layer.geometry → fs.form.name ≠ "" → fs.form.crop ≠ "" →
        fs.dateRange = { «from» := some f, «to» := some t } →
        (handleConfirmSlot b fs).sent = fs.sent ++
          [{ name := fs.form.name, boundary := layer.geometry, crop := fs.form.crop,
             «from» := f, «to» := t }]) ∧
      ((handleConfirmSlot b fs).error = "Please select a boundary on the map." ↔
        fs.form.boundary = none) := by
  refine ⟨?_, ?_, ?_⟩
  · simp [onCreated, handleBoundaryChange]
  · intro hb hn hc hd
    rcases fs with ⟨fields, ⟨name, boundary, crop⟩, err, succ, saf, dr, sc, hd', sent⟩
    rcases b with ⟨ok, token, all⟩
    simp only at hb hn hc hd
    subst hb hd
    cases ok <;> cases token <;> cases all <;> simp [handleConfirmSlot, hn, hc]
  · rcases fs with ⟨fields, ⟨name, boundary, crop⟩, err, succ, saf, ⟨f', t'⟩, sc, hd', sent⟩
    rcases b with ⟨ok, token, all⟩
    by_cases hn : name = "" <;> by_cases hc : crop = "" <;>
      cases boundary <;> cases f' <;> cases t' <;> cases ok <;> cases token <;> cases all <;>
      simp [handleConfirmSlot, hn, hc]

/-- C16, as stated, fails: a ring of two positions, and a ring that repeats a
position, are each accepted as the boundary of the form and sent to be saved. -/
theorem boundary_capture_accepts_invalid_rings :
    shortGeometry.coordinates.map List.length = [2] ∧
      (drawThenSave shortGeometry).sent.map (fun d => d.boundary) = [shortGeometry] ∧
      repeatedGeometry.coordinates.map (fun r => r.take 2) = [[(0, 0), (0, 0)]] ∧
      (drawThenSave repeatedGeometry).sent.map (fun d => d.boundary) = [repeatedGeometry] := by
  refine ⟨?_, ?_, ?_, ?_⟩ <;> with_unfolding_all decide

/-! ## Updates sent by the edit panel -/

theorem EditState.run_concat (tz : Int) (fields : List Field) (events : List EditEvent)
    (e : EditEvent) :
    EditState.run tz fields (events ++ [e]) = (EditState.run tz fields events).step tz e := by
  simp [EditState.run, List.foldl_append]

theorem editFromChange_thirteen (tz : Int) (h0 : 0 ≤ tz) (h1 : tz < 1440) (f : EditForm)
    (v : DateString) :
    ((editFromChange tz f v).«from» = DateString.empty ∧
        (editFromChange tz f v).«to» = DateString.empty) ∨
      ThirteenDaysAfter (editFromChange tz f v).«from» (editFromChange tz f v).«to» := by
  cases v with
  | empty => exact Or.inl ⟨rfl, rfl⟩
  | ymd c => exact Or.inr ⟨c, rfl, editFromChange_east tz f c h0 h1⟩

theorem datesFrom_mono (tz : Int) (events : List EditEvent) (e : EditEvent)
    (f t : DateString) (h : DatesFrom tz events f t) : DatesFrom tz (events ++ [e]) f t := by
  rcases h with ⟨field, hm, h⟩ | h
  · exact Or.inl ⟨field, List.mem_append_left _ hm, h⟩
  · exact Or.inr h

theorem editInv_mono (tz : Int) (events : List EditEvent) (e : EditEvent) (s : EditState)
    (h : EditInv tz events s) : EditInv tz (events ++ [e]) s := by
  refine ⟨fun id u hu => ?_, fun form h2 => ?_⟩
  · obtain ⟨a, b, c, d, hd⟩ := h.1 id u hu
    exact ⟨a, b, c, d, datesFrom_mono tz events e _ _ hd⟩
  · rcases h.2 form h2 with h' | h'
    · exact Or.inl h'
    · exact Or.inr (datesFrom_mono tz events e _ _ h')

theorem saveDisabled_false (f : EditForm) (h : saveDisabled f = false) :
    f.name ≠ "" ∧ f.crop ≠ "" ∧ f.«from» ≠ DateString.empty ∧ f.«to» ≠ DateString.empty := by
  unfold saveDisabled at h
  simp only [Bool.or_eq_false_iff, decide_eq_false_iff_not] at h
  exact ⟨h.1.1.1.1, h.1.1.1.2, h.1.1.2, h.1.2⟩

theorem clickSave_inv (tz : Int) (events : List EditEvent) (s : EditState)
    (h : EditInv tz events s) : EditInv tz events (clickSave s) := by
  unfold clickSave
  cases hid : s.editField with
  | none => simpa [hid] using h
  | some id =>
    cases hform : s.editForm with
    | none => simpa [hid, hform] using h
    | some form =>
      simp only
      cases hdis : saveDisabled form with
      | true => simpa [hdis] using h
      | false =>
        obtain ⟨hn, hc, hf, ht⟩ := saveDisabled_false form hdis
        have horigin : DatesFrom tz events form.«from» form.«to» := by
          rcases h.2 form hform with h' | h'
          · exact absurd h'.1 hf
          · exact h'
        refine ⟨?_, ?_⟩
        · intro id' u hu
          simp only [Bool.false_eq_true, if_false] at hu
          rcases List.mem_append.1 hu with hu | hu
          · exact h.1 id' u hu
          · rw [List.mem_singleton] at hu
            obtain ⟨rfl, rfl⟩ := Prod.mk.inj hu
            exact ⟨hn, hc, hf, ht, horigin⟩
        · intro form' h2
          simp only [Bool.false_eq_true, if_false] at h2
          obtain rfl := Option.some.inj h2
          exact Or.inr horigin

theorem saveFailed_inv (tz : Int) (events : List EditEvent) (s : EditState) (k : Nat)
    (h : EditInv tz events s) : EditInv tz events (saveFailed s k) := by
  unfold saveFailed
  cases hk : s.updates[k]? with
  | none => simpa [hk] using h
  | some iu =>
    obtain ⟨id, u⟩ := iu
    have hmem : (id, u) ∈ s.updates := List.mem_iff_getElem?.2 ⟨k, hk⟩
    refine ⟨h.1, fun form h2 => ?_⟩
    simp only at h2
    obtain rfl := Option.some.inj h2
    exact Or.inr (h.1 id u hmem).2.2.2.2

theorem step_inv (tz : Int) (h0 : 0 ≤ tz) (h1 : tz < 1440) (events : List EditEvent)
    (e : EditEvent) (s : EditState) (h : EditInv tz events s) :
    EditInv tz (events ++ [e]) (s.step tz e) := by
  cases e with
  | clickEdit field =>
    refine ⟨fun id u hu => ?_, fun form h2 => ?_⟩
    · obtain ⟨a, b, c, d, hd⟩ := h.1 id u hu
      exact ⟨a, b, c, d, datesFrom_mono tz events _ _ _ hd⟩
    · obtain rfl := Option.some.inj h2
      exact Or.inr (Or.inl ⟨field, List.mem_append_right _ (List.mem_singleton.2 rfl), rfl,
        rfl⟩)
  | changeName v =>
    refine ⟨(editInv_mono tz events _ s h).1, fun form h2 => ?_⟩
    obtain ⟨form0, hform0, rfl⟩ := Option.map_eq_some'.1 h2
    exact (editInv_mono tz events _ s h).2 form0 hform0
  | changeCrop v =>
    refine ⟨(editInv_mono tz events _ s h).1, fun form h2 => ?_⟩
    obtain ⟨form0, hform0, rfl⟩ := Option.map_eq_some'.1 h2
    exact (editInv_mono tz events _ s h).2 form0 hform0
  | changeFrom v =>
    refine ⟨(editInv_mono tz events _ s h).1, fun form h2 => ?_⟩
    obtain ⟨form0, hform0, rfl⟩ := Option.map_eq_some'.1 h2
    rcases editFromChange_thirteen tz h0 h1 form0 v with h' | h'
    · exact Or.inl h'
    · exact Or.inr (Or.inr h')
  | clickSave => exact editInv_mono tz events _ _ (clickSave_inv tz events s h)
  | clickClose =>
    refine ⟨(editInv_mono tz events _ s h).1, fun form h2 => ?_⟩
    exact absurd h2 (by simp [EditState.step])
  | saveFailed k => exact editInv_mono tz events _ _ (saveFailed_inv tz events s k h)
  | closeTimer =>
    refine ⟨(editInv_mono tz events _ s h).1, fun form h2 => ?_⟩
    exact absurd h2 (by simp [EditState.step])
  | fieldsLoaded data => exact editInv_mono tz events _ _ h

theorem run_inv (tz : Int) (h0 : 0 ≤ tz) (h1 : tz < 1440) (fields : List Field)
    (events : List EditEvent) : EditInv tz events (EditState.run tz fields events) := by
  induction events using List.reverseRecOn with
  | nil =>
    refine ⟨fun id u hu => ?_, fun form h2 => ?_⟩
    · exact absurd hu (List.not_mem_nil _)
    · exact absurd h2 (by simp [EditState.run, EditState.init])
  | append_singleton es e ih =>
    rw [EditState.run_concat]
    exact step_inv tz h0 h1 es e _ ih

/-- The form that a failed request puts back can land in the panel of another
field: Edit and Save on the first field, Edit on the second, then the request
of the first fails, and Save sends the dates of the first field for the
second. -/
theorem stale_form_sent_for_other_field :
    (EditState.run 0 [nineDayField, southField]
      [.clickEdit nineDayField, .clickSave, .clickEdit southField, .saveFailed 0,
       .clickSave]).updates =
      [("f1", { name := "North field", crop := "sugarcane", «from» := .ymd ⟨2025, 1, 1⟩,
                «to» := .ymd ⟨2025, 1, 10⟩ }),
       ("f2", { name := "North field", crop := "sugarcane", «from» := .ymd ⟨2025, 1, 1⟩,
                «to» := .ymd ⟨2025, 1, 10⟩ })] := by
  decide

/-- C11, as the code has it, in a zone at or east of UTC and with the
continuations of the Save Changes handlers arriving at any time: an update is
sent only with a name, a crop and two dates, and its pair of dates is either
the pair of a stored field on which Edit was clicked, as the button formatted
it and whatever its offset, or a pair whose `to` is 13 days after `from`. -/
theorem updates_sent (tz : Int) (fields : List Field) (events : List EditEvent) (id : String)
    (u : SlotUpdate) (h0 : 0 ≤ tz) (h1 : tz < 1440)
    (hu : (id, u) ∈ (EditState.run tz fields events).updates) :
    u.name ≠ "" ∧ u.crop ≠ "" ∧ u.«from» ≠ DateString.empty ∧ u.«to» ≠ DateString.empty ∧
      ((∃ field, EditEvent.clickEdit field ∈ events ∧
          u.«from» = dateOfStored tz field.«from» ∧ u.«to» = dateOfStored tz field.«to») ∨
        ∃ c, u.«from» = DateString.ymd c ∧
          u.«to» = DateString.ymd (civilFromDays (daysFromCivil c.year c.month c.day + 13))) :=
  (run_inv tz h0 h1 fields events).1 id u hu

theorem updates_sent_witness :
    (0 : Int) ≤ 0 ∧ (0 : Int) < 1440 ∧
    (("f1", { name := "North field", crop := "sugarcane", «from» := .ymd ⟨2025, 2, 1⟩,
              «to» := .ymd ⟨2025, 2, 14⟩ }) : String × SlotUpdate) ∈
      (EditState.run 0 [nineDayField]
        [.clickEdit nineDayField, .changeFrom (.ymd ⟨2025, 2, 1⟩), .clickSave]).updates ∧
    (("North field" : String) ≠ "" ∧ ("sugarcane" : String) ≠ "" ∧
      DateString.ymd ⟨2025, 2, 1⟩ ≠ DateString.empty ∧
      DateString.ymd ⟨2025, 2, 14⟩ ≠ DateString.empty ∧
      ((∃ field, EditEvent.clickEdit field ∈
            [EditEvent.clickEdit nineDayField, .changeFrom (.ymd ⟨2025, 2, 1⟩), .clickSave] ∧
          DateString.ymd ⟨2025, 2, 1⟩ = dateOfStored 0 field.«from» ∧
          DateString.ymd ⟨2025, 2, 14⟩ = dateOfStored 0 field.«to») ∨
        ∃ c : Civil, DateString.ymd ⟨2025, 2, 1⟩ = DateString.ymd c ∧
          DateString.ymd ⟨2025, 2, 14⟩ =
            DateString.ymd (civilFromDays (daysFromCivil c.year c.month c.day + 13)))) :=
  ⟨by decide, by decide, by decide,
   updates_sent 0 [nineDayField]
     [.clickEdit nineDayField, .changeFrom (.ymd ⟨2025, 2, 1⟩), .clickSave]
     "f1" { name := "North field", crop := "sugarcane", «from» := .ymd ⟨2025, 2, 1⟩,
            «to» := .ymd ⟨2025, 2, 14⟩ } (by decide) (by decide) (by decide)⟩

/-- C11, as stated, fails: Edit is clicked on a stored field whose `to` is 9
days after its `from`, then Save Changes, and the update is sent with
`from` = 2025-01-01 and `to` = 2025-01-10. -/
theorem update_sent_with_other_offset :
    (("f1", { name := "North field", crop := "sugarcane", «from» := .ymd ⟨2025, 1, 1⟩,
              «to» := .ymd ⟨2025, 1, 10⟩ }) : String × SlotUpdate) ∈
      (EditState.run 0 [nineDayField] [.clickEdit nineDayField, .clickSave]).updates ∧
    ¬ ThirteenDaysAfter (.ymd ⟨2025, 1, 1⟩) (.ymd ⟨2025, 1, 10⟩) := by
  refine ⟨by decide, ?_⟩
  rintro ⟨c, hc, ht⟩
  obtain rfl := DateString.ymd.inj hc
  exact absurd ht (by decide)

/-! ## Rounding to the nearest double -/

theorem pow2_eq (k : ℤ) : pow2 k = (2 : ℚ) ^ k := by
  unfold pow2
  split_ifs with h
  · obtain ⟨n, rfl⟩ := Int.eq_ofNat_of_zero_le h
    simp
  · have h' : 0 ≤ -k := by omega
    obtain ⟨n, hn⟩ := Int.eq_ofNat_of_zero_le h'
    have hk : k = -(n : ℤ) := by omega
    subst hk
    simp

theorem pow2_pos (k : ℤ) : 0 < pow2 k := by
  rw [pow2_eq]
  positivity

theorem log2Fuel_spec : ∀ fuel n : Nat, 0 < n → n ≤ fuel →
    2 ^ log2Fuel fuel n ≤ n ∧ n < 2 ^ (log2Fuel fuel n + 1)
  | 0, n, h0, h1 => by omega
  | fuel + 1, n, h0, h1 => by
    unfold log2Fuel
    split_ifs with h2
    · constructor <;> simp <;> omega
    · have hn : 0 < n / 2 := Nat.div_pos (by omega) (by omega)
      have hf : n / 2 ≤ fuel := by omega
      obtain ⟨a, b⟩ := log2Fuel_spec fuel (n / 2) hn hf
      constructor
      · rw [pow_succ]
        omega
      · rw [pow_succ]
        omega

theorem natLog2_spec (n : Nat) (h : 0 < n) : 2 ^ natLog2 n ≤ n ∧ n < 2 ^ (natLog2 n + 1) :=
  log2Fuel_spec n n h le_rfl

theorem abs_eq_natAbs_div (x : ℚ) : |x| = (x.num.natAbs : ℚ) / (x.den : ℚ) := by
  conv_lhs => rw [← Rat.num_div_den x]
  rw [abs_div, Nat.abs_cast, Nat.cast_natAbs, Int.cast_abs]

theorem floorLog2_spec (x : ℚ) (hx : x ≠ 0) :
    (2 : ℚ) ^ floorLog2 x ≤ |x| ∧ |x| < (2 : ℚ) ^ (floorLog2 x + 1) := by
  have ha0 : 0 < x.num.natAbs := Int.natAbs_pos.2 (Rat.num_ne_zero.2 hx)
  have hb0 : 0 < x.den := x.den_pos
  obtain ⟨a1, a2⟩ := natLog2_spec _ ha0
  obtain ⟨b1, b2⟩ := natLog2_spec _ hb0
  have hbq : (0 : ℚ) < x.den := by exact_mod_cast hb0
  have a1q : (2 : ℚ) ^ (natLog2 x.num.natAbs : ℤ) ≤ x.num.natAbs := by
    rw [zpow_natCast]
    exact_mod_cast a1
  have a2q : (x.num.natAbs : ℚ) < (2 : ℚ) ^ ((natLog2 x.num.natAbs : ℤ) + 1) := by
    rw [show ((natLog2 x.num.natAbs : ℤ) + 1) = ((natLog2 x.num.natAbs + 1 : ℕ) : ℤ) by push_cast; ring,
      zpow_natCast]
    exact_mod_cast a2
  have b1q : (2 : ℚ) ^ (natLog2 x.den : ℤ) ≤ x.den := by
    rw [zpow_natCast]
    exact_mod_cast b1
  have b2q : (x.den : ℚ) < (2 : ℚ) ^ ((natLog2 x.den : ℤ) + 1) := by
    rw [show ((natLog2 x.den : ℤ) + 1) = ((natLog2 x.den + 1 : ℕ) : ℤ) by push_cast; ring,
      zpow_natCast]
    exact_mod_cast b2
  have h2 : (0 : ℚ) < 2 := by norm_num
  -- lower and upper bounds with k = la - lb
  have hlow : (2 : ℚ) ^ ((natLog2 x.num.natAbs : ℤ) - (natLog2 x.den : ℤ) - 1) < |x| := by
    rw [abs_eq_natAbs_div, lt_div_iff₀ hbq]
    have e : (2 : ℚ) ^ ((natLog2 x.num.natAbs : ℤ) - (natLog2 x.den : ℤ) - 1) *
        (2 : ℚ) ^ ((natLog2 x.den : ℤ) + 1) = (2 : ℚ) ^ (natLog2 x.num.natAbs : ℤ) := by
      rw [← zpow_add₀ (by norm_num : (2 : ℚ) ≠ 0)]
      congr 1
      ring
    calc (2 : ℚ) ^ ((natLog2 x.num.natAbs : ℤ) - (natLog2 x.den : ℤ) - 1) * x.den
        < (2 : ℚ) ^ ((natLog2 x.num.natAbs : ℤ) - (natLog2 x.den : ℤ) - 1) *
            (2 : ℚ) ^ ((natLog2 x.den : ℤ) + 1) :=
          mul_lt_mul_of_pos_left b2q (zpow_pos h2 _)
      _ = (2 : ℚ) ^ (natLog2 x.num.natAbs : ℤ) := e
      _ ≤ x.num.natAbs := a1q
  have hup : |x| < (2 : ℚ) ^ ((natLog2 x.num.natAbs : ℤ) - (natLog2 x.den : ℤ) + 1) := by
    rw [abs_eq_natAbs_div, div_lt_iff₀ hbq]
    have e : (2 : ℚ) ^ ((natLog2 x.num.natAbs : ℤ) - (natLog2 x.den : ℤ) + 1) *
        (2 : ℚ) ^ (natLog2 x.den : ℤ) = (2 : ℚ) ^ ((natLog2 x.num.natAbs : ℤ) + 1) := by
      rw [← zpow_add₀ (by norm_num : (2 : ℚ) ≠ 0)]
      congr 1
      ring
    calc (x.num.natAbs : ℚ) < (2 : ℚ) ^ ((natLog2 x.num.natAbs : ℤ) + 1) := a2q
      _ = (2 : ℚ) ^ ((natLog2 x.num.natAbs : ℤ) - (natLog2 x.den : ℤ) + 1) *
            (2 : ℚ) ^ (natLog2 x.den : ℤ) := e.symm
      _ ≤ (2 : ℚ) ^ ((natLog2 x.num.natAbs : ℤ) - (natLog2 x.den : ℤ) + 1) * x.den :=
          mul_le_mul_of_nonneg_left b1q (zpow_pos h2 _).le
  unfold floorLog2
  simp only
  split_ifs with h
  · rw [pow2_eq] at h
    exact ⟨h, hup⟩
  · rw [pow2_eq, not_le] at h
    refine ⟨hlow.le, ?_⟩
    rw [sub_add_cancel]
    exact h

theorem roundHalfEven_err (m : ℚ) : |(roundHalfEven m : ℚ) - m| ≤ 1 / 2 := by
  have h1 := Int.floor_le m
  have h2 := Int.lt_floor_add_one m
  unfold roundHalfEven
  simp only
  split_ifs with a b c
  · rw [abs_le]; constructor <;> linarith
  · rw [abs_le]; push_cast; constructor <;> linarith
  · rw [abs_le]; constructor <;> linarith
  · rw [abs_le]; push_cast; constructor <;> linarith

theorem roundHalfEven_intCast (n : ℤ) : roundHalfEven (n : ℚ) = n := by
  unfold roundHalfEven
  simp

/-- The error of one rounding: half a unit in the last place, at most
`|x| / 2^53`, or `2^-1075` in the subnormal range. -/
theorem fl_err (x : ℚ) : |fl x - x| ≤ |x| / 2 ^ 53 + 1 / 2 ^ 200 := by
  unfold fl
  split_ifs with hx
  · subst hx
    simp
  · simp only
    obtain ⟨hlo, -⟩ := floorLog2_spec x hx
    set e := floorLog2 x with he
    set q : ℤ := max e (-1022) - 52 with hq
    have hp : 0 < pow2 q := pow2_pos q
    have herr := roundHalfEven_err (x / pow2 q)
    have key : (roundHalfEven (x / pow2 q) : ℚ) * pow2 q - x =
        ((roundHalfEven (x / pow2 q) : ℚ) - x / pow2 q) * pow2 q := by
      field_simp
    rw [key, abs_mul, abs_of_pos hp]
    have h2 : (2 : ℚ) ≠ 0 := by norm_num
    have hb : pow2 q / 2 ≤ |x| / 2 ^ 53 + 1 / 2 ^ 200 := by
      rw [pow2_eq]
      rcases le_total e (-1022) with h | h
      · have hq' : q = -1074 := by rw [hq, max_eq_right h]; norm_num
        rw [hq']
        have h3 : (2 : ℚ) ^ (-1074 : ℤ) / 2 ≤ 1 / 2 ^ 200 := by
          have e1 : (2 : ℚ) ^ (-1074 : ℤ) / 2 = (2 : ℚ) ^ (-1075 : ℤ) := by
            rw [div_eq_mul_inv, ← zpow_neg_one, ← zpow_add₀ h2]
            norm_num
          have e2 : (1 : ℚ) / 2 ^ 200 = (2 : ℚ) ^ (-200 : ℤ) := by
            rw [zpow_neg, one_div]
            norm_cast
          rw [e1, e2]
          exact zpow_le_zpow_right₀ (by norm_num) (by norm_num)
        have : 0 ≤ |x| / 2 ^ 53 := by positivity
        linarith
      · have hq' : q = e - 52 := by rw [hq, max_eq_left h]
        rw [hq']
        have : (2 : ℚ) ^ (e - 52) / 2 = (2 : ℚ) ^ e / 2 ^ 53 := by
          rw [zpow_sub₀ h2, show (2 : ℚ) ^ 53 = 2 ^ 52 * 2 from pow_succ _ _, div_div]
          norm_num
        rw [this]
        have h1 : (2 : ℚ) ^ e / 2 ^ 53 ≤ |x| / 2 ^ 53 :=
          div_le_div_of_nonneg_right hlo (by positivity)
        have : (0 : ℚ) ≤ 1 / 2 ^ 200 := by positivity
        linarith
    calc |(roundHalfEven (x / pow2 q) : ℚ) - x / pow2 q| * pow2 q
        ≤ 1 / 2 * pow2 q := mul_le_mul_of_nonneg_right herr hp.le
      _ = pow2 q / 2 := by ring
      _ ≤ _ := hb

theorem fl_zero : fl 0 = 0 := by
  unfold fl
  simp

/-- A multiple `n * 2^q` of a power of two with `|n| ≤ 2^53` and `q ≥ -1074` is a
double: rounding leaves it as it is. -/
theorem fl_of_rep (n q : ℤ) (hq : -1074 ≤ q) (hn : |n| ≤ 2 ^ 53) :
    fl ((n : ℚ) * (2 : ℚ) ^ q) = (n : ℚ) * (2 : ℚ) ^ q := by
  have h2 : (2 : ℚ) ≠ 0 := by norm_num
  have h2p : (0 : ℚ) < 2 := by norm_num
  by_cases hn0 : n = 0
  · subst hn0
    simp [fl_zero]
  have ha0 : (n : ℚ) * (2 : ℚ) ^ q ≠ 0 :=
    mul_ne_zero (by exact_mod_cast hn0) (zpow_ne_zero _ h2)
  obtain ⟨hlo, hhi⟩ := floorLog2_spec _ ha0
  unfold fl
  rw [if_neg ha0]
  simp only
  set a := (n : ℚ) * (2 : ℚ) ^ q with ha
  set e := floorLog2 a with he
  have habs : |a| = (|n| : ℤ) * (2 : ℚ) ^ q := by
    rw [ha, abs_mul, abs_of_pos (zpow_pos h2p q), Int.cast_abs]
  have hnq : ((|n| : ℤ) : ℚ) ≤ 2 ^ 53 := by exact_mod_cast hn
  -- the quotient by the unit in the last place is an integer
  have hint : ∃ z : ℤ, a / pow2 (max e (-1022) - 52) = z := by
    rw [pow2_eq]
    have hle : e ≤ 53 + q := by
      by_contra hcon
      have h54 : 53 + q + 1 ≤ e := by omega
      have h1 : (2 : ℚ) ^ (53 + q + 1) ≤ (2 : ℚ) ^ e :=
        zpow_le_zpow_right₀ (by norm_num) h54
      have h3 : |a| ≤ (2 : ℚ) ^ (53 + q) := by
        rw [habs, zpow_add₀ h2]
        have : (2 : ℚ) ^ (53 : ℤ) = 2 ^ 53 := by norm_cast
        rw [this]
        exact mul_le_mul_of_nonneg_right hnq (zpow_pos h2p q).le
      have h4 : (2 : ℚ) ^ (53 + q) < (2 : ℚ) ^ (53 + q + 1) :=
        zpow_lt_zpow_right₀ (by norm_num) (by omega)
      linarith
    rcases lt_or_eq_of_le hle with hlt | heq
    · -- the unit is at most 2^q
      have hq' : max e (-1022) - 52 ≤ q := by
        rcases le_total e (-1022) with h | h
        · rw [max_eq_right h]; omega
        · rw [max_eq_left h]; omega
      obtain ⟨k, hk⟩ := Int.eq_ofNat_of_zero_le (sub_nonneg.2 hq')
      refine ⟨n * 2 ^ k, ?_⟩
      have hqq : q = (max e (-1022) - 52) + k := by omega
      rw [ha]
      conv_lhs => rw [hqq, zpow_add₀ h2]
      rw [zpow_natCast]
      field_simp
      ring
    · -- |n| = 2^53 and the quotient is ±2^52
      have hge : (2 : ℚ) ^ (53 + q) ≤ |a| := heq ▸ hlo
      rw [habs, zpow_add₀ h2] at hge
      have hn2 : (2 : ℚ) ^ (53 : ℤ) ≤ ((|n| : ℤ) : ℚ) :=
        le_of_mul_le_mul_right hge (zpow_pos h2p q)
      have hn3 : ((|n| : ℤ) : ℚ) = 2 ^ 53 := by
        have : (2 : ℚ) ^ (53 : ℤ) = 2 ^ 53 := by norm_cast
        rw [this] at hn2
        exact le_antisymm hnq hn2
      have hn4 : |n| = 2 ^ 53 := by exact_mod_cast hn3
      have he1022 : -1022 ≤ e := by omega
      have hq' : max e (-1022) - 52 = q + 1 := by rw [max_eq_left he1022]; omega
      rw [hq']
      rcases abs_cases n with ⟨h1, -⟩ | ⟨h1, -⟩
      · refine ⟨2 ^ 52, ?_⟩
        have hn5 : n = 2 ^ 53 := by omega
        rw [ha, hn5, zpow_add₀ h2]
        field_simp
        ring
      · refine ⟨-2 ^ 52, ?_⟩
        have hn5 : n = -2 ^ 53 := by omega
        rw [ha, hn5, zpow_add₀ h2]
        field_simp
        ring
  obtain ⟨z, hz⟩ := hint
  rw [hz, roundHalfEven_intCast, ← hz]
  have hp := pow2_pos (max e (-1022) - 52)
  field_simp

/-- The result of a rounding is a double. -/
theorem fl_rep (x : ℚ) :
    ∃ n q : ℤ, -1074 ≤ q ∧ |n| ≤ 2 ^ 53 ∧ fl x = (n : ℚ) * (2 : ℚ) ^ q := by
  have h2 : (2 : ℚ) ≠ 0 := by norm_num
  have h2p : (0 : ℚ) < 2 := by norm_num
  by_cases hx : x = 0
  · exact ⟨0, 0, by norm_num, by norm_num, by simp [hx, fl_zero]⟩
  obtain ⟨hlo, hhi⟩ := floorLog2_spec x hx
  set e := floorLog2 x with he
  refine ⟨roundHalfEven (x / pow2 (max e (-1022) - 52)), max e (-1022) - 52, ?_, ?_, ?_⟩
  · have := le_max_right e (-1022)
    omega
  · have hp := pow2_pos (max e (-1022) - 52)
    have herr := roundHalfEven_err (x / pow2 (max e (-1022) - 52))
    have hm : |x / pow2 (max e (-1022) - 52)| < 2 ^ 53 := by
      rw [abs_div, abs_of_pos hp, div_lt_iff₀ hp, pow2_eq]
      have h1 : (2 : ℚ) ^ (e + 1) ≤ 2 ^ 53 * (2 : ℚ) ^ (max e (-1022) - 52) := by
        have : (2 : ℚ) ^ 53 = (2 : ℚ) ^ (53 : ℤ) := by norm_cast
        rw [this, ← zpow_add₀ h2]
        apply zpow_le_zpow_right₀ (by norm_num)
        have := le_max_left e (-1022)
        omega
      linarith
    have h3 : |(roundHalfEven (x / pow2 (max e (-1022) - 52)) : ℚ)| < 2 ^ 53 + 1 := by
      have := abs_sub_abs_le_abs_sub
        (roundHalfEven (x / pow2 (max e (-1022) - 52)) : ℚ) (x / pow2 (max e (-1022) - 52))
      linarith
    have h4 : |roundHalfEven (x / pow2 (max e (-1022) - 52))| < 2 ^ 53 + 1 := by
      rw [← Int.cast_abs] at h3
      exact_mod_cast h3
    omega
  · unfold fl
    rw [if_neg hx, ← pow2_eq]

theorem fl_fl (x : ℚ) : fl (fl x) = fl x := by
  obtain ⟨n, q, hq, hn, h⟩ := fl_rep x
  rw [h]
  exact fl_of_rep n q hq hn

theorem fl_two_mul_fl (x : ℚ) : fl (2 * fl x) = 2 * fl x := by
  obtain ⟨n, q, hq, hn, h⟩ := fl_rep x
  have e : 2 * fl x = (n : ℚ) * (2 : ℚ) ^ (q + 1) := by
    rw [h, zpow_add₀ (by norm_num : (2 : ℚ) ≠ 0)]
    ring
  rw [e]
  exact fl_of_rep n (q + 1) (by omega) hn

/-! ## Rings that enclose nothing -/

theorem foldl_min_le (l : List ℚ) (a : ℚ) :
    l.foldl min a ≤ a ∧ ∀ y ∈ l, l.foldl min a ≤ y := by
  induction l generalizing a with
  | nil => simp
  | cons x xs ih =>
    rw [List.foldl_cons]
    obtain ⟨h1, h2⟩ := ih (min a x)
    refine ⟨le_trans h1 (min_le_left _ _), fun y hy => ?_⟩
    rcases List.mem_cons.1 hy with rfl | hy
    · exact le_trans h1 (min_le_right _ _)
    · exact h2 y hy

theorem le_foldl_max (l : List ℚ) (a : ℚ) :
    a ≤ l.foldl max a ∧ ∀ y ∈ l, y ≤ l.foldl max a := by
  induction l generalizing a with
  | nil => simp
  | cons x xs ih =>
    rw [List.foldl_cons]
    obtain ⟨h1, h2⟩ := ih (max a x)
    refine ⟨le_trans (le_max_left _ _) h1, fun y hy => ?_⟩
    rcases List.mem_cons.1 hy with rfl | hy
    · exact le_trans (le_max_right _ _) h1
    · exact h2 y hy

theorem jsMin_le (l : List ℚ) (y : ℚ) (hy : y ∈ l) : jsMin l ≤ y := by
  cases l with
  | nil => exact absurd hy (List.not_mem_nil _)
  | cons x xs =>
    rcases List.mem_cons.1 hy with rfl | hy
    · exact (foldl_min_le xs _).1
    · exact (foldl_min_le xs x).2 y hy

theorem le_jsMax (l : List ℚ) (y : ℚ) (hy : y ∈ l) : y ≤ jsMax l := by
  cases l with
  | nil => exact absurd hy (List.not_mem_nil _)
  | cons x xs =>
    rcases List.mem_cons.1 hy with rfl | hy
    · exact (le_foldl_max xs _).1
    · exact (le_foldl_max xs x).2 y hy

theorem prevIndex_lt (n i : Nat) (h : i < n) : prevIndex n i < n :=
  Nat.mod_lt _ (by omega)

theorem getD_mem (vs : List Point) (i : Nat) (h : i < vs.length) : vs.getD i (0, 0) ∈ vs := by
  rw [List.getD_eq_getElem _ _ h]
  exact List.getElem_mem h

theorem pointInPolygon_false_of_no_crossing (p : Point) (vs : List Point)
    (h : ∀ vi ∈ vs, ∀ vj ∈ vs, intersect p vi vj = false) : pointInPolygon p vs = false := by
  rw [pointInPolygon_eq_odd]
  have h0 : crossingCount intersect p vs = 0 := by
    unfold crossingCount
    rw [List.countP_eq_zero]
    intro i hi
    have hlt := List.mem_range.1 hi
    rw [h _ (getD_mem vs i hlt) _ (getD_mem vs _ (prevIndex_lt _ _ hlt))]
    exact Bool.false_ne_true
  rw [h0]
  decide

theorem intersect_same_lat (p vi vj : Point) (h : vi.1 = vj.1) : intersect p vi vj = false := by
  unfold intersect
  simp [h]

theorem eps_pos : (0 : ℚ) < eps := by norm_num [eps]

theorem intersect_same_lng (p vi vj : Point) (h : vi.2 = vj.2) (hp : ¬ p.2 < fl vi.2) :
    intersect p vi vj = false := by
  unfold intersect ltQuotPlus
  simp only [h, sub_self, fl_zero, zero_mul, zero_div, zero_add, lt_self_iff_false,
    decide_False]
  rw [h] at hp
  simp [hp]

theorem pointInPolygon_flat_lat (p : Point) (vs : List Point)
    (h : jsMin (vs.map (fun c => c.1)) = jsMax (vs.map (fun c => c.1))) :
    pointInPolygon p vs = false := by
  apply pointInPolygon_false_of_no_crossing
  have hall : ∀ v ∈ vs, v.1 = jsMin (vs.map (fun c => c.1)) := by
    intro v hv
    have hm : v.1 ∈ vs.map (fun c => c.1) := List.mem_map_of_mem _ hv
    have h1 := jsMin_le _ _ hm
    have h2 := le_jsMax _ _ hm
    rw [← h] at h2
    exact le_antisymm h2 h1
  intro vi hvi vj hvj
  exact intersect_same_lat p vi vj ((hall vi hvi).trans (hall vj hvj).symm)

theorem pointInPolygon_flat_lng (p : Point) (vs : List Point)
    (h : jsMin (vs.map (fun c => c.2)) = jsMax (vs.map (fun c => c.2)))
    (hp : p.2 = fl (jsMin (vs.map (fun c => c.2)))) :
    pointInPolygon p vs = false := by
  apply pointInPolygon_false_of_no_crossing
  have hall : ∀ v ∈ vs, v.2 = jsMin (vs.map (fun c => c.2)) := by
    intro v hv
    have hm : v.2 ∈ vs.map (fun c => c.2) := List.mem_map_of_mem _ hv
    have h1 := jsMin_le _ _ hm
    have h2 := le_jsMax _ _ hm
    rw [← h] at h2
    exact le_antisymm h2 h1
  intro vi hvi vj hvj
  apply intersect_same_lng p vi vj ((hall vi hvi).trans (hall vj hvj).symm)
  rw [hp, hall vi hvi]
  exact lt_irrefl _

/-- On a bounding box without width every centre has the longitude of the box:
the step is zero, and doubling and halving a double are exact. -/
theorem cellCenter_flat_lng (coords : List Point) (rows cols i j : Nat)
    (h : jsMin (coords.map (fun c => c.2)) = jsMax (coords.map (fun c => c.2))) :
    (cellCenter (mkGrid coords rows cols) i j).2 = fl (jsMin (coords.map (fun c => c.2))) := by
  have hstep : (mkGrid coords rows cols).lngStep = 0 := by
    show fl (fl (jsMax (coords.map (fun c => c.2)) - jsMin (coords.map (fun c => c.2))) / cols)
      = 0
    rw [← h, sub_self, fl_zero, zero_div, fl_zero]
  have hline : ∀ k : Nat, gridLine (mkGrid coords rows cols).minLng
      (mkGrid coords rows cols).lngStep k = fl (jsMin (coords.map (fun c => c.2))) := by
    intro k
    unfold gridLine
    rw [hstep, mul_zero, fl_zero, add_zero]
    rfl
  show fl (fl (gridLine _ _ j + gridLine _ _ (j + 1)) / 2) = _
  rw [hline, hline, ← two_mul, fl_two_mul_fl, mul_div_cancel_left₀ _ (by norm_num : (2 : ℚ) ≠ 0),
    fl_fl]

theorem rasterize_flat (coords : List Point) (ndviSeries : List ℚ) (random : Nat → ℚ)
    (rows cols : Nat)
    (h : jsMin (coords.map (fun c => c.1)) = jsMax (coords.map (fun c => c.1)) ∨
      jsMin (coords.map (fun c => c.2)) = jsMax (coords.map (fun c => c.2))) :
    rasterize coords ndviSeries random rows cols = [] := by
  rw [rasterize_eq_nil_iff]
  intro i j _ _
  unfold centerInside
  rcases h with h | h
  · exact pointInPolygon_flat_lat _ coords h
  · exact pointInPolygon_flat_lng _ coords h (cellCenter_flat_lng coords rows cols i j h)

theorem rasterize_short (coords : List Point) (ndviSeries : List ℚ) (random : Nat → ℚ)
    (rows cols : Nat) (h : coords.length < 2) :
    rasterize coords ndviSeries random rows cols = [] := by
  apply rasterize_flat
  left
  match coords, h with
  | [], _ => rfl
  | [_], _ => rfl

/-- C20, as the code has it: the rasterizer produces no cell for a ring of
fewer than 2 points and for a ring whose bounding box is degenerate
(`minLat == maxLat` or `minLng == maxLng`). -/
theorem rasterize_invalid_ring (coords : List Point) (ndviSeries : List ℚ) (random : Nat → ℚ)
    (rows cols : Nat)
    (h : coords.length < 2 ∨
      jsMin (coords.map (fun c => c.1)) = jsMax (coords.map (fun c => c.1)) ∨
      jsMin (coords.map (fun c => c.2)) = jsMax (coords.map (fun c => c.2))) :
    rasterize coords ndviSeries random rows cols = [] := by
  rcases h with h | h | h
  · exact rasterize_short coords ndviSeries random rows cols h
  · exact rasterize_flat coords ndviSeries random rows cols (Or.inl h)
  · exact rasterize_flat coords ndviSeries random rows cols (Or.inr h)

theorem rasterize_invalid_ring_witness :
    (([(0, 1), (1, 1), (2, 1)] : List Point).length < 2 ∨
      jsMin (([(0, 1), (1, 1), (2, 1)] : List Point).map (fun c => c.1)) =
        jsMax (([(0, 1), (1, 1), (2, 1)] : List Point).map (fun c => c.1)) ∨
      jsMin (([(0, 1), (1, 1), (2, 1)] : List Point).map (fun c => c.2)) =
        jsMax (([(0, 1), (1, 1), (2, 1)] : List Point).map (fun c => c.2))) ∧
    rasterize [(0, 1), (1, 1), (2, 1)] [1 / 2] (fun _ => 0) 15 15 = [] :=
  ⟨Or.inr (Or.inr (by with_unfolding_all decide)),
   rasterize_invalid_ring [(0, 1), (1, 1), (2, 1)] [1 / 2] (fun _ => 0) 15 15
     (Or.inr (Or.inr (by with_unfolding_all decide)))⟩

set_option maxRecDepth 100000 in
theorem twoPoints_cell_1_0 : centerInside (mkGrid twoPoints 15 15) (1, 0) = true := by
  decide!

/-- C20, as stated, fails: the ring `twoPoints` has two points, fewer than 3,
its latitudes differ by `2e-12`, and the rasterizer returns rectangles for it,
the one of cell `(1, 0)` among them: the two passes over its single edge
disagree on where the edge is. -/
theorem rasterize_twoPoints_nonempty :
    twoPoints.length < 3 ∧ rasterize twoPoints [1 / 2] (fun _ => 0) 15 15 ≠ [] := by
  refine ⟨by decide, ?_⟩
  obtain ⟨r, hr, -⟩ := (mem_rasterize_iff twoPoints [1 / 2] (fun _ => 0) 15 15 1 0).2
    ⟨by decide, by decide, twoPoints_cell_1_0⟩
  exact List.ne_nil_of_mem hr

/-! ## The bounding box and the tiling -/

theorem foldl_min_mem (l : List ℚ) (a : ℚ) : l.foldl min a ∈ a :: l := by
  induction l generalizing a with
  | nil => simp
  | cons x xs ih =>
    rw [List.foldl_cons]
    rcases List.mem_cons.1 (ih (min a x)) with h | h
    · rw [h]
      rcases min_choice a x with hm | hm <;> rw [hm] <;> simp
    · exact List.mem_cons_of_mem _ (List.mem_cons_of_mem _ h)

theorem foldl_max_mem (l : List ℚ) (a : ℚ) : l.foldl max a ∈ a :: l := by
  induction l generalizing a with
  | nil => simp
  | cons x xs ih =>
    rw [List.foldl_cons]
    rcases List.mem_cons.1 (ih (max a x)) with h | h
    · rw [h]
      rcases max_choice a x with hm | hm <;> rw [hm] <;> simp
    · exact List.mem_cons_of_mem _ (List.mem_cons_of_mem _ h)

theorem jsMin_mem (l : List ℚ) (h : l ≠ []) : jsMin l ∈ l := by
  cases l with
  | nil => exact absurd rfl h
  | cons x xs => exact foldl_min_mem xs x

theorem jsMax_mem (l : List ℚ) (h : l ≠ []) : jsMax l ∈ l := by
  cases l with
  | nil => exact absurd rfl h
  | cons x xs => exact foldl_max_mem xs x

/-- C22: for a non-empty ring the bounding box of lines 303-307 contains every
vertex, each of its four bounds is the coordinate of some vertex, and
`minLat <= maxLat` and `minLng <= maxLng`. -/
theorem boundingBox_spec (coords : List Point) (rows cols : Nat) (h : coords ≠ []) :
    (∀ v ∈ coords,
      (mkGrid coords rows cols).minLat ≤ v.1 ∧ v.1 ≤ (mkGrid coords rows cols).maxLat ∧
      (mkGrid coords rows cols).minLng ≤ v.2 ∧ v.2 ≤ (mkGrid coords rows cols).maxLng) ∧
    (∃ v ∈ coords, v.1 = (mkGrid coords rows cols).minLat) ∧
    (∃ v ∈ coords, v.1 = (mkGrid coords rows cols).maxLat) ∧
    (∃ v ∈ coords, v.2 = (mkGrid coords rows cols).minLng) ∧
    (∃ v ∈ coords, v.2 = (mkGrid coords rows cols).maxLng) ∧
    (mkGrid coords rows cols).minLat ≤ (mkGrid coords rows cols).maxLat ∧
    (mkGrid coords rows cols).minLng ≤ (mkGrid coords rows cols).maxLng := by
  have h1 : coords.map (fun c => c.1) ≠ [] := by simpa using h
  have h2 : coords.map (fun c => c.2) ≠ [] := by simpa using h
  have hin : ∀ v ∈ coords,
      jsMin (coords.map (fun c => c.1)) ≤ v.1 ∧ v.1 ≤ jsMax (coords.map (fun c => c.1)) ∧
      jsMin (coords.map (fun c => c.2)) ≤ v.2 ∧ v.2 ≤ jsMax (coords.map (fun c => c.2)) :=
    fun v hv =>
      ⟨jsMin_le _ _ (List.mem_map_of_mem _ hv), le_jsMax _ _ (List.mem_map_of_mem _ hv),
       jsMin_le _ _ (List.mem_map_of_mem _ hv), le_jsMax _ _ (List.mem_map_of_mem _ hv)⟩
  obtain ⟨v0, hv0⟩ := List.exists_mem_of_ne_nil coords h
  refine ⟨hin, ?_, ?_, ?_, ?_, ?_, ?_⟩
  · obtain ⟨v, hv, he⟩ := List.mem_map.1 (jsMin_mem _ h1)
    exact ⟨v, hv, he⟩
  · obtain ⟨v, hv, he⟩ := List.mem_map.1 (jsMax_mem _ h1)
    exact ⟨v, hv, he⟩
  · obtain ⟨v, hv, he⟩ := List.mem_map.1 (jsMin_mem _ h2)
    exact ⟨v, hv, he⟩
  · obtain ⟨v, hv, he⟩ := List.mem_map.1 (jsMax_mem _ h2)
    exact ⟨v, hv, he⟩
  · exact le_trans (hin v0 hv0).1 (hin v0 hv0).2.1
  · exact le_trans (hin v0 hv0).2.2.1 (hin v0 hv0).2.2.2

theorem boundingBox_spec_witness :
    square ≠ [] ∧
    ((∀ v ∈ square,
      (mkGrid square 15 15).minLat ≤ v.1 ∧ v.1 ≤ (mkGrid square 15 15).maxLat ∧
      (mkGrid square 15 15).minLng ≤ v.2 ∧ v.2 ≤ (mkGrid square 15 15).maxLng) ∧
    (∃ v ∈ square, v.1 = (mkGrid square 15 15).minLat) ∧
    (∃ v ∈ square, v.1 = (mkGrid square 15 15).maxLat) ∧
    (∃ v ∈ square, v.2 = (mkGrid square 15 15).minLng) ∧
    (∃ v ∈ square, v.2 = (mkGrid square 15 15).maxLng) ∧
    (mkGrid square 15 15).minLat ≤ (mkGrid square 15 15).maxLat ∧
    (mkGrid square 15 15).minLng ≤ (mkGrid square 15 15).maxLng) :=
  ⟨by decide, boundingBox_spec square 15 15 (by decide)⟩

theorem fl_near (x B : ℚ) (h : |x| ≤ B) : |fl x - x| ≤ B / 2 ^ 53 + 1 / 2 ^ 200 := by
  have h1 := fl_err x
  have h2 : |x| / 2 ^ 53 ≤ B / 2 ^ 53 := div_le_div_of_nonneg_right h (by positivity)
  linarith

theorem fl_abs_le (x B : ℚ) (h : |x| ≤ B) : |fl x| ≤ B + (B / 2 ^ 53 + 1 / 2 ^ 200) := by
  have h1 := fl_near x B h
  have h2 := abs_sub_abs_le_abs_sub (fl x) x
  linarith

theorem ratio_mul_le (k n : ℕ) (a : ℚ) (hn : 0 < n) (hk : k ≤ n) (ha : 0 ≤ a) :
    (k : ℚ) * (a / n) ≤ a := by
  have hnq : (0 : ℚ) < n := by exact_mod_cast hn
  have hkq : (k : ℚ) ≤ n := by exact_mod_cast hk
  rw [mul_div_assoc', div_le_iff₀ hnq]
  nlinarith

/-- The line `min + k * step` of the grid, computed in doubles, is within
`2^-40` of its exact value, for coordinates of at most 512 in absolute value. -/
theorem gridLine_err (m w : ℚ) (n k : ℕ) (hm : |m| ≤ 512) (hw0 : 0 ≤ w) (hw : w ≤ 1024)
    (hn : 0 < n) (hn' : n ≤ 1024) (hk : k ≤ n) :
    |gridLine m (fl (fl w / n)) k - (m + k * (w / n))| ≤ 1 / 2 ^ 40 := by
  have hnq : (0 : ℚ) < n := by exact_mod_cast hn
  have hn1 : (1 : ℚ) ≤ n := by exact_mod_cast hn
  have hk0 : (0 : ℚ) ≤ k := Nat.cast_nonneg k
  have hkq : (k : ℚ) ≤ n := by exact_mod_cast hk
  have hk' : (k : ℚ) ≤ 1024 := le_trans hkq (by exact_mod_cast hn')
  unfold gridLine
  -- the first rounding
  have hwabs : |w| ≤ 1024 := by rw [abs_of_nonneg hw0]; exact hw
  have e1 := fl_near w 1024 hwabs
  have a1 := fl_abs_le w 1024 hwabs
  set w1 := fl w
  -- the step
  have hq1 : |w1 / n| ≤ |w1| := by
    rw [abs_div, abs_of_pos hnq]
    exact div_le_self (abs_nonneg _) hn1
  have e2 := fl_err (w1 / n)
  set s := fl (w1 / n)
  -- k times the step
  have hks : |(k : ℚ) * s - k * (w / n)| ≤ 2049 / 2 ^ 53 + 1026 / 2 ^ 200 := by
    have h1 : (k : ℚ) * s - k * (w / n) = k * (s - w1 / n) + k * ((w1 - w) / n) := by ring
    have h2 : |(k : ℚ) * (s - w1 / n)| ≤ |w1| / 2 ^ 53 + 1024 / 2 ^ 200 := by
      rw [abs_mul, abs_of_nonneg hk0]
      have h3 : (k : ℚ) * |s - w1 / n| ≤ k * (|w1 / n| / 2 ^ 53 + 1 / 2 ^ 200) :=
        mul_le_mul_of_nonneg_left e2 hk0
      have h4 : (k : ℚ) * (|w1 / n| / 2 ^ 53) ≤ |w1| / 2 ^ 53 := by
        rw [abs_div, abs_of_pos hnq, div_div, mul_div_assoc', div_le_div_iff₀ (by positivity)
          (by positivity)]
        have := abs_nonneg w1
        nlinarith
      have h5 : (k : ℚ) * (1 / 2 ^ 200) ≤ 1024 / 2 ^ 200 := by
        rw [mul_one_div]
        exact div_le_div_of_nonneg_right hk' (by positivity)
      linarith
    have h6 : |(k : ℚ) * ((w1 - w) / n)| ≤ 1024 / 2 ^ 53 + 1 / 2 ^ 200 := by
      rw [abs_mul, abs_of_nonneg hk0, abs_div, abs_of_pos hnq]
      exact le_trans (ratio_mul_le k n _ hn hk (abs_nonneg _)) e1
    rw [h1]
    have := abs_add (k * (s - w1 / n)) ((k : ℚ) * ((w1 - w) / n))
    norm_num at a1 h2 h6 this ⊢
    linarith
  have hkw : (k : ℚ) * (w / n) ≤ 1024 := le_trans (ratio_mul_le k n w hn hk hw0) hw
  have hkw0 : 0 ≤ (k : ℚ) * (w / n) := by positivity
  have hksabs : |(k : ℚ) * s| ≤ 1025 := by
    have := abs_sub_abs_le_abs_sub ((k : ℚ) * s) (k * (w / n))
    rw [abs_of_nonneg hkw0] at this
    norm_num at hks this ⊢
    linarith
  have e3 := fl_near ((k : ℚ) * s) 1025 hksabs
  have a3 := fl_abs_le ((k : ℚ) * s) 1025 hksabs
  set p := fl ((k : ℚ) * s)
  have hmp : |m + p| ≤ 1538 := by
    have := abs_add m p
    norm_num at a3 this ⊢
    linarith
  have e4 := fl_near (m + p) 1538 hmp
  have h7 : fl (m + p) - (m + k * (w / n)) =
      (fl (m + p) - (m + p)) + (p - k * s) + (k * s - k * (w / n)) := by ring
  rw [h7]
  have t1 := abs_add ((fl (m + p) - (m + p)) + (p - k * s)) (k * s - k * (w / n))
  have t2 := abs_add (fl (m + p) - (m + p)) (p - k * s)
  norm_num at e3 e4 hks t1 t2 ⊢
  linarith

/-- The centre of a cell, computed in doubles, is within `2^-39` of the exact
middle of the cell. -/
theorem center_err (m w : ℚ) (n i : ℕ) (hm : |m| ≤ 512) (hw0 : 0 ≤ w) (hw : w ≤ 1024)
    (hn : 0 < n) (hn' : n ≤ 1024) (hi : i < n) :
    |fl (fl (gridLine m (fl (fl w / n)) i + gridLine m (fl (fl w / n)) (i + 1)) / 2) -
      (m + (i + 1 / 2) * (w / n))| ≤ 1 / 2 ^ 39 := by
  have g1 := gridLine_err m w n i hm hw0 hw hn hn' hi.le
  have g2 := gridLine_err m w n (i + 1) hm hw0 hw hn hn' hi
  have hi1 : (i : ℚ) * (w / n) ≤ w := ratio_mul_le i n w hn hi.le hw0
  have hi2 : ((i + 1 : ℕ) : ℚ) * (w / n) ≤ w := ratio_mul_le (i + 1) n w hn hi hw0
  have hi3 : 0 ≤ (i : ℚ) * (w / n) := by positivity
  have hi4 : 0 ≤ ((i + 1 : ℕ) : ℚ) * (w / n) := by positivity
  push_cast at hi2 hi4
  set L1 := gridLine m (fl (fl w / n)) i
  set L2 := gridLine m (fl (fl w / n)) (i + 1)
  push_cast at g2
  obtain ⟨hm1, hm2⟩ := abs_le.1 hm
  obtain ⟨g1a, g1b⟩ := abs_le.1 g1
  obtain ⟨g2a, g2b⟩ := abs_le.1 g2
  have hsum : |L1 + L2| ≤ 3074 := by
    rw [abs_le]
    norm_num at g1a g1b g2a g2b ⊢
    constructor <;> linarith
  have e1 := fl_near (L1 + L2) 3074 hsum
  have a1 := fl_abs_le (L1 + L2) 3074 hsum
  set t := fl (L1 + L2)
  have ht : |t / 2| ≤ 1538 := by
    rw [abs_div, abs_of_pos (by norm_num : (0 : ℚ) < 2)]
    norm_num at a1 ⊢
    linarith
  have e2 := fl_near (t / 2) 1538 ht
  obtain ⟨e1a, e1b⟩ := abs_le.1 e1
  obtain ⟨e2a, e2b⟩ := abs_le.1 e2
  rw [abs_le]
  norm_num at e1a e1b e2a e2b g1a g1b g2a g2b ⊢
  constructor <;> linarith

theorem gridLine_zero (m s : ℚ) : gridLine m s 0 = fl m := by
  unfold gridLine
  simp [fl_zero]

theorem rasterize_bounds (coords : List Point) (ndviSeries : List ℚ) (random : Nat → ℚ)
    (rows cols : Nat) (r : Rectangle) (hr : r ∈ rasterize coords ndviSeries random rows cols) :
    r.bounds = cellBounds (mkGrid coords rows cols) r.i r.j := by
  have hm : r.position ∈ (rasterize coords ndviSeries random rows cols).map
      Rectangle.position := List.mem_map_of_mem _ hr
  rw [rasterize_position, List.mem_map] at hm
  obtain ⟨c, -, hcr⟩ := hm
  have h1 : c.1 = r.i := congrArg (fun t => t.1) hcr
  have h2 : c.2 = r.j := congrArg (fun t => t.2.1) hcr
  have h3 : cellBounds (mkGrid coords rows cols) c.1 c.2 = r.bounds :=
    congrArg (fun t => t.2.2) hcr
  rw [← h3, h1, h2]

/-- The lines of the grid along one axis: each within `2^-40` of its exact
place, strictly increasing, the last within `2^-40` of the maximum, and the
centres strictly between the minimum and the maximum. -/
theorem axis_tiling (m M : ℚ) (n : ℕ) (hm : |m| ≤ 512) (hM : |M| ≤ 512)
    (hside : m + 1 / 2 ^ 20 ≤ M) (hn : 0 < n) (hn' : n ≤ 1024) :
    (∀ k : ℕ, k ≤ n →
      |gridLine m (fl (fl (M - m) / n)) k - (m + k * ((M - m) / n))| ≤ 1 / 2 ^ 40) ∧
    (∀ i : ℕ, i < n →
      gridLine m (fl (fl (M - m) / n)) i < gridLine m (fl (fl (M - m) / n)) (i + 1) ∧
      |gridLine m (fl (fl (M - m) / n)) (i + 1) - gridLine m (fl (fl (M - m) / n)) i -
        (M - m) / n| ≤ 1 / 2 ^ 39 ∧
      m < fl (fl (gridLine m (fl (fl (M - m) / n)) i +
            gridLine m (fl (fl (M - m) / n)) (i + 1)) / 2) ∧
      fl (fl (gridLine m (fl (fl (M - m) / n)) i +
            gridLine m (fl (fl (M - m) / n)) (i + 1)) / 2) < M) ∧
    |gridLine m (fl (fl (M - m) / n)) n - M| ≤ 1 / 2 ^ 40 := by
  obtain ⟨hm1, hm2⟩ := abs_le.1 hm
  obtain ⟨hM1, hM2⟩ := abs_le.1 hM
  have hw0 : 0 ≤ M - m := by
    have : (0 : ℚ) ≤ 1 / 2 ^ 20 := by positivity
    linarith
  have hw : M - m ≤ 1024 := by linarith
  have hnq : (0 : ℚ) < n := by exact_mod_cast hn
  have hnq' : (n : ℚ) ≤ 1024 := by exact_mod_cast hn'
  have hline := fun k hk => gridLine_err m (M - m) n k hm hw0 hw hn hn' hk
  -- the exact step is at least 2^-30
  have hS : 1 / 2 ^ 30 ≤ (M - m) / n := by
    rw [le_div_iff₀ hnq]
    norm_num at hside ⊢
    nlinarith
  refine ⟨hline, fun i hi => ?_, ?_⟩
  · obtain ⟨g1a, g1b⟩ := abs_le.1 (hline i hi.le)
    obtain ⟨g2a, g2b⟩ := abs_le.1 (hline (i + 1) hi)
    obtain ⟨ca, cb⟩ := abs_le.1 (center_err m (M - m) n i hm hw0 hw hn hn' hi)
    have hi0 : (0 : ℚ) ≤ i := Nat.cast_nonneg i
    have hiq : (i : ℚ) + 1 ≤ n := by exact_mod_cast hi
    have hS0 : 0 < (M - m) / n := lt_of_lt_of_le (by positivity) hS
    have hi1 : 0 ≤ (i : ℚ) * ((M - m) / n) := mul_nonneg hi0 hS0.le
    have hi2 : ((i : ℚ) + 1) * ((M - m) / n) ≤ M - m := by
      have := ratio_mul_le (i + 1) n (M - m) hn hi hw0
      push_cast at this
      exact this
    push_cast at g2a g2b
    set L1 := gridLine m (fl (fl (M - m) / n)) i
    set L2 := gridLine m (fl (fl (M - m) / n)) (i + 1)
    set c := fl (fl (L1 + L2) / 2)
    set S := (M - m) / n
    refine ⟨?_, ?_, ?_, ?_⟩
    · norm_num at g1a g1b g2a g2b hS ⊢
      linarith
    · rw [abs_le]
      norm_num at g1a g1b g2a g2b ⊢
      constructor <;> linarith
    · norm_num at ca cb hS ⊢
      linarith
    · norm_num at ca cb hS ⊢
      linarith
  · have h := hline n le_rfl
    have e : m + (n : ℚ) * ((M - m) / n) = M := by
      field_simp
    rw [e] at h
    exact h

theorem box_bounded (coords : List Point) (hb : ∀ v ∈ coords, |v.1| ≤ 512 ∧ |v.2| ≤ 512)
    (hne : coords ≠ []) :
    |jsMin (coords.map (fun c => c.1))| ≤ 512 ∧ |jsMax (coords.map (fun c => c.1))| ≤ 512 ∧
    |jsMin (coords.map (fun c => c.2))| ≤ 512 ∧ |jsMax (coords.map (fun c => c.2))| ≤ 512 := by
  have h1 : coords.map (fun c => c.1) ≠ [] := by simpa using hne
  have h2 : coords.map (fun c => c.2) ≠ [] := by simpa using hne
  refine ⟨?_, ?_, ?_, ?_⟩
  · obtain ⟨v, hv, he⟩ := List.mem_map.1 (jsMin_mem _ h1)
    rw [← he]
    exact (hb v hv).1
  · obtain ⟨v, hv, he⟩ := List.mem_map.1 (jsMax_mem _ h1)
    rw [← he]
    exact (hb v hv).1
  · obtain ⟨v, hv, he⟩ := List.mem_map.1 (jsMin_mem _ h2)
    rw [← he]
    exact (hb v hv).2
  · obtain ⟨v, hv, he⟩ := List.mem_map.1 (jsMax_mem _ h2)
    rw [← he]
    exact (hb v hv).2

/-- C21, as the code has it, for a ring with coordinates of at most 512 in
absolute value, a bounding box of at least `2^-20` in latitude and in longitude
and a grid of 1 to 1024 rows and columns: the steps and the bounds of the cells
are computed in doubles; the lower edges of cell `(i, j)` are within `2^-40` of
`minLat + i*latStep` and `minLng + j*lngStep` for the exact steps
`(maxLat - minLat)/rows` and `(maxLng - minLng)/cols`; every rectangle returned
has the bounds of its cell; a cell ends exactly where the next one begins;
every cell has a positive height and width, within `2^-39` of the exact steps;
the lower corner of cell `(0, 0)` is `(minLat, minLng)` as doubles and the upper
corner of cell `(rows-1, cols-1)` is within `2^-40` of `(maxLat, maxLng)`; every
centre lies strictly inside the bounding box. -/
theorem grid_tiling (coords : List Point) (ndviSeries : List ℚ) (random : Nat → ℚ)
    (rows cols : Nat)
    (hb : ∀ v ∈ coords, |v.1| ≤ 512 ∧ |v.2| ≤ 512)
    (hlat : jsMin (coords.map (fun c => c.1)) + 1 / 2 ^ 20 ≤ jsMax (coords.map (fun c => c.1)))
    (hlng : jsMin (coords.map (fun c => c.2)) + 1 / 2 ^ 20 ≤ jsMax (coords.map (fun c => c.2)))
    (hr : 0 < rows) (hr' : rows ≤ 1024) (hc : 0 < cols) (hc' : cols ≤ 1024) :
    (mkGrid coords rows cols).latStep =
        fl (fl ((mkGrid coords rows cols).maxLat - (mkGrid coords rows cols).minLat) / rows) ∧
    (mkGrid coords rows cols).lngStep =
        fl (fl ((mkGrid coords rows cols).maxLng - (mkGrid coords rows cols).minLng) / cols) ∧
    (∀ i j : Nat, cellBounds (mkGrid coords rows cols) i j =
      ((fl ((mkGrid coords rows cols).minLat + fl (i * (mkGrid coords rows cols).latStep)),
        fl ((mkGrid coords rows cols).minLng + fl (j * (mkGrid coords rows cols).lngStep))),
       (fl ((mkGrid coords rows cols).minLat +
          fl ((i + 1 : Nat) * (mkGrid coords rows cols).latStep)),
        fl ((mkGrid coords rows cols).minLng +
          fl ((j + 1 : Nat) * (mkGrid coords rows cols).lngStep))))) ∧
    (∀ r ∈ rasterize coords ndviSeries random rows cols,
      r.bounds = cellBounds (mkGrid coords rows cols) r.i r.j) ∧
    (∀ i j : Nat, i ≤ rows → j ≤ cols →
      |(cellBounds (mkGrid coords rows cols) i j).1.1 -
        ((mkGrid coords rows cols).minLat + i *
          (((mkGrid coords rows cols).maxLat - (mkGrid coords rows cols).minLat) / rows))|
        ≤ 1 / 2 ^ 40 ∧
      |(cellBounds (mkGrid coords rows cols) i j).1.2 -
        ((mkGrid coords rows cols).minLng + j *
          (((mkGrid coords rows cols).maxLng - (mkGrid coords rows cols).minLng) / cols))|
        ≤ 1 / 2 ^ 40) ∧
    (∀ i j : Nat,
      (cellBounds (mkGrid coords rows cols) i j).2.1 =
          (cellBounds (mkGrid coords rows cols) (i + 1) j).1.1 ∧
      (cellBounds (mkGrid coords rows cols) i j).2.2 =
          (cellBounds (mkGrid coords rows cols) i (j + 1)).1.2) ∧
    (∀ i j : Nat, i < rows → j < cols →
      (cellBounds (mkGrid coords rows cols) i j).1.1 <
          (cellBounds (mkGrid coords rows cols) i j).2.1 ∧
      (cellBounds (mkGrid coords rows cols) i j).1.2 <
          (cellBounds (mkGrid coords rows cols) i j).2.2 ∧
      |(cellBounds (mkGrid coords rows cols) i j).2.1 -
          (cellBounds (mkGrid coords rows cols) i j).1.1 -
          ((mkGrid coords rows cols).maxLat - (mkGrid coords rows cols).minLat) / rows|
        ≤ 1 / 2 ^ 39 ∧
      |(cellBounds (mkGrid coords rows cols) i j).2.2 -
          (cellBounds (mkGrid coords rows cols) i j).1.2 -
          ((mkGrid coords rows cols).maxLng - (mkGrid coords rows cols).minLng) / cols|
        ≤ 1 / 2 ^ 39) ∧
    (cellBounds (mkGrid coords rows cols) 0 0).1 =
        (fl (mkGrid coords rows cols).minLat, fl (mkGrid coords rows cols).minLng) ∧
    |(cellBounds (mkGrid coords rows cols) (rows - 1) (cols - 1)).2.1 -
        (mkGrid coords rows cols).maxLat| ≤ 1 / 2 ^ 40 ∧
    |(cellBounds (mkGrid coords rows cols) (rows - 1) (cols - 1)).2.2 -
        (mkGrid coords rows cols).maxLng| ≤ 1 / 2 ^ 40 ∧
    (∀ i j : Nat, i < rows → j < cols →
      (mkGrid coords rows cols).minLat < (cellCenter (mkGrid coords rows cols) i j).1 ∧
      (cellCenter (mkGrid coords rows cols) i j).1 < (mkGrid coords rows cols).maxLat ∧
      (mkGrid coords rows cols).minLng < (cellCenter (mkGrid coords rows cols) i j).2 ∧
      (cellCenter (mkGrid coords rows cols) i j).2 < (mkGrid coords rows cols).maxLng) := by
  have hne : coords ≠ [] := by
    rintro rfl
    norm_num [jsMin, jsMax] at hlat
  obtain ⟨b1, b2, b3, b4⟩ := box_bounded coords hb hne
  obtain ⟨lat1, lat2, lat3⟩ := axis_tiling _ _ rows b1 b2 hlat hr hr'
  obtain ⟨lng1, lng2, lng3⟩ := axis_tiling _ _ cols b3 b4 hlng hc hc'
  have e1 : rows - 1 + 1 = rows := Nat.sub_add_cancel hr
  have e2 : cols - 1 + 1 = cols := Nat.sub_add_cancel hc
  refine ⟨rfl, rfl, fun i j => rfl, rasterize_bounds coords ndviSeries random rows cols,
    fun i j hi hj => ⟨lat1 i hi, lng1 j hj⟩, fun i j => ⟨rfl, rfl⟩,
    fun i j hi hj => ⟨(lat2 i hi).1, (lng2 j hj).1, (lat2 i hi).2.1, (lng2 j hj).2.1⟩,
    Prod.ext (gridLine_zero _ _) (gridLine_zero _ _), ?_, ?_,
    fun i j hi hj => ⟨(lat2 i hi).2.2.1, (lat2 i hi).2.2.2, (lng2 j hj).2.2.1,
      (lng2 j hj).2.2.2⟩⟩
  · show |gridLine _ _ (rows - 1 + 1) - _| ≤ _
    rw [e1]
    exact lat3
  · show |gridLine _ _ (cols - 1 + 1) - _| ≤ _
    rw [e2]
    exact lng3

set_option maxRecDepth 100000 in
theorem grid_tiling_witness :
    (∀ v ∈ square, |v.1| ≤ 512 ∧ |v.2| ≤ 512) ∧
    jsMin (square.map (fun c => c.1)) + 1 / 2 ^ 20 ≤ jsMax (square.map (fun c => c.1)) ∧
    jsMin (square.map (fun c => c.2)) + 1 / 2 ^ 20 ≤ jsMax (square.map (fun c => c.2)) ∧
    0 < 15 ∧ 15 ≤ 1024 ∧
    |(cellBounds (mkGrid square 15 15) (15 - 1) (15 - 1)).2.1 - (mkGrid square 15 15).maxLat|
      ≤ 1 / 2 ^ 40 ∧
    (cellBounds (mkGrid square 15 15) 0 0).1 =
      (fl (mkGrid square 15 15).minLat, fl (mkGrid square 15 15).minLng) :=
  have h := grid_tiling square [] (fun _ => 0) 15 15 (by decide!) (by decide!) (by decide!)
    (by decide) (by decide) (by decide) (by decide)
  ⟨by decide!, by decide!, by decide!, by decide, by decide,
   h.2.2.2.2.2.2.2.2.1, h.2.2.2.2.2.2.2.1⟩

set_option maxRecDepth 100000 in
/-- C21, as stated, fails: for the square ring with corners `(0, 0)` and
`(7.75, 7.75)` the upper corner of cell `(14, 14)` is computed as
`(7.750000000000001, 7.750000000000001)`, which is `2^-50` above
`(maxLat, maxLng)`. -/
theorem grid_upper_corner_off :
    (mkGrid sevenSquare 15 15).maxLat = 31 / 4 ∧ (mkGrid sevenSquare 15 15).maxLng = 31 / 4 ∧
    (cellBounds (mkGrid sevenSquare 15 15) 14 14).2 =
      (31 / 4 + 1 / 2 ^ 50, 31 / 4 + 1 / 2 ^ 50) ∧
    (cellBounds (mkGrid sevenSquare 15 15) 14 14).2 ≠
      ((mkGrid sevenSquare 15 15).maxLat, (mkGrid sevenSquare 15 15).maxLng) := by
  refine ⟨?_, ?_, ?_, ?_⟩ <;> decide!

/-! ## The two branches of `onCreated` -/

/-- C24: `onCreated` hands the geometry to `handleBoundaryChange` exactly when
measure mode is off and the shape is a polygon, and reports a distance, that of
`measure` over the points of the layer, exactly when measure mode is on and the
shape is a polyline; in both cases the layer replaces the drawn layers; in every
other case nothing changes. -/
theorem onCreated_cases (distanceTo : Point → Point → ℚ) (measureMode : Bool) (s : PageState)
    (event : DrawEvent) :
    ((measureMode = false ∧ event.layerType = "polygon") →
      (onCreated distanceTo measureMode s event).page =
          handleBoundaryChange s.page (some event.layer.geometry) ∧
        (onCreated distanceTo measureMode s event).page.form.boundary =
          some event.layer.geometry ∧
        (onCreated distanceTo measureMode s event).drawnItems = [event.layer] ∧
        (onCreated distanceTo measureMode s event).distances = s.distances) ∧
    ((measureMode = true ∧ event.layerType = "polyline") →
      (onCreated distanceTo measureMode s event).distances =
          s.distances ++ [measure distanceTo event.layer.latlngs] ∧
        (onCreated distanceTo measureMode s event).drawnItems = [event.layer] ∧
        (onCreated distanceTo measureMode s event).page = s.page) ∧
    (¬ (measureMode = false ∧ event.layerType = "polygon") →
      (onCreated distanceTo measureMode s event).page = s.page) ∧
    (¬ (measureMode = true ∧ event.layerType = "polyline") →
      (onCreated distanceTo measureMode s event).distances = s.distances) ∧
    (¬ (measureMode = false ∧ event.layerType = "polygon") →
      ¬ (measureMode = true ∧ event.layerType = "polyline") →
      onCreated distanceTo measureMode s event = s) ∧
    ((onCreated distanceTo measureMode s event).distances.length = s.distances.length + 1 ↔
      (measureMode = true ∧ event.layerType = "polyline")) ∧
    (s.page.form.boundary = none →
      ((onCreated distanceTo measureMode s event).page.form.boundary ≠ none ↔
        (measureMode = false ∧ event.layerType = "polygon"))) := by
  have hne : ("polyline" : String) ≠ "polygon" := by decide
  by_cases hline : event.layerType = "polyline" <;> by_cases hgon : event.layerType = "polygon" <;>
    cases measureMode <;>
    simp_all [onCreated, handleBoundaryChange]

/-! ## The latest prediction -/

theorem getPredictionsForField_perm (predictions : List Prediction) (fieldId : String) :
    (getPredictionsForField predictions fieldId).Perm (predictions.filter (belongsTo fieldId)) :=
  List.perm_insertionSort _ _

theorem getPredictionsForField_sorted (predictions : List Prediction) (fieldId : String) :
    (getPredictionsForField predictions fieldId).Sorted (fun a b => a.createdAt ≤ b.createdAt) := by
  have htot : IsTotal Prediction (fun a b => a.createdAt ≤ b.createdAt) :=
    ⟨fun a b => le_total a.createdAt b.createdAt⟩
  have htrans : IsTrans Prediction (fun a b => a.createdAt ≤ b.createdAt) :=
    ⟨fun a b c hab hbc => le_trans hab hbc⟩
  exact List.sorted_insertionSort _ _

theorem mem_getPredictionsForField (predictions : List Prediction) (fieldId : String)
    (p : Prediction) :
    p ∈ getPredictionsForField predictions fieldId ↔ p ∈ predictions ∧ belongsTo fieldId p = true := by
  rw [(getPredictionsForField_perm predictions fieldId).mem_iff, List.mem_filter]

theorem sorted_le_getLast (l : List Prediction)
    (hs : l.Sorted (fun a b => a.createdAt ≤ b.createdAt)) (q : Prediction)
    (hq : l.getLast? = some q) : ∀ p ∈ l, p.createdAt ≤ q.createdAt := by
  induction l with
  | nil => exact fun p hp => absurd hp (List.not_mem_nil _)
  | cons a t ih =>
    intro p hp
    cases t with
    | nil =>
      rw [List.mem_singleton] at hp
      simp only [List.getLast?_singleton, Option.some.injEq] at hq
      rw [hp, hq]
    | cons b t' =>
      rw [List.getLast?_cons_cons] at hq
      have hs' := List.sorted_cons.1 hs
      have hqm : q ∈ b :: t' := List.mem_of_getLast?_eq_some hq
      rcases List.mem_cons.1 hp with rfl | hp
      · exact hs'.1 q hqm
      · exact ih hs'.2 hq p hp

/-- C27: `getLatestPrediction` returns null exactly when no prediction belongs
to the field; otherwise it returns a prediction of the field whose `createdAt`
is at least that of every prediction of the field; and
`getPredictionsForField` returns the predictions of the field, each as many
times as it occurs, in non-decreasing order of `createdAt`. -/
theorem getLatestPrediction_spec (predictions : List Prediction) (fieldId : String) :
    (getLatestPrediction predictions fieldId = none ↔
      ∀ p ∈ predictions, belongsTo fieldId p = false) ∧
    (∀ q, getLatestPrediction predictions fieldId = some q →
      q ∈ predictions ∧ belongsTo fieldId q = true ∧
        ∀ p ∈ predictions, belongsTo fieldId p = true → p.createdAt ≤ q.createdAt) ∧
    (getPredictionsForField predictions fieldId).Perm (predictions.filter (belongsTo fieldId)) ∧
    (getPredictionsForField predictions fieldId).Sorted
      (fun a b => a.createdAt ≤ b.createdAt) := by
  refine ⟨?_, ?_, getPredictionsForField_perm predictions fieldId,
    getPredictionsForField_sorted predictions fieldId⟩
  · unfold getLatestPrediction
    simp only
    constructor
    · intro h p hp
      by_contra hb
      have hb' : belongsTo fieldId p = true := by simpa using hb
      have hm := (mem_getPredictionsForField predictions fieldId p).2 ⟨hp, hb'⟩
      split_ifs at h with h0
      · rw [List.length_eq_zero] at h0
        rw [h0] at hm
        exact List.not_mem_nil _ hm
      · rw [List.getLast?_eq_none_iff] at h
        rw [h] at hm
        exact List.not_mem_nil _ hm
    · intro h
      have hnil : getPredictionsForField predictions fieldId = [] := by
        apply List.eq_nil_iff_forall_not_mem.2
        intro p hp
        obtain ⟨hp1, hp2⟩ := (mem_getPredictionsForField predictions fieldId p).1 hp
        rw [h p hp1] at hp2
        exact Bool.noConfusion hp2
      rw [hnil]
      rfl
  · intro q hq
    unfold getLatestPrediction at hq
    simp only at hq
    split_ifs at hq with h0
    have hqm : q ∈ getPredictionsForField predictions fieldId := List.mem_of_getLast?_eq_some hq
    obtain ⟨hq1, hq2⟩ := (mem_getPredictionsForField predictions fieldId q).1 hqm
    refine ⟨hq1, hq2, fun p hp hb => ?_⟩
    exact sorted_le_getLast _ (getPredictionsForField_sorted predictions fieldId) q hq p
      ((mem_getPredictionsForField predictions fieldId p).2 ⟨hp, hb⟩)

/-! ## The Final Prediction card -/

theorem yieldBand_number (p : Prediction) (v : ℚ) (h : p.result = some { yield := .number v }) :
    (yieldBand (some p) = "Low Yield" ↔ v < 2) ∧
      (yieldBand (some p) = "Medium Yield" ↔ 2 ≤ v ∧ v < 4) ∧
      (yieldBand (some p) = "High Yield" ↔ 4 ≤ v) := by
  have hlo : ("Low Yield" : String) ≠ "Medium Yield" := by decide
  have hlh : ("Low Yield" : String) ≠ "High Yield" := by decide
  have hmh : ("Medium Yield" : String) ≠ "High Yield" := by decide
  unfold yieldBand latestYield yieldLt
  simp only [h]
  by_cases h2 : v < 2
  · simp [h2, hlo, hlh]
    linarith
  · by_cases h4 : v < 4
    · simp [h2, h4, hlo.symm, hmh]
      exact not_lt.1 h2
    · simp [h2, h4, hlh.symm, hmh.symm]
      exact not_lt.1 h4

/-- C30 at the failing input: with no latest prediction the card shows `N/A`
for the yield and the band `High Yield`; the same holds for a prediction
without a result. -/
theorem yieldBand_without_prediction :
    getLatestPrediction [] "f1" = none ∧
      yieldShown none = none ∧ yieldBand none = "High Yield" ∧
      yieldShown (some { field := .string "f1", createdAt := 0, result := none }) = none ∧
      yieldBand (some { field := .string "f1", createdAt := 0, result := none }) =
        "High Yield" := by
  refine ⟨rfl, rfl, rfl, rfl, rfl⟩

/-! ## The email pattern -/

theorem mem_plusRemainders (cls : Char → Bool) (s t : List Char) :
    t ∈ plusRemainders cls s ↔
      ∃ pre, pre ≠ [] ∧ s = pre ++ t ∧ ∀ c ∈ pre, cls c = true := by
  induction s with
  | nil =>
    simp only [plusRemainders, List.not_mem_nil, false_iff]
    rintro ⟨pre, hne, hs, -⟩
    cases pre with
    | nil => exact hne rfl
    | cons c pre' => exact List.noConfusion hs
  | cons c s' ih =>
    unfold plusRemainders
    by_cases hc : cls c = true
    · rw [if_pos hc, List.mem_cons, ih]
      constructor
      · rintro (rfl | ⟨pre, hne, hs, hall⟩)
        · exact ⟨[c], by simp, rfl, by simpa using hc⟩
        · refine ⟨c :: pre, by simp, by rw [hs]; rfl, ?_⟩
          intro x hx
          rcases List.mem_cons.1 hx with rfl | hx
          · exact hc
          · exact hall x hx
      · rintro ⟨pre, hne, hs, hall⟩
        cases pre with
        | nil => exact absurd rfl hne
        | cons x pre' =>
          rw [List.cons_append] at hs
          obtain ⟨rfl, hs'⟩ := List.cons.inj hs
          cases pre' with
          | nil => exact Or.inl hs'.symm
          | cons y pre'' =>
            exact Or.inr ⟨y :: pre'', by simp, hs',
              fun z hz => hall z (List.mem_cons_of_mem _ hz)⟩
    · rw [if_neg hc]
      simp only [List.not_mem_nil, false_iff]
      rintro ⟨pre, hne, hs, hall⟩
      cases pre with
      | nil => exact hne rfl
      | cons x pre' =>
        rw [List.cons_append] at hs
        obtain ⟨rfl, -⟩ := List.cons.inj hs
        exact hc (hall _ (List.mem_cons_self _ _))

theorem mem_lit_remainders (a : Char) (s t : List Char) :
    t ∈ (RxItem.lit a).remainders s ↔ s = a :: t := by
  cases s with
  | nil => simp [RxItem.remainders]
  | cons c s' =>
    show t ∈ (if c = a then [s'] else []) ↔ c :: s' = a :: t
    by_cases h : c = a
    · rw [if_pos h, List.mem_singleton, h]
      constructor
      · rintro rfl
        rfl
      · intro h'
        exact (List.cons.inj h').2.symm
    · rw [if_neg h]
      simp only [List.not_mem_nil, false_iff]
      intro h'
      exact h (List.cons.inj h').1

theorem rxTest_cons (item : RxItem) (rest : List RxItem) (s : List Char) :
    rxTest (item :: rest) s = true ↔ ∃ t ∈ item.remainders s, rxTest rest t = true := by
  show (item.remainders s).any (rxTest rest) = true ↔ _
  exact List.any_eq_true

theorem validateEmail_iff_split (s : List Char) :
    validateEmail s = true ↔
      ∃ l a b : List Char, l ≠ [] ∧ a ≠ [] ∧ b ≠ [] ∧ s = l ++ '@' :: (a ++ '.' :: b) ∧
        (∀ c ∈ l, notSpaceOrAt c = true) ∧ (∀ c ∈ a, notSpaceOrAt c = true) ∧
        (∀ c ∈ b, notSpaceOrAt c = true) := by
  unfold validateEmail
  constructor
  · intro h
    obtain ⟨t1, h1, h⟩ := (rxTest_cons _ _ _).1 h
    obtain ⟨t2, h2, h⟩ := (rxTest_cons _ _ _).1 h
    obtain ⟨t3, h3, h⟩ := (rxTest_cons _ _ _).1 h
    obtain ⟨t4, h4, h⟩ := (rxTest_cons _ _ _).1 h
    obtain ⟨t5, h5, h⟩ := (rxTest_cons _ _ _).1 h
    have h5e : t5 = [] := by
      cases t5 with
      | nil => rfl
      | cons c t => simp [rxTest] at h
    subst h5e
    obtain ⟨l, hl, hs, hlall⟩ := (mem_plusRemainders _ _ _).1 h1
    have h2' := (mem_lit_remainders _ _ _).1 h2
    obtain ⟨a, ha, hs3, haall⟩ := (mem_plusRemainders _ _ _).1 h3
    have h4' := (mem_lit_remainders _ _ _).1 h4
    obtain ⟨b, hb, hs5, hball⟩ := (mem_plusRemainders _ _ _).1 h5
    rw [List.append_nil] at hs5
    refine ⟨l, a, b, hl, ha, hb, ?_, hlall, haall, hball⟩
    rw [hs, h2', hs3, h4', hs5]
  · rintro ⟨l, a, b, hl, ha, hb, hs, hlall, haall, hball⟩
    refine (rxTest_cons _ _ _).2 ⟨'@' :: (a ++ '.' :: b),
      (mem_plusRemainders _ _ _).2 ⟨l, hl, hs, hlall⟩, ?_⟩
    refine (rxTest_cons _ _ _).2 ⟨a ++ '.' :: b, (mem_lit_remainders _ _ _).2 rfl, ?_⟩
    refine (rxTest_cons _ _ _).2 ⟨'.' :: b, (mem_plusRemainders _ _ _).2 ⟨a, ha, rfl, haall⟩, ?_⟩
    refine (rxTest_cons _ _ _).2 ⟨b, (mem_lit_remainders _ _ _).2 rfl, ?_⟩
    refine (rxTest_cons _ _ _).2 ⟨[], (mem_plusRemainders _ _ _).2 ⟨b, hb, by simp, hball⟩, ?_⟩
    rfl

theorem notSpaceOrAt_iff (c : Char) : notSpaceOrAt c = true ↔ isJsSpace c = false ∧ c ≠ '@' := by
  unfold notSpaceOrAt
  simp

/-- C29: `validateEmail(s)` is true exactly when `s` contains no white space,
contains exactly one `@`, has at least one character before it, and the part
after it contains a `.` that is neither its first nor its last character. -/
theorem validateEmail_spec (s : List Char) :
    validateEmail s = true ↔
      (∀ c ∈ s, isJsSpace c = false) ∧ s.count '@' = 1 ∧
        ∃ l d : List Char, s = l ++ '@' :: d ∧ l ≠ [] ∧
          ∃ a b : List Char, d = a ++ '.' :: b ∧ a ≠ [] ∧ b ≠ [] := by
  have hat : isJsSpace '@' = false := by decide
  have hdot : isJsSpace '.' = false := by decide
  have hne : ('.' : Char) ≠ '@' := by decide
  rw [validateEmail_iff_split]
  constructor
  · rintro ⟨l, a, b, hl, ha, hb, hs, hlall, haall, hball⟩
    have cl : l.count '@' = 0 :=
      List.count_eq_zero.2 fun h => ((notSpaceOrAt_iff _).1 (hlall _ h)).2 rfl
    have ca : a.count '@' = 0 :=
      List.count_eq_zero.2 fun h => ((notSpaceOrAt_iff _).1 (haall _ h)).2 rfl
    have cb : b.count '@' = 0 :=
      List.count_eq_zero.2 fun h => ((notSpaceOrAt_iff _).1 (hball _ h)).2 rfl
    refine ⟨?_, ?_, l, a ++ '.' :: b, hs, hl, a, b, rfl, ha, hb⟩
    · intro c hc
      rw [hs] at hc
      simp only [List.mem_append, List.mem_cons] at hc
      rcases hc with h | rfl | h | rfl | h
      · exact ((notSpaceOrAt_iff _).1 (hlall _ h)).1
      · exact hat
      · exact ((notSpaceOrAt_iff _).1 (haall _ h)).1
      · exact hdot
      · exact ((notSpaceOrAt_iff _).1 (hball _ h)).1
    · rw [hs, List.count_append, List.count_cons_self, List.count_append,
        List.count_cons_of_ne hne.symm, cl, ca, cb]
  · rintro ⟨hsp, hcount, l, d, hs, hl, a, b, hd, ha, hb⟩
    subst hd
    rw [hs, List.count_append, List.count_cons_self, List.count_append,
      List.count_cons_of_ne hne.symm] at hcount
    have cl : l.count '@' = 0 := by omega
    have ca : a.count '@' = 0 := by omega
    have cb : b.count '@' = 0 := by omega
    have hmem : ∀ c, c ∈ l ∨ c ∈ a ∨ c ∈ b → c ∈ s := by
      intro c hc
      rw [hs]
      simp only [List.mem_append, List.mem_cons]
      rcases hc with h | h | h
      · exact Or.inl h
      · exact Or.inr (Or.inr (Or.inl h))
      · exact Or.inr (Or.inr (Or.inr (Or.inr h)))
    refine ⟨l, a, b, hl, ha, hb, hs, ?_, ?_, ?_⟩
    · intro c hc
      exact (notSpaceOrAt_iff c).2 ⟨hsp c (hmem c (Or.inl hc)),
        fun h => List.count_eq_zero.1 cl (h ▸ hc)⟩
    · intro c hc
      exact (notSpaceOrAt_iff c).2 ⟨hsp c (hmem c (Or.inr (Or.inl hc))),
        fun h => List.count_eq_zero.1 ca (h ▸ hc)⟩
    · intro c hc
      exact (notSpaceOrAt_iff c).2 ⟨hsp c (hmem c (Or.inr (Or.inr hc))),
        fun h => List.count_eq_zero.1 cb (h ▸ hc)⟩

/-! ## The feedback form -/

theorem jsTrim_eq_nil_iff (s : List Char) :
    jsTrim s = [] ↔ ∀ c ∈ s, isJsSpace c = true := by
  unfold jsTrim
  rw [List.reverse_eq_nil_iff, List.dropWhile_eq_nil_iff]
  constructor
  · intro h
    by_contra hne
    have hd : s.dropWhile isJsSpace ≠ [] := by
      rw [Ne, List.dropWhile_eq_nil_iff]
      exact hne
    obtain ⟨x, t, hxt⟩ := List.exists_cons_of_ne_nil hd
    have hx : isJsSpace x = true := h x (by rw [hxt]; simp)
    have hhead := List.head_dropWhile_not isJsSpace s hd
    simp only [hxt, List.head_cons] at hhead
    rw [hx] at hhead
    exact Bool.noConfusion hhead
  · intro h c hc
    have hd : s.dropWhile isJsSpace = [] := List.dropWhile_eq_nil_iff.2 h
    rw [hd] at hc
    simp at hc

theorem jsLength_jsTrim_le (s : List Char) : jsLength (jsTrim s) ≤ jsLength s := by
  have hsub : ∀ l₁ l₂ : List Char, l₁.Sublist l₂ → jsLength l₁ ≤ jsLength l₂ := by
    intro l₁ l₂ h
    exact List.Sublist.sum_le_sum (h.map codeUnits) (fun a _ => Nat.zero_le a)
  have hrev : ∀ l : List Char, jsLength l.reverse = jsLength l := by
    intro l
    unfold jsLength
    rw [List.map_reverse, List.sum_reverse]
  unfold jsTrim
  rw [hrev]
  refine le_trans (hsub _ _ (List.dropWhile_sublist _)) ?_
  rw [hrev]
  exact hsub _ _ (List.dropWhile_sublist _)

theorem validateForm_eq_empty_iff (f : FeedbackForm) :
    validateForm f = "" ↔
      jsTrim f.username ≠ [] ∧ jsTrim f.email ≠ [] ∧ validateEmail (jsTrim f.email) = true ∧
        10 ≤ jsLength (jsTrim f.message) ∧ jsLength f.message ≤ 1000 := by
  unfold validateForm
  by_cases h1 : jsTrim f.username = []
  · simp [h1]
  by_cases h2 : jsTrim f.email = []
  · simp [h1, h2]
  by_cases h3 : validateEmail (jsTrim f.email) = true
  swap
  · simp [h1, h2, h3]
  by_cases h4 : jsTrim f.message = []
  · simp [h1, h2, h3, h4, jsLength]
  by_cases h5 : jsLength (jsTrim f.message) < 10
  · simp [h1, h2, h3, h4, h5]
  by_cases h6 : jsLength f.message > 1000
  · simp [h1, h2, h3, h4, h5, h6]
  · have h5' : 10 ≤ jsLength (jsTrim f.message) := not_lt.1 h5
    have h6' : jsLength f.message ≤ 1000 := not_lt.1 h6
    simp [h1, h2, h3, h4, h5, h6, h5', h6']

theorem handleSubmit_submitted (username email : List Char) (outcome : SubmitOutcome)
    (s : FeedbackState) :
    (handleSubmit username email outcome s).submitted =
      if validateForm s.form = "" then
        s.submitted ++ [{ username := jsTrim s.form.username, email := jsTrim s.form.email,
                          subject := jsTrim s.form.subject, message := jsTrim s.form.message }]
      else s.submitted := by
  unfold handleSubmit
  by_cases h : validateForm s.form = ""
  · cases outcome <;> simp [h]
  · simp [h]

/-- C28: `validateForm(f)` returns the empty string exactly when the username
is not blank, the trimmed email is not empty and passes `validateEmail`, the
trimmed message has at least 10 characters and the untrimmed message at most
1000, counted as `length` counts them, in UTF-16 code units; otherwise it
returns the message of the first rule that fails, in that order.
`handleSubmit` sends a request exactly when `validateForm` returns the empty
string, and the message it sends then has between 10 and 1000 characters.  A
message of five characters outside the Basic Multilingual Plane has length 10
and passes. -/
theorem feedback_validation (f : FeedbackForm) (username email : List Char)
    (outcome : SubmitOutcome) (s : FeedbackState) :
    (validateForm f = "" ↔
      (∃ c ∈ f.username, isJsSpace c = false) ∧ jsTrim f.email ≠ [] ∧
        validateEmail (jsTrim f.email) = true ∧ 10 ≤ jsLength (jsTrim f.message) ∧
        jsLength f.message ≤ 1000) ∧
    ((∀ c ∈ f.username, isJsSpace c = true) → validateForm f = "Username is required.") ∧
    ((∃ c ∈ f.username, isJsSpace c = false) →
      (jsTrim f.email = [] → validateForm f = "Email is required.") ∧
      (jsTrim f.email ≠ [] →
        (validateEmail (jsTrim f.email) = false →
          validateForm f = "Please enter a valid email address.") ∧
        (validateEmail (jsTrim f.email) = true →
          (jsTrim f.message = [] → validateForm f = "Feedback cannot be empty.") ∧
          (jsTrim f.message ≠ [] → jsLength (jsTrim f.message) < 10 →
            validateForm f = "Feedback must be at least 10 characters.") ∧
          (10 ≤ jsLength (jsTrim f.message) → 1000 < jsLength f.message →
            validateForm f = "Feedback cannot exceed 1000 characters.")))) ∧
    ((handleSubmit username email outcome s).submitted =
      if validateForm s.form = "" then
        s.submitted ++ [{ username := jsTrim s.form.username, email := jsTrim s.form.email,
                          subject := jsTrim s.form.subject, message := jsTrim s.form.message }]
      else s.submitted) ∧
    (validateForm s.form = "" →
      10 ≤ jsLength (jsTrim s.form.message) ∧ jsLength (jsTrim s.form.message) ≤ 1000) ∧
    (validateForm s.form ≠ "" →
      (handleSubmit username email outcome s).error = validateForm s.form) ∧
    (validateForm
        { username := ['a'], email := ['a', '@', 'b', '.', 'c'], subject := [],
          message := List.replicate 5 (Char.ofNat 128512) } = "") := by
  have hblank : (∃ c ∈ f.username, isJsSpace c = false) ↔ jsTrim f.username ≠ [] := by
    rw [Ne, jsTrim_eq_nil_iff]
    simp
  refine ⟨?_, ?_, ?_, handleSubmit_submitted username email outcome s, ?_, ?_, ?_⟩
  · rw [validateForm_eq_empty_iff, hblank]
  · intro h
    have h1 := (jsTrim_eq_nil_iff _).2 h
    simp [validateForm, h1]
  · intro h
    have h1 := hblank.1 h
    refine ⟨fun h2 => by simp [validateForm, h1, h2], fun h2 => ⟨fun h3 => ?_, fun h3 => ?_⟩⟩
    · simp [validateForm, h1, h2, h3]
    · refine ⟨fun h4 => by simp [validateForm, h1, h2, h3, h4], fun h4 h5 => ?_, fun h5 h6 => ?_⟩
      · simp [validateForm, h1, h2, h3, h4, h5]
      · have h4 : jsTrim f.message ≠ [] := by
          intro h0
          rw [h0] at h5
          simp [jsLength] at h5
        have h5' : ¬ jsLength (jsTrim f.message) < 10 := by omega
        simp [validateForm, h1, h2, h3, h4, h5', h6]
  · intro h
    have h' := (validateForm_eq_empty_iff _).1 h
    exact ⟨h'.2.2.2.1, le_trans (jsLength_jsTrim_le _) h'.2.2.2.2⟩
  · intro h
    simp [handleSubmit, h]
  · decide

/-! ## Rings as closed paths -/

theorem pathCount_concat (r : Point → Point → Bool) (x d : Point) :
    ∀ l : List Point, l ≠ [] →
      pathCount r (l ++ [x]) =
        pathCount r l + (if r x (l.getD (l.length - 1) d) then 1 else 0)
  | [], h => absurd rfl h
  | [a], _ => by simp [pathCount]
  | a :: b :: t, _ => by
    have ih := pathCount_concat r x d (b :: t) (by simp)
    simp only [List.cons_append] at ih ⊢
    simp only [pathCount, ih, List.length_cons, Nat.add_sub_cancel, List.getD_cons_succ]
    rw [add_assoc]

theorem countP_range_succ (f : Nat → Bool) (n : Nat) :
    (List.range (n + 1)).countP f =
      (if f 0 then 1 else 0) + (List.range n).countP (fun i => f (i + 1)) := by
  rw [List.range_succ_eq_map, List.countP_cons, List.countP_map, add_comm]
  rfl

theorem countP_steps (r : Point → Point → Bool) (d : Point) :
    ∀ l : List Point,
      (List.range (l.length - 1)).countP (fun i => r (l.getD (i + 1) d) (l.getD i d)) =
        pathCount r l
  | [] => by simp [pathCount]
  | [a] => by simp [pathCount]
  | a :: b :: t => by
    have ih := countP_steps r d (b :: t)
    simp only [List.length_cons, Nat.add_sub_cancel] at ih ⊢
    rw [countP_range_succ, pathCount, ← ih]
    simp only [List.getD_cons_succ, List.getD_cons_zero]

/-- The crossing count of a non-empty ring: the steps along the ring, and the
closing edge from the last vertex back to the first. -/
theorem crossingCount_eq_path (c : Point → Point → Point → Bool) (p : Point) (vs : List Point)
    (h : vs ≠ []) :
    crossingCount c p vs =
      pathCount (c p) vs +
        (if c p (vs.getD 0 (0, 0)) (vs.getD (vs.length - 1) (0, 0)) then 1 else 0) := by
  obtain ⟨a, t, rfl⟩ := List.exists_cons_of_ne_nil h
  unfold crossingCount
  rw [List.length_cons, countP_range_succ, ← countP_steps (c p) (0, 0) (a :: t), add_comm]
  simp only [List.length_cons, Nat.add_sub_cancel]
  congr 1
  · apply List.countP_congr
    intro i hi
    have hlt := List.mem_range.1 hi
    rw [prevIndex_eq _ _ (by omega : i + 1 < t.length + 1)]
    simp
  · rw [prevIndex_eq _ _ (by omega : 0 < t.length + 1)]
    simp

/-- C23: `pointInPolygon` gives the same result on a non-empty ring and on the
ring with its first vertex stored a second time at the end. -/
theorem pointInPolygon_closed_ring (p v : Point) (t : List Point) :
    pointInPolygon p (v :: t ++ [v]) = pointInPolygon p (v :: t) := by
  rw [pointInPolygon_eq_odd, pointInPolygon_eq_odd]
  congr 2
  rw [crossingCount_eq_path _ _ (v :: t ++ [v]) (by simp),
    crossingCount_eq_path _ _ (v :: t) (by simp),
    pathCount_concat (intersect p) v (0, 0) (v :: t) (by simp)]
  have hlast : (v :: t ++ [v]).getD ((v :: t ++ [v]).length - 1) (0, 0) = v := by
    rw [List.getD_eq_getElem?_getD]
    simp
  rw [hlast]
  simp only [List.cons_append, List.getD_cons_zero, intersect_same_lat p v v rfl]
  simp

/-! ## Edges the point keeps clear of -/

theorem eps_bounds : (1 : ℚ) / 2 ^ 40 < eps ∧ eps < 1 / 2 ^ 39 := by
  constructor <;> norm_num [eps]

/-- The divisor `yj - yi + 1e-12`, computed in doubles, for an edge whose
latitudes differ by at least `2e-12`: it is not zero and its relative error is
at most `2^-50`. -/
theorem divisor_err (D : ℚ) (hD : 2 * eps ≤ |D|) (hD' : |D| ≤ 1024) :
    |fl (fl D + eps) - (D + eps)| ≤ |D + eps| / 2 ^ 50 ∧ 1 / 2 ^ 40 ≤ |D + eps| ∧
      |D| ≤ 2 * |D + eps| ∧ |D + eps| ≤ 1025 := by
  obtain ⟨he1, he2⟩ := eps_bounds
  have he0 : 0 < eps := eps_pos
  have hG1 : |D| - eps ≤ |D + eps| := by
    have h := abs_sub_abs_le_abs_sub D (-eps)
    rw [abs_neg, abs_of_pos he0, sub_neg_eq_add] at h
    exact h
  have hG2 : |D + eps| ≤ |D| + eps := by
    have h := abs_add D eps
    rw [abs_of_pos he0] at h
    exact h
  have hg40 : 1 / 2 ^ 40 ≤ |D + eps| := by linarith
  have hDG : |D| ≤ 2 * |D + eps| := by linarith
  have hG3 : |D + eps| ≤ 1025 := by
    norm_num at he2 ⊢
    linarith
  refine ⟨?_, hg40, hDG, hG3⟩
  have e1 := fl_err D
  have e2 := fl_err (fl D + eps)
  have h1 : |fl D + eps| ≤ |D + eps| + |fl D - D| := by
    have h := abs_add (D + eps) (fl D - D)
    have e : D + eps + (fl D - D) = fl D + eps := by ring
    rw [e] at h
    exact h
  have h2 : |fl (fl D + eps) - (D + eps)| ≤ |fl (fl D + eps) - (fl D + eps)| + |fl D - D| := by
    have h := abs_add (fl (fl D + eps) - (fl D + eps)) (fl D - D)
    have e : fl (fl D + eps) - (fl D + eps) + (fl D - D) = fl (fl D + eps) - (D + eps) := by ring
    rw [e] at h
    exact h
  have h3 : |fl D + eps| / 2 ^ 53 ≤ (|D + eps| + |fl D - D|) / 2 ^ 53 :=
    div_le_div_of_nonneg_right h1 (by positivity)
  have hab := abs_nonneg (fl D - D)
  set g := |D + eps|
  set a := |fl D - D|
  set b := |fl (fl D + eps) - (fl D + eps)|
  set d := |D|
  norm_num at e1 e2 h3 hg40 ⊢
  linarith

/-- The dividend `(xj - xi) * (y - yi)`, computed in doubles, against the size
`g` of the divisor. -/
theorem dividend_err (dx t g : ℚ) (hdx : |dx| ≤ 1024) (ht : |t| ≤ 2 * g)
    (hg : 1 / 2 ^ 40 ≤ g) :
    |fl (fl dx * fl t) - dx * t| ≤ g / 2 ^ 39 := by
  have e1 := fl_err dx
  have e2 := fl_err t
  have e3 := fl_err (fl dx * fl t)
  have hdx0 := abs_nonneg dx
  have ht0 := abs_nonneg t
  have hg0 : 0 < g := lt_of_lt_of_le (by positivity) hg
  -- sizes and errors of the two factors
  have ha : |fl dx - dx| ≤ 1 / 2 ^ 42 := by
    have : |dx| / 2 ^ 53 ≤ 1024 / 2 ^ 53 := div_le_div_of_nonneg_right hdx (by positivity)
    norm_num at e1 this ⊢
    linarith
  have hb : |fl t - t| ≤ g / 2 ^ 51 := by
    have : |t| / 2 ^ 53 ≤ 2 * g / 2 ^ 53 := div_le_div_of_nonneg_right ht (by positivity)
    norm_num at e2 this hg ⊢
    linarith
  have hfl1 : |fl dx| ≤ 1025 := by
    have := abs_sub_abs_le_abs_sub (fl dx) dx
    norm_num at ha ⊢
    linarith
  have hfl2 : |fl t| ≤ 3 * g := by
    have := abs_sub_abs_le_abs_sub (fl t) t
    norm_num at hb ⊢
    linarith
  -- the product of the rounded factors
  have hprod : |fl dx * fl t - dx * t| ≤ g / 2 ^ 40 + g / 2 ^ 41 := by
    have e : fl dx * fl t - dx * t = (fl dx - dx) * fl t + dx * (fl t - t) := by ring
    rw [e]
    refine le_trans (abs_add _ _) (add_le_add ?_ ?_)
    · rw [abs_mul]
      calc |fl dx - dx| * |fl t| ≤ 1 / 2 ^ 42 * (3 * g) :=
            mul_le_mul ha hfl2 (abs_nonneg _) (by positivity)
        _ ≤ g / 2 ^ 40 := by
            norm_num
            linarith
    · rw [abs_mul]
      calc |dx| * |fl t - t| ≤ 1024 * (g / 2 ^ 51) :=
            mul_le_mul hdx hb (abs_nonneg _) (by norm_num)
        _ = g / 2 ^ 41 := by
            norm_num
            ring
  have hsize : |fl dx * fl t| ≤ 3075 * g := by
    rw [abs_mul]
    calc |fl dx| * |fl t| ≤ 1025 * (3 * g) :=
          mul_le_mul hfl1 hfl2 (abs_nonneg _) (by norm_num)
      _ = 3075 * g := by ring
  have h3 : |fl (fl dx * fl t) - fl dx * fl t| ≤ g / 2 ^ 41 := by
    have : |fl dx * fl t| / 2 ^ 53 ≤ 3075 * g / 2 ^ 53 :=
      div_le_div_of_nonneg_right hsize (by positivity)
    norm_num at e3 this hg ⊢
    linarith
  have e : fl (fl dx * fl t) - dx * t =
      (fl (fl dx * fl t) - fl dx * fl t) + (fl dx * fl t - dx * t) := by ring
  rw [e]
  have := abs_add (fl (fl dx * fl t) - fl dx * fl t) (fl dx * fl t - dx * t)
  norm_num at h3 hprod this ⊢
  linarith

/-- The quotient of the computed dividend by the computed divisor. -/
theorem quotient_err (P N S G : ℚ) (hP : |P - N| ≤ |G| / 2 ^ 39) (hS : |S - G| ≤ |G| / 2 ^ 50)
    (hN : |N| ≤ 2048 * |G|) (hG : 0 < |G|) :
    S ≠ 0 ∧ |P / S - N / G| ≤ 1 / 2 ^ 37 := by
  have hG0 : G ≠ 0 := abs_pos.1 hG
  have hSlow : |G| * (1 - 1 / 2 ^ 50) ≤ |S| := by
    have h := abs_sub_abs_le_abs_sub G S
    rw [abs_sub_comm G S] at h
    have e : |G| * (1 - 1 / 2 ^ 50) = |G| - |G| / 2 ^ 50 := by ring
    rw [e]
    linarith
  have hSpos : 0 < |S| := by
    refine lt_of_lt_of_le ?_ hSlow
    apply mul_pos hG
    norm_num
  have hS0 : S ≠ 0 := abs_pos.1 hSpos
  refine ⟨hS0, ?_⟩
  have key : P / S - N / G = ((P - N) * G - N * (S - G)) / (S * G) := by
    field_simp
    ring
  rw [key, abs_div, abs_mul, div_le_iff₀ (mul_pos hSpos hG)]
  have hnum : |(P - N) * G - N * (S - G)| ≤ |G| / 2 ^ 39 * |G| + 2048 * |G| * (|G| / 2 ^ 50) := by
    refine le_trans (abs_sub _ _) (add_le_add ?_ ?_)
    · rw [abs_mul]
      exact mul_le_mul_of_nonneg_right hP hG.le
    · rw [abs_mul]
      exact mul_le_mul hN hS (abs_nonneg _) (by positivity)
  have hden : |G| * (1 - 1 / 2 ^ 50) * |G| ≤ |S| * |G| :=
    mul_le_mul_of_nonneg_right hSlow hG.le
  have hGG : 0 < |G| * |G| := mul_pos hG hG
  set gg := |G| * |G|
  have e1 : |G| / 2 ^ 39 * |G| + 2048 * |G| * (|G| / 2 ^ 50) = gg * (1 / 2 ^ 39 + 2048 / 2 ^ 50) := by
    ring
  have e2 : |G| * (1 - 1 / 2 ^ 50) * |G| = gg * (1 - 1 / 2 ^ 50) := by ring
  rw [e1] at hnum
  rw [e2] at hden
  have h3 : gg * (1 / 2 ^ 39 + 2048 / 2 ^ 50) ≤ 1 / 2 ^ 37 * (gg * (1 - 1 / 2 ^ 50)) := by
    have : (1 / 2 ^ 39 + 2048 / 2 ^ 50 : ℚ) ≤ 1 / 2 ^ 37 * (1 - 1 / 2 ^ 50) := by norm_num
    nlinarith
  calc |(P - N) * G - N * (S - G)| ≤ gg * (1 / 2 ^ 39 + 2048 / 2 ^ 50) := hnum
    _ ≤ 1 / 2 ^ 37 * (gg * (1 - 1 / 2 ^ 50)) := h3
    _ ≤ 1 / 2 ^ 37 * (|S| * |G|) := mul_le_mul_of_nonneg_left hden (by positivity)

/-- The longitude `(xj - xi) * (y - yi) / (yj - yi + 1e-12) + xi`, computed in
doubles, is within `2^-36` of its exact value, for coordinates of at most 512
in absolute value and an edge whose latitudes differ by at least `2e-12`. -/
theorem crossing_err (xi dx t D : ℚ) (hxi : |xi| ≤ 512) (hdx : |dx| ≤ 1024)
    (ht : |t| ≤ |D|) (hD : 2 * eps ≤ |D|) (hD' : |D| ≤ 1024) :
    fl (fl D + eps) ≠ 0 ∧
      |fl (fl (fl (fl dx * fl t) / fl (fl D + eps)) + xi) - (xi + dx * t / (D + eps))|
        ≤ 1 / 2 ^ 36 := by
  obtain ⟨hS, hg40, hDG, hG1025⟩ := divisor_err D hD hD'
  have hGpos : 0 < |D + eps| := lt_of_lt_of_le (by positivity) hg40
  have hP := dividend_err dx t |D + eps| hdx (le_trans ht hDG) hg40
  have hN : |dx * t| ≤ 2048 * |D + eps| := by
    rw [abs_mul]
    calc |dx| * |t| ≤ 1024 * (2 * |D + eps|) :=
          mul_le_mul hdx (le_trans ht hDG) (abs_nonneg _) (by norm_num)
      _ = 2048 * |D + eps| := by ring
  obtain ⟨hS0, hQ⟩ := quotient_err _ _ _ _ hP hS hN hGpos
  refine ⟨hS0, ?_⟩
  have hE : |dx * t / (D + eps)| ≤ 2048 := by
    rw [abs_div, div_le_iff₀ hGpos]
    exact hN
  set P := fl (fl dx * fl t)
  set S := fl (fl D + eps)
  set E := dx * t / (D + eps)
  have hrho : |P / S| ≤ 2049 := by
    have := abs_sub_abs_le_abs_sub (P / S) E
    norm_num at hQ ⊢
    linarith
  have e1 := fl_err (P / S)
  have hq1 : |fl (P / S) - P / S| ≤ 1 / 2 ^ 41 := by
    have : |P / S| / 2 ^ 53 ≤ 2049 / 2 ^ 53 := div_le_div_of_nonneg_right hrho (by positivity)
    norm_num at e1 this ⊢
    linarith
  have hq2 : |fl (P / S)| ≤ 2050 := by
    have := abs_sub_abs_le_abs_sub (fl (P / S)) (P / S)
    norm_num at hq1 ⊢
    linarith
  have e2 := fl_err (fl (P / S) + xi)
  have hsum : |fl (P / S) + xi| ≤ 2562 := le_trans (abs_add _ _) (by linarith)
  have ht1 : |fl (fl (P / S) + xi) - (fl (P / S) + xi)| ≤ 1 / 2 ^ 41 := by
    have : |fl (P / S) + xi| / 2 ^ 53 ≤ 2562 / 2 ^ 53 :=
      div_le_div_of_nonneg_right hsum (by positivity)
    norm_num at e2 this ⊢
    linarith
  have e : fl (fl (P / S) + xi) - (xi + E) =
      (fl (fl (P / S) + xi) - (fl (P / S) + xi)) + (fl (P / S) - P / S) + (P / S - E) := by ring
  rw [e]
  have t1 := abs_add ((fl (fl (P / S) + xi) - (fl (P / S) + xi)) + (fl (P / S) - P / S))
    (P / S - E)
  have t2 := abs_add (fl (fl (P / S) + xi) - (fl (P / S) + xi)) (fl (P / S) - P / S)
  norm_num at hQ hq1 ht1 t1 t2 ⊢
  linarith

theorem eps_shift_bound (dx t D : ℚ) (hD : eps < |D|) (ht : |t| ≤ |D|) :
    |dx * t / (D + eps) - dx * t / D| ≤ |dx| * eps / (|D| - eps) := by
  have he := eps_pos
  have hD0 : D ≠ 0 := by
    intro h
    rw [h, abs_zero] at hD
    linarith
  have hDe : D + eps ≠ 0 := by
    intro h
    have h' : D = -eps := by linarith
    rw [h', abs_neg, abs_of_pos he] at hD
    exact lt_irrefl _ hD
  have key : dx * t / (D + eps) - dx * t / D = -(dx * t * eps) / (D * (D + eps)) := by
    field_simp
    ring
  have h1 : |D| - eps ≤ |D + eps| := by
    have h := abs_sub_abs_le_abs_sub D (-eps)
    rw [abs_neg, abs_of_pos he, sub_neg_eq_add] at h
    exact h
  have hpos : 0 < |D| - eps := by linarith
  have hDpos : 0 < |D| := by linarith
  have hDepos : 0 < |D + eps| := lt_of_lt_of_le hpos h1
  rw [key, abs_div, abs_neg, abs_mul, abs_mul, abs_mul, abs_of_pos he,
    div_le_div_iff₀ (mul_pos hDpos hDepos) hpos]
  have h2 : |t| * (|D| - eps) ≤ |D| * |D + eps| := mul_le_mul ht h1 hpos.le hDpos.le
  have h3 : 0 ≤ |dx| * eps := mul_nonneg (abs_nonneg _) he.le
  nlinarith [mul_le_mul_of_nonneg_left h2 h3]

theorem lt_iff_of_close (x T X : ℚ) (h : |T - X| < |x - X|) : x < T ↔ x < X := by
  have h0 := abs_nonneg (T - X)
  rcases lt_abs.1 h with h1 | h1
  · have h2 := le_abs_self (T - X)
    constructor <;> intro h' <;> linarith
  · have h2 := neg_abs_le (T - X)
    constructor <;> intro h' <;> linarith

theorem straddles_iff (p vi vj : Point) :
    straddles p vi vj = true ↔ (p.1 < vi.1 ∧ vj.1 ≤ p.1) ∨ (vi.1 ≤ p.1 ∧ p.1 < vj.1) := by
  unfold straddles
  simp

theorem straddles_abs_le (p vi vj : Point) (h : straddles p vi vj = true) :
    |p.1 - vi.1| ≤ |vj.1 - vi.1| := by
  rcases (straddles_iff p vi vj).1 h with ⟨h1, h2⟩ | ⟨h1, h2⟩
  · rw [abs_of_neg (by linarith), abs_of_neg (by linarith)]
    linarith
  · rw [abs_of_nonneg (by linarith), abs_of_pos (by linarith)]
    linarith

theorem intersect_eq_crossesExact (p vi vj : Point) (hbi : |vi.1| ≤ 512 ∧ |vi.2| ≤ 512)
    (hbj : |vj.1| ≤ 512 ∧ |vj.2| ≤ 512) (h : ClearOfEdge p vi vj) :
    intersect p vi vj = crossesExact p vi vj := by
  rw [intersect_eq_crossesEps]
  cases hs : straddles p vi vj
  · unfold crossesEps crossesExact
    rw [hs]
    rfl
  · obtain ⟨hD, hd⟩ := h hs
    have he := eps_pos
    have hdx : |vj.2 - vi.2| ≤ 1024 := le_trans (abs_sub _ _) (by linarith [hbi.2, hbj.2])
    have hD' : |vj.1 - vi.1| ≤ 1024 := le_trans (abs_sub _ _) (by linarith [hbi.1, hbj.1])
    have ht := straddles_abs_le p vi vj hs
    obtain ⟨hS0, herr⟩ := crossing_err vi.2 (vj.2 - vi.2) (p.1 - vi.1) (vj.1 - vi.1) hbi.2 hdx ht
      hD hD'
    have hshift := eps_shift_bound (vj.2 - vi.2) (p.1 - vi.1) (vj.1 - vi.1) (by linarith) ht
    unfold crossesEps crossesExact
    rw [hs, Bool.true_and, Bool.true_and, if_neg hS0, decide_eq_decide]
    apply lt_iff_of_close
    unfold crossingLng at hd
    refine lt_of_le_of_lt ?_ hd
    have e : fl (fl (fl (fl (vj.2 - vi.2) * fl (p.1 - vi.1)) / fl (fl (vj.1 - vi.1) + eps)) + vi.2) -
        (vi.2 + (vj.2 - vi.2) * (p.1 - vi.1) / (vj.1 - vi.1)) =
        (fl (fl (fl (fl (vj.2 - vi.2) * fl (p.1 - vi.1)) / fl (fl (vj.1 - vi.1) + eps)) + vi.2) -
          (vi.2 + (vj.2 - vi.2) * (p.1 - vi.1) / (vj.1 - vi.1 + eps))) +
        ((vj.2 - vi.2) * (p.1 - vi.1) / (vj.1 - vi.1 + eps) -
          (vj.2 - vi.2) * (p.1 - vi.1) / (vj.1 - vi.1)) := by ring
    rw [e]
    refine le_trans (abs_add _ _) ?_
    linarith

theorem straddles_comm (p vi vj : Point) : straddles p vi vj = straddles p vj vi := by
  unfold straddles
  generalize decide (vi.1 > p.1) = a
  generalize decide (vj.1 > p.1) = b
  cases a <;> cases b <;> rfl

theorem crossingLng_comm (y : ℚ) (vi vj : Point) (h : vj.1 - vi.1 ≠ 0) :
    crossingLng y vi vj = crossingLng y vj vi := by
  unfold crossingLng
  have h' : vi.1 - vj.1 ≠ 0 := fun h0 => h (by linarith)
  field_simp
  ring

theorem crossesExact_comm (p vi vj : Point) : crossesExact p vi vj = crossesExact p vj vi := by
  cases hs : straddles p vi vj
  · unfold crossesExact
    rw [← straddles_comm p vi vj, hs]
    rfl
  · have hne := straddles_ne p vi vj hs
    have hc := crossingLng_comm p.1 vi vj hne
    unfold crossingLng at hc
    unfold crossesExact
    rw [← straddles_comm p vi vj, hc]

theorem clearOfEdge_comm (p vi vj : Point) (h : ClearOfEdge p vi vj) : ClearOfEdge p vj vi := by
  intro hs
  rw [straddles_comm] at hs
  obtain ⟨a, b⟩ := h hs
  have hne := straddles_ne p vi vj hs
  rw [abs_sub_comm vi.1 vj.1, abs_sub_comm vi.2 vj.2, ← crossingLng_comm _ _ _ hne]
  exact ⟨a, b⟩

theorem intersect_comm_of_clear (p vi vj : Point) (hbi : |vi.1| ≤ 512 ∧ |vi.2| ≤ 512)
    (hbj : |vj.1| ≤ 512 ∧ |vj.2| ≤ 512) (h : ClearOfEdge p vi vj) :
    intersect p vi vj = intersect p vj vi := by
  rw [intersect_eq_crossesExact p vi vj hbi hbj h,
    intersect_eq_crossesExact p vj vi hbj hbi (clearOfEdge_comm p vi vj h), crossesExact_comm]

theorem crossingCount_of_clear (p : Point) (vs : List Point) (h : ClearOfRing p vs) :
    crossingCount intersect p vs = crossingCount crossesExact p vs := by
  unfold crossingCount
  apply List.countP_congr
  intro i hi
  have hlt := List.mem_range.1 hi
  rw [intersect_eq_crossesExact _ _ _ (h.1 _ (getD_mem vs i hlt))
    (h.1 _ (getD_mem vs _ (prevIndex_lt _ _ hlt))) (h.2 i hlt)]

theorem getD_last_reverse (l : List Point) (d : Point) :
    l.reverse.getD (l.reverse.length - 1) d = l.getD 0 d := by
  cases l with
  | nil => rfl
  | cons a t =>
    rw [List.getD_eq_getElem?_getD]
    simp

theorem getD_zero_reverse (l : List Point) (d : Point) :
    l.reverse.getD 0 d = l.getD (l.length - 1) d := by
  have h := getD_last_reverse l.reverse d
  rw [List.reverse_reverse] at h
  exact h.symm

theorem pathCount_reverse (r : Point → Point → Bool) :
    ∀ l : List Point, pathCount r l.reverse = pathCount (fun a b => r b a) l
  | [] => rfl
  | [_] => rfl
  | a :: b :: t => by
    have ih := pathCount_reverse r (b :: t)
    rw [List.reverse_cons, pathCount_concat r a (0, 0) _ (by simp), ih,
      getD_last_reverse (b :: t) (0, 0), List.getD_cons_zero, add_comm]
    rfl

theorem crossingCount_reverse (c : Point → Point → Point → Bool) (p : Point)
    (vs : List Point) :
    crossingCount c p vs.reverse = crossingCount (fun q a b => c q b a) p vs := by
  by_cases h : vs = []
  · subst h
    rfl
  · rw [crossingCount_eq_path c p vs.reverse (by simpa using h),
      crossingCount_eq_path _ p vs h, pathCount_reverse, getD_last_reverse, getD_zero_reverse]

/-- C25, as the code has it: `pointInPolygon` returns the same result on a
ring and on the ring with its vertices in reverse order, for every ring with
coordinates of at most 512 in absolute value and every point that keeps clear
of the edges of the ring: further from each crossing than the added `1e-12`
and the rounding can shift it. -/
theorem pointInPolygon_reverse (p : Point) (vs : List Point) (h : ClearOfRing p vs) :
    pointInPolygon p vs.reverse = pointInPolygon p vs := by
  rw [pointInPolygon_eq_odd, pointInPolygon_eq_odd, crossingCount_reverse]
  congr 2
  unfold crossingCount
  apply List.countP_congr
  intro i hi
  have hlt := List.mem_range.1 hi
  rw [intersect_comm_of_clear _ _ _ (h.1 _ (getD_mem vs i hlt))
    (h.1 _ (getD_mem vs _ (prevIndex_lt _ _ hlt))) (h.2 i hlt)]

theorem pointInPolygon_reverse_witness :
    ClearOfRing (1 / 2, 10) triangle ∧
      pointInPolygon (1 / 2, 10) triangle.reverse = pointInPolygon (1 / 2, 10) triangle :=
  ⟨by with_unfolding_all decide,
    pointInPolygon_reverse (1 / 2, 10) triangle (by with_unfolding_all decide)⟩

set_option maxRecDepth 100000 in
/-- C25 as worded fails: on a triangle whose latitudes span `2e-12` the point
`(1e-12, 0.2)` is outside in one winding direction and inside in the other. -/
theorem pointInPolygon_reverse_differs :
    pointInPolygon (eps, fl (1 / 5)) tinyTriangle = false ∧
      pointInPolygon (eps, fl (1 / 5)) tinyTriangle.reverse = true := by
  refine ⟨?_, ?_⟩ <;> decide!

/-! ## Points outside the bounding box -/

theorem crossingLng_between (p vi vj : Point) (hs : straddles p vi vj = true) (lo hi : ℚ)
    (h1 : lo ≤ vi.2) (h2 : lo ≤ vj.2) (h3 : vi.2 ≤ hi) (h4 : vj.2 ≤ hi) :
    lo ≤ crossingLng p.1 vi vj ∧ crossingLng p.1 vi vj ≤ hi := by
  unfold crossingLng
  rw [mul_div_assoc]
  have hs01 : 0 ≤ (p.1 - vi.1) / (vj.1 - vi.1) ∧ (p.1 - vi.1) / (vj.1 - vi.1) ≤ 1 := by
    rcases (straddles_iff p vi vj).1 hs with ⟨a, b⟩ | ⟨a, b⟩
    · have hD : vj.1 - vi.1 < 0 := by linarith
      exact ⟨div_nonneg_of_nonpos (by linarith) hD.le, (div_le_one_of_neg hD).2 (by linarith)⟩
    · have hD : 0 < vj.1 - vi.1 := by linarith
      exact ⟨div_nonneg (by linarith) hD.le, (div_le_one hD).2 (by linarith)⟩
  generalize (p.1 - vi.1) / (vj.1 - vi.1) = s at hs01
  obtain ⟨s0, s1⟩ := hs01
  constructor
  · nlinarith [mul_nonneg (sub_nonneg.2 s1) (sub_nonneg.2 h1), mul_nonneg s0 (sub_nonneg.2 h2)]
  · nlinarith [mul_nonneg (sub_nonneg.2 s1) (sub_nonneg.2 h3), mul_nonneg s0 (sub_nonneg.2 h4)]

theorem crossesExact_east (p vi vj : Point) (hi : ℚ) (h3 : vi.2 ≤ hi) (h4 : vj.2 ≤ hi)
    (hp : hi < p.2) : crossesExact p vi vj = false := by
  cases hs : straddles p vi vj
  · unfold crossesExact
    rw [hs]
    rfl
  · have hb := (crossingLng_between p vi vj hs (min vi.2 vj.2) hi (min_le_left _ _)
      (min_le_right _ _) h3 h4).2
    unfold crossingLng at hb
    unfold crossesExact
    rw [hs, Bool.true_and, decide_eq_false_iff_not]
    intro hlt
    linarith

theorem crossesExact_west (p vi vj : Point) (lo : ℚ) (h1 : lo ≤ vi.2) (h2 : lo ≤ vj.2)
    (hp : p.2 < lo) : crossesExact p vi vj = straddles p vi vj := by
  cases hs : straddles p vi vj
  · unfold crossesExact
    rw [hs]
    rfl
  · have hb := (crossingLng_between p vi vj hs lo (max vi.2 vj.2) h1 h2 (le_max_left _ _)
      (le_max_right _ _)).1
    unfold crossingLng at hb
    unfold crossesExact
    rw [hs, Bool.true_and, decide_eq_true_iff]
    linarith

theorem bne_parity (x y z : Bool) (n : Nat)
    (h : (n + if (y != z) = true then 1 else 0) % 2 = 0) :
    ((if (y != x) = true then 1 else 0) + n + if (x != z) = true then 1 else 0) % 2 = 0 := by
  cases x <;> cases y <;> cases z <;> simp at h ⊢ <;> omega

theorem pathCount_bne_even (f : Point → Bool) (d : Point) :
    ∀ l : List Point, l ≠ [] →
      (pathCount (fun a b => f a != f b) l +
        (if (f (l.getD 0 d) != f (l.getD (l.length - 1) d)) = true then 1 else 0)) % 2 = 0
  | [], h => absurd rfl h
  | [a], _ => by simp [pathCount]
  | a :: b :: t, _ => by
    have ih := pathCount_bne_even f d (b :: t) (by simp)
    simp only [pathCount, List.length_cons, Nat.add_sub_cancel, List.getD_cons_succ,
      List.getD_cons_zero] at ih ⊢
    exact bne_parity _ _ _ _ ih

theorem crossingCount_straddles_even (p : Point) (vs : List Point) :
    crossingCount straddles p vs % 2 = 0 := by
  by_cases h : vs = []
  · subst h
    rfl
  · have e : straddles p = fun a b => (decide (a.1 > p.1) != decide (b.1 > p.1)) := by
      funext a b
      exact (bne_eq_straddles p a b).symm
    rw [crossingCount_eq_path straddles p vs h, e]
    exact pathCount_bne_even (fun v => decide (v.1 > p.1)) (0, 0) vs h

theorem intersect_false_of_not_straddles (p vi vj : Point) (h : straddles p vi vj = false) :
    intersect p vi vj = false := by
  unfold intersect
  simp only [bne_eq_straddles, h, Bool.false_and]

/-- C26, as the code has it: `pointInPolygon` returns false for every point
whose latitude is below `minLat` or above `maxLat`, and, on a ring with
coordinates of at most 512 in absolute value, for every point whose longitude
is below `minLng` or above `maxLng` and that keeps clear of the edges of the
ring: further from each crossing than the added `1e-12` and the rounding can
shift it. -/
theorem pointInPolygon_outside_box (p : Point) (vs : List Point) (rows cols : Nat) :
    ((p.1 < (mkGrid vs rows cols).minLat ∨ (mkGrid vs rows cols).maxLat < p.1) →
      pointInPolygon p vs = false) ∧
    (ClearOfRing p vs →
      (p.2 < (mkGrid vs rows cols).minLng ∨ (mkGrid vs rows cols).maxLng < p.2) →
      pointInPolygon p vs = false) := by
  have hlat : ∀ v ∈ vs, (mkGrid vs rows cols).minLat ≤ v.1 ∧ v.1 ≤ (mkGrid vs rows cols).maxLat :=
    fun v hv => ⟨jsMin_le _ _ (List.mem_map_of_mem _ hv), le_jsMax _ _ (List.mem_map_of_mem _ hv)⟩
  have hlng : ∀ v ∈ vs, (mkGrid vs rows cols).minLng ≤ v.2 ∧ v.2 ≤ (mkGrid vs rows cols).maxLng :=
    fun v hv => ⟨jsMin_le _ _ (List.mem_map_of_mem _ hv), le_jsMax _ _ (List.mem_map_of_mem _ hv)⟩
  constructor
  · intro hout
    apply pointInPolygon_false_of_no_crossing
    intro vi hvi vj hvj
    apply intersect_false_of_not_straddles
    rw [← Bool.not_eq_true]
    intro hs
    have hi := hlat vi hvi
    have hj := hlat vj hvj
    rcases (straddles_iff p vi vj).1 hs with ⟨a, b⟩ | ⟨a, b⟩ <;> rcases hout with ho | ho <;>
      linarith
  · intro hclear hout
    rw [pointInPolygon_eq_odd, crossingCount_of_clear p vs hclear]
    rcases hout with ho | ho
    · have hc : crossingCount crossesExact p vs = crossingCount straddles p vs := by
        unfold crossingCount
        apply List.countP_congr
        intro i hi
        have hlt := List.mem_range.1 hi
        rw [crossesExact_west p _ _ _ (hlng _ (getD_mem vs i hlt)).1
          (hlng _ (getD_mem vs _ (prevIndex_lt _ _ hlt))).1 ho]
      have hev := crossingCount_straddles_even p vs
      rw [hc, decide_eq_false_iff_not, Nat.odd_iff]
      omega
    · have hc : crossingCount crossesExact p vs = 0 := by
        unfold crossingCount
        rw [List.countP_eq_zero]
        intro i hi
        have hlt := List.mem_range.1 hi
        rw [crossesExact_east p _ _ _ (hlng _ (getD_mem vs i hlt)).2
          (hlng _ (getD_mem vs _ (prevIndex_lt _ _ hlt))).2 ho]
        exact Bool.false_ne_true
      rw [hc]
      decide

theorem pointInPolygon_outside_box_witness :
    ClearOfRing (1 / 2, 2) unitTriangle ∧ (mkGrid unitTriangle 15 15).maxLng < 2 ∧
      pointInPolygon (1 / 2, 2) unitTriangle = false :=
  ⟨by with_unfolding_all decide, by with_unfolding_all decide,
    (pointInPolygon_outside_box (1 / 2, 2) unitTriangle 15 15).2 (by with_unfolding_all decide)
      (Or.inr (by with_unfolding_all decide))⟩

set_option maxRecDepth 100000 in
/-- C26 as worded fails: the point `(0, 1.0000000000005)` lies east of the
bounding box `[0, 1] x [0, 1]` of a triangle, and `pointInPolygon` returns true
for it. -/
theorem pointInPolygon_east_of_box :
    (mkGrid unitTriangle 15 15).maxLng < eastOfBox.2 ∧
      pointInPolygon eastOfBox unitTriangle = true := by
  refine ⟨?_, ?_⟩ <;> decide!

end SugarCane
